import Mathlib

/-!
# Traffic-light presence indicator: embedding of the firmware core

Shallow embedding of `src/firmware`: the button debouncer (`ButtonInput`), the pixel
surface (`LedRing`), the six animation strategies, the scheduler (`AnimationManager`),
the command layer (`Commands`), the effect resolver (`TeamsPresence`), the control
loop of `main.cpp` and the setter handlers of `HttpApi`.

Machine integers are natural numbers; every place where the firmware relies on
fixed-width arithmetic carries an explicit reduction (`% 256`, `% 65536`,
`% 4294967296`).  The target is a 32-bit microcontroller, so `unsigned long` and
`uint32_t` are both 32 bits wide.
-/

namespace TrafficLight

/-! ## Fixed-width helpers -/

/-- Unsigned 32-bit subtraction `a - b`, as computed on `uint32_t` operands. -/
def sub32 (a b : Nat) : Nat :=
  (a + (4294967296 - b % 4294967296)) % 4294967296

/-! ## Config.h -/

namespace Config

def NUM_PIXELS : Nat := 3

def PRESENCE_POLL_INTERVAL_MS : Nat := 60000

def STROBE_DURATION_MS : Nat := 1000

end Config

/-! ## ButtonInput.h / ButtonInput.cpp -/

inductive ButtonEvent where
  | None
  | Click1
  | Click2
  | Click3
  | Hold
deriving DecidableEq, Repr

/-- Private members of `class ButtonInput`, with the in-class initialisers as defaults.
`_clickCount` is a `uint8_t`, the three timestamps are `uint32_t`. -/
structure ButtonInput where
  _activeLow : Bool := true
  _lastRawState : Bool := false
  _stableState : Bool := false
  _lastDebounceMs : Nat := 0
  _clickCount : Nat := 0
  _lastReleaseMs : Nat := 0
  _pressStartMs : Nat := 0
  _holdFired : Bool := false
deriving DecidableEq, Repr

namespace ButtonInput

def DEBOUNCE_MS : Nat := 30

def MULTI_CLICK_WINDOW_MS : Nat := 300

def HOLD_THRESHOLD_MS : Nat := 800

/-- `ButtonInput::readRaw`: `pin` is the level `digitalRead` returns. -/
def readRaw (b : ButtonInput) (pin : Bool) : Bool :=
  if b._activeLow then !pin else pin

/-- `ButtonInput::update(nowMs)`; `raw` is the value `readRaw()` returns in this call.
The result is the returned event together with the object after the call. -/
def update (b : ButtonInput) (raw : Bool) (nowMs : Nat) : ButtonEvent × ButtonInput :=
  -- Debounce
  let b1 : ButtonInput :=
    if raw ≠ b._lastRawState then
      { b with _lastDebounceMs := nowMs, _lastRawState := raw }
    else b
  let debounced : Bool :=
    if sub32 nowMs b1._lastDebounceMs ≥ DEBOUNCE_MS then b1._lastRawState else b1._stableState
  let wasPressed : Bool := b1._stableState
  let isPressed : Bool := debounced
  -- Detect transitions
  let b2 : ButtonInput :=
    if isPressed = true ∧ wasPressed = false then
      { b1 with _pressStartMs := nowMs, _holdFired := false }
    else if isPressed = false ∧ wasPressed = true then
      let b1r : ButtonInput :=
        if b1._holdFired = false then
          { b1 with _clickCount := (b1._clickCount + 1) % 256, _lastReleaseMs := nowMs }
        else b1
      { b1r with _holdFired := false }
    else b1
  -- Hold detection (while still pressed)
  let r3 : ButtonEvent × ButtonInput :=
    if isPressed = true ∧ b2._holdFired = false then
      if sub32 nowMs b2._pressStartMs ≥ HOLD_THRESHOLD_MS then
        (ButtonEvent.Hold, { b2 with _holdFired := true, _clickCount := 0 })
      else (ButtonEvent.None, b2)
    else (ButtonEvent.None, b2)
  -- Multi-click window expired?
  let r4 : ButtonEvent × ButtonInput :=
    if isPressed = false ∧ r3.2._clickCount > 0 then
      if sub32 nowMs r3.2._lastReleaseMs ≥ MULTI_CLICK_WINDOW_MS then
        let ev : ButtonEvent :=
          if r3.2._clickCount = 1 then ButtonEvent.Click1
          else if r3.2._clickCount = 2 then ButtonEvent.Click2
          else if r3.2._clickCount ≥ 3 then ButtonEvent.Click3
          else r3.1
        (ev, { r3.2 with _clickCount := 0 })
      else r3
    else r3
  (r4.1, { r4.2 with _stableState := debounced })

/-- Feed a sequence of `(nowMs, raw)` samples to `update`, one call per sample, and
collect the returned events (oldest first) with the final object. -/
def run (b : ButtonInput) : List (Nat × Bool) → List ButtonEvent × ButtonInput
  | [] => ([], b)
  | (t, raw) :: rest =>
    let r := b.update raw t
    let rr := run r.2 rest
    (r.1 :: rr.1, rr.2)

end ButtonInput

/-! ## AppState.h -/

/-- The shared device state, with the in-class initialisers as defaults.  `pixelColors`
is the `uint32_t[Config::NUM_PIXELS]` array. -/
structure AppState where
  powerOn : Bool := true
  brightness : Nat := 128
  primaryColor : Nat := 0x0000FF
  secondaryColor : Nat := 0x000000
  currentAnimationName : String := "fade"
  speedMs : Nat := 50
  tailLength : Nat := 6
  strobePeriodMs : Nat := 100
  pixelColors : List Nat := [0, 0, 0]
  pixelVersion : Nat := 1
deriving DecidableEq, Repr

/-! ## LedRing.h / LedRing.cpp -/

/-- A call made on the pixel strip. -/
inductive RingOp where
  | setBrightness (brightness : Nat)
  | clear
  | setPixelColor (index color : Nat)
  | show
deriving DecidableEq, Repr

/-- Modelled from the spec: the pixel strip behind `LedRing` (the third-party driver
`_strip`) is the external pixel surface of §6: an indexed colour buffer with
`setPixel(index, color)`, `clear()`, `setBrightness(level)`, `flush()` and
`pixelCount()`, where an index outside `[0, pixelCount())` is rejected.  `pixels` is the
buffer, `shown` the frame last flushed, `log` the calls made so far, oldest first. -/
structure LedRing where
  numPixels : Nat
  pixels : List Nat
  shown : List Nat
  brightness : Nat
  log : List RingOp
deriving DecidableEq, Repr

namespace LedRing

/-- The constructor `LedRing::LedRing(pin, numPixels)`: a dark strip, no call made yet. -/
def init (numPixels : Nat) : LedRing :=
  { numPixels := numPixels, pixels := List.replicate numPixels 0,
    shown := List.replicate numPixels 0, brightness := 255, log := [] }

def setBrightness (ring : LedRing) (brightness : Nat) : LedRing :=
  { ring with brightness := brightness, log := ring.log ++ [RingOp.setBrightness brightness] }

def clear (ring : LedRing) : LedRing :=
  { ring with pixels := List.replicate ring.numPixels 0, log := ring.log ++ [RingOp.clear] }

def setPixelColor (ring : LedRing) (index color : Nat) : LedRing :=
  { ring with
    pixels := if index < ring.numPixels then ring.pixels.set index color else ring.pixels,
    log := ring.log ++ [RingOp.setPixelColor index color] }

def «show» (ring : LedRing) : LedRing :=
  { ring with shown := ring.pixels, log := ring.log ++ [RingOp.show] }

/-- `LedRing::begin`: the driver is started and the (dark) buffer flushed. -/
def begin (ring : LedRing) : LedRing :=
  ring.show

/-- The loop `for (i = 0; i < n; i++) ring.setPixelColor(i, color(i))`, with `k` the
number of iterations still to run. -/
def setPixelsFrom (ring : LedRing) (color : Nat → Nat) (i : Nat) : Nat → LedRing
  | 0 => ring
  | k + 1 => setPixelsFrom (ring.setPixelColor i (color i)) color (i + 1) k

/-- `LedRing::colorRgb` on `uint8_t` channels. -/
def colorRgb (r g b : Nat) : Nat :=
  ((r <<< 16) ||| (g <<< 8)) ||| b

end LedRing

/-! ### Single-precision arithmetic used by `scaleColor` -/

/-- Nearest integer to a non-negative rational, ties to the even neighbour. -/
def roundHalfEven (q : ℚ) : ℤ :=
  let f : ℤ := ⌊q⌋
  if q - f < 1 / 2 then f
  else if 1 / 2 < q - f then f + 1
  else if f % 2 = 0 then f else f + 1

/-- Search for the binary exponent `e` with `2 ^ e ≤ q < 2 ^ (e + 1)` of a positive
rational, starting from the guess `e`. -/
def binExponent (q : ℚ) : Nat → ℤ → ℤ
  | 0, e => e
  | fuel + 1, e =>
    if q < (2 : ℚ) ^ e then binExponent q fuel (e - 1)
    else if (2 : ℚ) ^ (e + 1) ≤ q then binExponent q fuel (e + 1)
    else e

/-- The `float` nearest to the rational `q` (24-bit significand, round to nearest,
ties to even), for magnitudes in the normal range; the firmware only forms values
between `2 ^ (-16)` and `2 ^ 16` or zero. -/
def roundF32 (q : ℚ) : ℚ :=
  if q = 0 then 0
  else
    let a : ℚ := |q|
    let e : ℤ := binExponent a 64 0
    let ulp : ℚ := (2 : ℚ) ^ (e - 23)
    let m : ℚ := (roundHalfEven (a / ulp) : ℚ) * ulp
    if q < 0 then -m else m

/-- Conversion of a non-negative `float` to `uint8_t`: truncation toward zero. -/
def floatToU8 (q : ℚ) : Nat :=
  (⌊q⌋).toNat % 256

namespace LedRing

/-- `LedRing::scaleColor(color, factor)`; `factor` is the value of the `float`
argument.  Each product is a `float` multiplication of the channel by the factor. -/
def scaleColor (color : Nat) (factor : ℚ) : Nat :=
  if factor ≤ 0 then 0
  else if factor ≥ 1 then color
  else
    let r : Nat := floatToU8 (roundF32 ((((color >>> 16) &&& 0xFF : Nat) : ℚ) * factor))
    let g : Nat := floatToU8 (roundF32 ((((color >>> 8) &&& 0xFF : Nat) : ℚ) * factor))
    let b : Nat := floatToU8 (roundF32 (((color &&& 0xFF : Nat) : ℚ) * factor))
    colorRgb r g b

end LedRing

/-! ## animations/*.h, animations/*.cpp -/

/-- Private members of `FadeAnimation` (`_brightness` is a `uint8_t`). -/
structure FadeAnimation where
  _lastStepMs : Nat := 0
  _brightness : Nat := 0
  _increasing : Bool := true
deriving DecidableEq, Repr

/-- Private members of `SpinAnimation` (`_position` is a `uint16_t`). -/
structure SpinAnimation where
  _lastStepMs : Nat := 0
  _position : Nat := 0
deriving DecidableEq, Repr

/-- Private members of `SpinTailAnimation` (`_headPosition` is a `uint16_t`). -/
structure SpinTailAnimation where
  _lastStepMs : Nat := 0
  _headPosition : Nat := 0
deriving DecidableEq, Repr

/-- Private members of `StrobeAnimation`. -/
structure StrobeAnimation where
  _lastToggleMs : Nat := 0
  _on : Bool := false
deriving DecidableEq, Repr

/-- Private members of `SolidAnimation`. -/
structure SolidAnimation where
  _needsRefresh : Bool := true
deriving DecidableEq, Repr

/-- Private members of `PixelsAnimation`. -/
structure PixelsAnimation where
  _lastVersion : Nat := 0
deriving DecidableEq, Repr

namespace FadeAnimation

def onEnter (_a : FadeAnimation) (_state : AppState) : FadeAnimation :=
  { _brightness := 0, _increasing := true, _lastStepMs := 0 }

def update (a : FadeAnimation) (nowMs : Nat) (state : AppState) (ring : LedRing) :
    FadeAnimation × LedRing :=
  if sub32 nowMs a._lastStepMs < state.speedMs then (a, ring)
  else
    let a1 : FadeAnimation := { a with _lastStepMs := nowMs }
    let a2 : FadeAnimation :=
      if a1._increasing = true then
        let a1i : FadeAnimation :=
          if a1._brightness < 255 then { a1 with _brightness := (a1._brightness + 5) % 256 }
          else a1
        if a1i._brightness ≥ 255 then { a1i with _brightness := 255, _increasing := false }
        else a1i
      else
        let a1d : FadeAnimation :=
          if a1._brightness > 0 then { a1 with _brightness := (a1._brightness + 256 - 5) % 256 }
          else a1
        if a1d._brightness = 0 then { a1d with _increasing := true } else a1d
    let color : Nat :=
      LedRing.scaleColor state.primaryColor (roundF32 ((a2._brightness : ℚ) / 255))
    (a2, (ring.setPixelsFrom (fun _ => color) 0 ring.numPixels).show)

end FadeAnimation

namespace SpinAnimation

def onEnter (_a : SpinAnimation) (_state : AppState) : SpinAnimation :=
  { _position := 0, _lastStepMs := 0 }

def update (a : SpinAnimation) (nowMs : Nat) (state : AppState) (ring : LedRing) :
    SpinAnimation × LedRing :=
  if sub32 nowMs a._lastStepMs < state.speedMs then (a, ring)
  else
    let ring1 : LedRing := ((ring.clear).setPixelColor a._position state.primaryColor).show
    ({ _lastStepMs := nowMs, _position := ((a._position + 1) % ring.numPixels) % 65536 }, ring1)

end SpinAnimation

/-- Conversion of an integer to `int16_t`. -/
def wrapInt16 (z : Int) : Int :=
  (z + 32768) % 65536 - 32768

namespace SpinTailAnimation

def onEnter (_a : SpinTailAnimation) (_state : AppState) : SpinTailAnimation :=
  { _headPosition := 0, _lastStepMs := 0 }

/-- The body of the tail loop for trailing offset `t`: the pixel index written. -/
def tailIndex (head numPixels t : Nat) : Nat :=
  let idx : Int := wrapInt16 (wrapInt16 (head : Int) - (t : Int))
  let idx1 : Int := if idx < 0 then wrapInt16 (idx + (numPixels : Int)) else idx
  (idx1 % 65536).toNat

/-- The body of the tail loop for trailing offset `t`: the colour written,
`scaleColor(primaryColor, 1.0f - (float)t / tailLen)`. -/
def tailColor (state : AppState) (tailLen t : Nat) : Nat :=
  LedRing.scaleColor state.primaryColor (roundF32 (1 - roundF32 ((t : ℚ) / (tailLen : ℚ))))

/-- The loop `for (t = ...; t < tailLen; t++)`, with `k` the iterations still to run. -/
def tailFrom (state : AppState) (head numPixels tailLen : Nat) (ring : LedRing) (t : Nat) :
    Nat → LedRing
  | 0 => ring
  | k + 1 =>
    tailFrom state head numPixels tailLen
      (ring.setPixelColor (tailIndex head numPixels t) (tailColor state tailLen t)) (t + 1) k

def update (a : SpinTailAnimation) (nowMs : Nat) (state : AppState) (ring : LedRing) :
    SpinTailAnimation × LedRing :=
  if sub32 nowMs a._lastStepMs < state.speedMs then (a, ring)
  else
    let numPixels : Nat := ring.numPixels
    let tailLen : Nat := if state.tailLength > numPixels then numPixels % 256 else state.tailLength
    let ring1 : LedRing := tailFrom state a._headPosition numPixels tailLen ring.clear 0 tailLen
    ({ _lastStepMs := nowMs, _headPosition := ((a._headPosition + 1) % numPixels) % 65536 },
      ring1.show)

end SpinTailAnimation

namespace StrobeAnimation

def onEnter (_a : StrobeAnimation) (_state : AppState) : StrobeAnimation :=
  { _on := false, _lastToggleMs := 0 }

/-- The gate interval computed at the top of `StrobeAnimation::update`. -/
def halfPeriod (state : AppState) : Nat :=
  if state.strobePeriodMs / 2 = 0 then 50 else state.strobePeriodMs / 2

def update (a : StrobeAnimation) (nowMs : Nat) (state : AppState) (ring : LedRing) :
    StrobeAnimation × LedRing :=
  if sub32 nowMs a._lastToggleMs < halfPeriod state then (a, ring)
  else
    let nowOn : Bool := !a._on
    let color : Nat := if nowOn = true then state.primaryColor else 0
    ({ _lastToggleMs := nowMs, _on := nowOn },
      (ring.setPixelsFrom (fun _ => color) 0 ring.numPixels).show)

end StrobeAnimation

namespace SolidAnimation

def onEnter (_a : SolidAnimation) (_state : AppState) : SolidAnimation :=
  { _needsRefresh := true }

def update (a : SolidAnimation) (_nowMs : Nat) (state : AppState) (ring : LedRing) :
    SolidAnimation × LedRing :=
  if a._needsRefresh = true then
    ({ _needsRefresh := false },
      (ring.setPixelsFrom (fun _ => state.primaryColor) 0 ring.numPixels).show)
  else (a, ring)

end SolidAnimation

namespace PixelsAnimation

def onEnter (_a : PixelsAnimation) (_state : AppState) : PixelsAnimation :=
  { _lastVersion := 0 }

def update (a : PixelsAnimation) (_nowMs : Nat) (state : AppState) (ring : LedRing) :
    PixelsAnimation × LedRing :=
  if a._lastVersion = state.pixelVersion then (a, ring)
  else
    let n : Nat := ring.numPixels
    ({ _lastVersion := state.pixelVersion },
      (ring.setPixelsFrom (fun i => state.pixelColors.getD i 0) 0 (min n Config.NUM_PIXELS)).show)

end PixelsAnimation

/-- The strategy interface `IAnimation`, closed over the six classes that implement it;
each variant carries the private members of its object. -/
inductive IAnimation where
  | fade (a : FadeAnimation)
  | spin (a : SpinAnimation)
  | spinTail (a : SpinTailAnimation)
  | strobe (a : StrobeAnimation)
  | solid (a : SolidAnimation)
  | pixels (a : PixelsAnimation)
deriving DecidableEq, Repr

namespace IAnimation

def name : IAnimation → String
  | fade _ => "fade"
  | spin _ => "spin"
  | spinTail _ => "spinTail"
  | strobe _ => "strobe"
  | solid _ => "solid"
  | pixels _ => "pixels"

def onEnter (anim : IAnimation) (state : AppState) : IAnimation :=
  match anim with
  | fade a => fade (a.onEnter state)
  | spin a => spin (a.onEnter state)
  | spinTail a => spinTail (a.onEnter state)
  | strobe a => strobe (a.onEnter state)
  | solid a => solid (a.onEnter state)
  | pixels a => pixels (a.onEnter state)

/-- None of the six classes overrides `onExit`; the inherited body is empty. -/
def onExit (anim : IAnimation) : IAnimation := anim

def update (anim : IAnimation) (nowMs : Nat) (state : AppState) (ring : LedRing) :
    IAnimation × LedRing :=
  match anim with
  | fade a => let r := a.update nowMs state ring; (fade r.1, r.2)
  | spin a => let r := a.update nowMs state ring; (spin r.1, r.2)
  | spinTail a => let r := a.update nowMs state ring; (spinTail r.1, r.2)
  | strobe a => let r := a.update nowMs state ring; (strobe r.1, r.2)
  | solid a => let r := a.update nowMs state ring; (solid r.1, r.2)
  | pixels a => let r := a.update nowMs state ring; (pixels r.1, r.2)

end IAnimation

/-! ## AnimationManager.h / AnimationManager.cpp -/

/-- Modelled from the spec: `String::equalsIgnoreCase` of the platform's string class,
the "exact case-insensitive match" of §4.2: equal length and equal characters once
letters are lowered. -/
def equalsIgnoreCase (a b : String) : Bool :=
  a.length == b.length && a.toList.map Char.toLower == b.toList.map Char.toLower

/-- A virtual call made by the scheduler on the strategy registered at `index`. -/
inductive StrategyCall where
  | onExit (index : Nat)
  | onEnter (index : Nat)
  | update (index : Nat)
deriving DecidableEq, Repr

/-- Apply `f` to the element at position `i`, as a call through `_animations[i]`. -/
def modifyAt (f : IAnimation → IAnimation) : List IAnimation → Nat → List IAnimation
  | [], _ => []
  | a :: rest, 0 => f a :: rest
  | a :: rest, i + 1 => a :: modifyAt f rest i

/-- Members of `AnimationManager`.  The registered objects are owned by the list (the
firmware reaches them only through the manager).  `calls` records the virtual calls the
manager has made, oldest first; it is bookkeeping for the proofs and is never read. -/
structure AnimationManager where
  _animations : List IAnimation := []
  _activeIndex : Int := -1
  calls : List StrategyCall := []
deriving DecidableEq, Repr

namespace AnimationManager

def addAnimation (mgr : AnimationManager) (anim : IAnimation) : AnimationManager :=
  { mgr with _animations := mgr._animations ++ [anim] }

/-- The statement
`if (_activeIndex >= 0 && _activeIndex < (int)_animations.size()) _animations[_activeIndex]->onExit();` -/
def exitActive (mgr : AnimationManager) : AnimationManager :=
  if 0 ≤ mgr._activeIndex ∧ mgr._activeIndex < (mgr._animations.length : Int) then
    { mgr with
      _animations := modifyAt IAnimation.onExit mgr._animations mgr._activeIndex.toNat,
      calls := mgr.calls ++ [StrategyCall.onExit mgr._activeIndex.toNat] }
  else mgr

/-- The statements `_activeIndex = i; _animations[_activeIndex]->onEnter(state);`. -/
def enterAt (mgr : AnimationManager) (i : Int) (state : AppState) : AnimationManager :=
  { mgr with
    _activeIndex := i,
    _animations := modifyAt (fun a => a.onEnter state) mgr._animations i.toNat,
    calls := mgr.calls ++ [StrategyCall.onEnter i.toNat] }

/-- The search of the `for` loop in `setActive`: the index of the first registered
strategy, from position `i` on, whose name matches. -/
def findFrom (name : String) : List IAnimation → Nat → Option Nat
  | [], _ => none
  | a :: rest, i =>
    if equalsIgnoreCase name a.name = true then some i else findFrom name rest (i + 1)

def setActive (mgr : AnimationManager) (name : String) (state : AppState) : AnimationManager :=
  match findFrom name mgr._animations 0 with
  | some i => (mgr.exitActive).enterAt (i : Int) state
  | none => mgr

def nextAnimation (mgr : AnimationManager) (state : AppState) : AnimationManager :=
  if mgr._animations.length = 0 then mgr
  else
    (mgr.exitActive).enterAt
      (Int.tmod (mgr._activeIndex + 1) (mgr._animations.length : Int)) state

def update (mgr : AnimationManager) (nowMs : Nat) (state : AppState) (ring : LedRing) :
    AnimationManager × LedRing :=
  if 0 ≤ mgr._activeIndex ∧ mgr._activeIndex < (mgr._animations.length : Int) then
    match mgr._animations.get? mgr._activeIndex.toNat with
    | some anim =>
      let r := anim.update nowMs state ring
      ({ mgr with
          _animations := mgr._animations.set mgr._activeIndex.toNat r.1,
          calls := mgr.calls ++ [StrategyCall.update mgr._activeIndex.toNat] }, r.2)
    | none => (mgr, ring)
  else (mgr, ring)

def currentName (mgr : AnimationManager) : String :=
  if 0 ≤ mgr._activeIndex ∧ mgr._activeIndex < (mgr._animations.length : Int) then
    match mgr._animations.get? mgr._activeIndex.toNat with
    | some anim => anim.name
    | none => ""
  else ""

def listNames (mgr : AnimationManager) : List String :=
  mgr._animations.map IAnimation.name

end AnimationManager

/-! ## Commands.h / Commands.cpp -/

namespace Commands

structure PixelUpdate where
  position : Nat
  color : Nat
deriving DecidableEq, Repr

def setPower (state : AppState) (ring : LedRing) (on_ : Bool) : AppState × LedRing :=
  let state1 : AppState := { state with powerOn := on_ }
  if on_ = false then (state1, (ring.clear).show) else (state1, ring)

def togglePower (state : AppState) (ring : LedRing) : AppState × LedRing :=
  setPower state ring (!state.powerOn)

def setBrightness (state : AppState) (ring : LedRing) (brightness : Nat) : AppState × LedRing :=
  ({ state with brightness := brightness }, (ring.setBrightness brightness).show)

def setColor (state : AppState) (color : Nat) : AppState :=
  { state with primaryColor := color }

/-- The overload `setColor(state, position, color)`. -/
def setPixel (state : AppState) (position color : Nat) : AppState :=
  if position ≥ Config.NUM_PIXELS then state
  else
    { state with
      pixelColors := state.pixelColors.set position color,
      pixelVersion := (state.pixelVersion + 1) % 4294967296 }

/-- The loop of `setColors`: the pixel array and the `changed` flag after the entries. -/
def setColorsLoop : List PixelUpdate → List Nat × Bool → List Nat × Bool
  | [], acc => acc
  | u :: rest, acc =>
    if u.position ≥ Config.NUM_PIXELS then setColorsLoop rest acc
    else setColorsLoop rest (acc.1.set u.position u.color, true)

def setColors (state : AppState) (updates : List PixelUpdate) : AppState :=
  let r := setColorsLoop updates (state.pixelColors, false)
  if r.2 = true then
    { state with pixelColors := r.1, pixelVersion := (state.pixelVersion + 1) % 4294967296 }
  else { state with pixelColors := r.1 }

def setAnimation (state : AppState) (mgr : AnimationManager) (name : String) :
    AppState × AnimationManager :=
  let state1 : AppState := { state with currentAnimationName := name }
  (state1, mgr.setActive name state1)

def nextAnimation (state : AppState) (mgr : AnimationManager) : AppState × AnimationManager :=
  let mgr1 : AnimationManager := mgr.nextAnimation state
  ({ state with currentAnimationName := mgr1.currentName }, mgr1)

def setSpeed (state : AppState) (speedMs : Nat) : AppState :=
  { state with speedMs := speedMs }

def setTailLength (state : AppState) (tailLen : Nat) : AppState :=
  { state with tailLength := tailLen }

def setStrobePeriod (state : AppState) (periodMs : Nat) : AppState :=
  { state with strobePeriodMs := periodMs }

end Commands

/-! ## TeamsPresence.h / TeamsPresence.cpp -/

inductive Presence where
  | Available
  | Away
  | BeRightBack
  | Busy
  | DoNotDisturb
  | InACall
  | InAMeeting
  | Presenting
  | Offline
  | Unknown
deriving DecidableEq, Repr

inductive EffectType where
  | Solid
  | Pixel
  | StrobeThenPixel
  | Fade
  | StrobeThenSolid
  | Off
deriving DecidableEq, Repr

inductive TrafficLightState where
  | Bottom
  | Middle
  | Top
  | All
deriving DecidableEq, Repr

structure PresenceEffect where
  type : EffectType
  color : Nat
  trafficLight : TrafficLightState
deriving DecidableEq, Repr

namespace TeamsPresence

/-- `TeamsPresence::mapPresenceToEffect`.  Every `return {type, color};` initialises
only the first two members of the three-member aggregate; the third member is
value-initialised, which for the enum is the enumerator with value 0, `Bottom`. -/
def mapPresenceToEffect (presence : Presence) : PresenceEffect :=
  match presence with
  | Presence.Available => { type := EffectType.Solid, color := 0x00FF00, trafficLight := TrafficLightState.Bottom }
  | Presence.Away => { type := EffectType.Fade, color := 0xFF9600, trafficLight := TrafficLightState.Bottom }
  | Presence.BeRightBack => { type := EffectType.Fade, color := 0xFF9600, trafficLight := TrafficLightState.Bottom }
  | Presence.Busy => { type := EffectType.StrobeThenSolid, color := 0xFF0000, trafficLight := TrafficLightState.Bottom }
  | Presence.DoNotDisturb => { type := EffectType.StrobeThenSolid, color := 0xFF0000, trafficLight := TrafficLightState.Bottom }
  | Presence.InACall => { type := EffectType.StrobeThenSolid, color := 0xFF0000, trafficLight := TrafficLightState.Bottom }
  | Presence.InAMeeting => { type := EffectType.StrobeThenSolid, color := 0xFF0000, trafficLight := TrafficLightState.Bottom }
  | Presence.Presenting => { type := EffectType.StrobeThenSolid, color := 0xFF0000, trafficLight := TrafficLightState.Bottom }
  | Presence.Offline => { type := EffectType.Off, color := 0x000000, trafficLight := TrafficLightState.Bottom }
  | Presence.Unknown => { type := EffectType.Solid, color := 0x0000FF, trafficLight := TrafficLightState.Bottom }

end TeamsPresence

/-! ## main.cpp -/

/-- The global objects and variables of `main.cpp`.  `teamsPresence` is the `_presence`
member of the `TeamsPresence` object, `colorIdx` the function-local `static uint8_t`
of the triple-click branch. -/
structure Device where
  appState : AppState := {}
  ledRing : LedRing := LedRing.init Config.NUM_PIXELS
  animMgr : AnimationManager := {}
  button : ButtonInput := {}
  teamsPresence : Presence := Presence.Unknown
  lastPresencePoll : Nat := 0
  authInProgress : Bool := false
  lastPresence : Presence := Presence.Unknown
  strobeStartTime : Nat := 0
  inStrobePhase : Bool := false
  strobeThen : String := ""
  colorIdx : Nat := 0
deriving DecidableEq, Repr

/-- What one pass of `loop()` reads from its environment.  The HTTP surface is an
external collaborator: the pass modelled is one in which `httpApi->poll()` serves no
request. -/
structure TickInput where
  /-- The value `millis()` returns. -/
  nowMs : Nat
  /-- The value `button.readRaw()` returns. -/
  raw : Bool := false
  /-- The value `msAuth.pollForToken()` returns, if called. -/
  tokenPolled : Bool := false
  /-- Whether `WiFi.status() == WL_CONNECTED`. -/
  wifiConnected : Bool := true
  /-- The outcome of `teamsPresence.fetchPresence()`, if called: `some p` when it
  returns true having stored classification `p`, `none` when it returns false. -/
  fetched : Option Presence := none
  /-- The value `msAuth.hasValidToken()` returns, if called. -/
  hasValidToken : Bool := true
  /-- The value `msAuth.startDeviceFlow()` returns, if called. -/
  deviceFlowStarted : Bool := false
deriving DecidableEq, Repr

/-- The preset colours of the triple-click branch. -/
def presetColors : List Nat :=
  [0x0000FF, 0x00FF00, 0xFF0000, 0xFF00FF, 0x00FFFF, 0xFFFF00, 0xFFFFFF]

/-- The animation registration of `setup()` followed by
`animMgr.setActive(appState.currentAnimationName, appState)`, with the strip
initialised as in `setup()`. -/
def setup : Device :=
  let appState : AppState := {}
  let ring : LedRing :=
    (((((LedRing.init Config.NUM_PIXELS).begin).setBrightness appState.brightness).clear).show)
  let mgr0 : AnimationManager := {}
  let mgr : AnimationManager :=
    (((((mgr0.addAnimation (IAnimation.fade {})).addAnimation (IAnimation.spin {})).addAnimation
      (IAnimation.spinTail {})).addAnimation (IAnimation.strobe {})).addAnimation
      (IAnimation.solid {})).addAnimation (IAnimation.pixels {})
  { appState := appState, ledRing := ring,
    animMgr := mgr.setActive appState.currentAnimationName appState }

/-- `Commands::setAnimation(appState, animMgr, name)` on the globals. -/
def Device.setAnimation (d : Device) (name : String) : Device :=
  let r := Commands.setAnimation d.appState d.animMgr name
  { d with appState := r.1, animMgr := r.2 }

/-- The `switch (evt)` of `loop()`. -/
def handleButton (d : Device) (evt : ButtonEvent) : Device :=
  match evt with
  | ButtonEvent.Click1 =>
    let r := Commands.nextAnimation d.appState d.animMgr
    { d with appState := r.1, animMgr := r.2 }
  | ButtonEvent.Click2 =>
    if d.animMgr.currentName = "strobe" then d.setAnimation "fade"
    else d.setAnimation "strobe"
  | ButtonEvent.Click3 =>
    let colorIdx : Nat := ((d.colorIdx + 1) % 7) % 256
    { d with colorIdx := colorIdx,
             appState := Commands.setColor d.appState (presetColors.getD colorIdx 0) }
  | ButtonEvent.Hold =>
    let r := Commands.togglePower d.appState d.ledRing
    { d with appState := r.1, ledRing := r.2 }
  | ButtonEvent.None => d

/-- The first `switch` of the presence branch, on `effect.trafficLight`, run after every
entry of `pixelColors` has been cleared: the pixel array and the effect afterwards. -/
def stampTrafficLight (effect : PresenceEffect) : List Nat × PresenceEffect :=
  let cleared : List Nat := List.replicate Config.NUM_PIXELS 0x000000
  match effect.trafficLight with
  | TrafficLightState.Bottom =>
    (cleared.set 0 effect.color, { effect with type := EffectType.StrobeThenPixel })
  | TrafficLightState.Middle =>
    (cleared.set 1 effect.color, { effect with type := EffectType.Pixel })
  | TrafficLightState.Top =>
    (cleared.set 2 effect.color, { effect with type := EffectType.Pixel })
  | TrafficLightState.All =>
    (List.replicate Config.NUM_PIXELS effect.color, effect)

/-- The second `switch` of the presence branch, on `effect.type`. -/
def selectAnimation (d : Device) (nowMs : Nat) (type : EffectType) : Device :=
  match type with
  | EffectType.Solid => d.setAnimation "solid"
  | EffectType.Pixel => d.setAnimation "pixels"
  | EffectType.StrobeThenPixel =>
    { d.setAnimation "strobe" with
      strobeStartTime := nowMs, inStrobePhase := true, strobeThen := "pixels" }
  | EffectType.Fade => d.setAnimation "fade"
  | EffectType.StrobeThenSolid =>
    { d.setAnimation "strobe" with
      strobeStartTime := nowMs, inStrobePhase := true, strobeThen := "solid" }
  | EffectType.Off =>
    { d with appState := { d.appState with powerOn := false },
             ledRing := (d.ledRing.clear).show }

/-- The part of the presence branch that applies an effect descriptor: from
`appState.primaryColor = effect.color` to the final power-on guard. -/
def applyEffect (d : Device) (nowMs : Nat) (effect : PresenceEffect) : Device :=
  let stamped := stampTrafficLight effect
  let d1 : Device :=
    { d with appState := { d.appState with primaryColor := effect.color, pixelColors := stamped.1 } }
  let d2 : Device := selectAnimation d1 nowMs stamped.2.type
  if stamped.2.type ≠ EffectType.Off then
    { d2 with appState := { d2.appState with powerOn := true } }
  else d2

/-- The body of `if (teamsPresence.fetchPresence())` when the call succeeded and stored
`currentPresence`: nothing happens unless the classification differs from the last one
seen. -/
def presenceStep (d : Device) (nowMs : Nat) (currentPresence : Presence) : Device :=
  if currentPresence ≠ d.lastPresence then
    applyEffect { d with lastPresence := currentPresence } nowMs
      (TeamsPresence.mapPresenceToEffect currentPresence)
  else d

/-- The device-flow polling block and the presence polling block of `loop()`. -/
def pollPresence (d : Device) (inp : TickInput) : Device :=
  let d1 : Device :=
    if d.authInProgress = true then
      if inp.tokenPolled = true then { d with authInProgress := false, lastPresencePoll := 0 }
      else d
    else d
  if d1.authInProgress = false ∧ inp.wifiConnected = true then
    if sub32 inp.nowMs d1.lastPresencePoll ≥ Config.PRESENCE_POLL_INTERVAL_MS
        ∨ d1.lastPresencePoll = 0 then
      let d2 : Device := { d1 with lastPresencePoll := inp.nowMs }
      match inp.fetched with
      | some currentPresence =>
        presenceStep { d2 with teamsPresence := currentPresence } inp.nowMs currentPresence
      | none =>
        if inp.hasValidToken = false then
          if inp.deviceFlowStarted = true then { d2 with authInProgress := true } else d2
        else d2
    else d1
  else d1

/-- The block "Handle strobe -> solid transition" of `loop()`. -/
def settleStep (d : Device) (nowMs : Nat) : Device :=
  if d.inStrobePhase = true ∧ sub32 nowMs d.strobeStartTime ≥ Config.STROBE_DURATION_MS then
    { d.setAnimation d.strobeThen with inStrobePhase := false }
  else d

/-- The block "Update animation (only if powered on)" of `loop()`. -/
def renderStep (d : Device) (nowMs : Nat) : Device :=
  if d.appState.powerOn = true then
    let r := d.animMgr.update nowMs d.appState d.ledRing
    { d with animMgr := r.1, ledRing := r.2 }
  else d

/-- One pass of `loop()`. -/
def loop (d : Device) (inp : TickInput) : Device :=
  let r := d.button.update inp.raw inp.nowMs
  let d1 : Device := handleButton { d with button := r.2 } r.1
  let d2 : Device := pollPresence d1 inp
  let d3 : Device := settleStep d2 inp.nowMs
  renderStep d3 inp.nowMs

/-- Run `loop()` once per input, oldest first. -/
def runLoop (d : Device) : List TickInput → Device
  | [] => d
  | inp :: rest => runLoop (loop d inp) rest

/-! ## Auxiliary definitions used by the statements and proofs -/

/-- The search of `AnimationManager.findFrom`, on the list of registered names. -/
def findName (name : String) : List String → Nat → Option Nat
  | [], _ => none
  | n :: rest, i =>
    if equalsIgnoreCase name n = true then some i else findName name rest (i + 1)

/-- The device right after `setup()` has seen classification `Busy` at time 5000. -/
def busyAt5000 : Device :=
  loop setup { nowMs := 5000, fetched := some Presence.Busy }

namespace ButtonInput

/-- The click event for a pending count, as chosen by the `if` chain of `update`. -/
def clickEvent (n : Nat) : ButtonEvent :=
  if n = 1 then ButtonEvent.Click1
  else if n = 2 then ButtonEvent.Click2
  else if n ≥ 3 then ButtonEvent.Click3
  else ButtonEvent.None

/-- The "Debounce" statement of `update`: the raw-sample bookkeeping. -/
def debounceRaw (b : ButtonInput) (raw : Bool) (nowMs : Nat) : ButtonInput :=
  if raw ≠ b._lastRawState then
    { b with _lastDebounceMs := nowMs, _lastRawState := raw }
  else b

/-- The debounced reading `update` computes after the raw-sample bookkeeping. -/
def debouncedOf (b1 : ButtonInput) (nowMs : Nat) : Bool :=
  if sub32 nowMs b1._lastDebounceMs ≥ DEBOUNCE_MS then b1._lastRawState else b1._stableState

/-- The rest of `update` once the debounced reading `deb` is known. -/
def afterDebounce (b1 : ButtonInput) (deb : Bool) (nowMs : Nat) : ButtonEvent × ButtonInput :=
  let b2 : ButtonInput :=
    if deb = true ∧ b1._stableState = false then
      { b1 with _pressStartMs := nowMs, _holdFired := false }
    else if deb = false ∧ b1._stableState = true then
      let b1r : ButtonInput :=
        if b1._holdFired = false then
          { b1 with _clickCount := (b1._clickCount + 1) % 256, _lastReleaseMs := nowMs }
        else b1
      { b1r with _holdFired := false }
    else b1
  let r3 : ButtonEvent × ButtonInput :=
    if deb = true ∧ b2._holdFired = false then
      if sub32 nowMs b2._pressStartMs ≥ HOLD_THRESHOLD_MS then
        (ButtonEvent.Hold, { b2 with _holdFired := true, _clickCount := 0 })
      else (ButtonEvent.None, b2)
    else (ButtonEvent.None, b2)
  let r4 : ButtonEvent × ButtonInput :=
    if deb = false ∧ r3.2._clickCount > 0 then
      if sub32 nowMs r3.2._lastReleaseMs ≥ MULTI_CLICK_WINDOW_MS then
        let ev : ButtonEvent :=
          if r3.2._clickCount = 1 then ButtonEvent.Click1
          else if r3.2._clickCount = 2 then ButtonEvent.Click2
          else if r3.2._clickCount ≥ 3 then ButtonEvent.Click3
          else r3.1
        (ev, { r3.2 with _clickCount := 0 })
      else r3
    else r3
  (r4.1, { r4.2 with _stableState := deb })

end ButtonInput

/-- Timestamps of a sample sequence are 32-bit values in non-decreasing order. -/
def NonDecreasing32 (samples : List (Nat × Bool)) : Prop :=
  samples.Pairwise (fun a b => a.1 ≤ b.1) ∧ ∀ s ∈ samples, s.1 < 4294967296

/-- The raw reading is never observed pressed over a span of 30 ms: in every run of
consecutive samples that all read pressed, any two timestamps are less than 30 apart. -/
def ShortPressesOnly (samples : List (Nat × Bool)) : Prop :=
  ∀ seg : List (Nat × Bool), seg <:+: samples → (∀ s ∈ seg, s.2 = true) →
    ∀ a ∈ seg, ∀ b ∈ seg, b.1 - a.1 < 30

/-- Both conditions on the input of the glitch-rejection statement. -/
def GlitchInput (samples : List (Nat × Bool)) : Prop :=
  NonDecreasing32 samples ∧ ShortPressesOnly samples

/-- A bouncing input: pressed at 100, released at 110, pressed at 120 and 125, released
at 129. -/
def bounceSamples : List (Nat × Bool) :=
  [(100, true), (110, false), (120, true), (125, true), (129, false)]

namespace ButtonInput

/-- The objects after each call of `run`, oldest first. -/
def runStates (b : ButtonInput) : List (Nat × Bool) → List ButtonInput
  | [] => []
  | (t, raw) :: rest => (b.update raw t).2 :: runStates (b.update raw t).2 rest

end ButtonInput

namespace ButtonInput

/-- The object with its three stored timestamps advanced by `d` on the 32-bit clock. -/
def shift (b : ButtonInput) (d : Nat) : ButtonInput :=
  { b with
    _lastDebounceMs := (b._lastDebounceMs + d) % 4294967296,
    _pressStartMs := (b._pressStartMs + d) % 4294967296,
    _lastReleaseMs := (b._lastReleaseMs + d) % 4294967296 }

end ButtonInput

/-- A released debouncer whose raw input has read pressed since time 0. -/
def pressPending : ButtonInput :=
  { _lastRawState := true, _lastDebounceMs := 0 }

/-- Samples of a long press after the tick at 30: still pressed at 500 and 830, a raw
release first seen at 950. -/
def longPress : List (Nat × Bool) :=
  [(500, true), (830, true), (950, false)]

/-- One press/release cycle starting at `base`: the raw input reads pressed at `base` and
`base + 30` (debounced press), released at `base + 60` and `base + 90` (debounced
release). -/
def clickCycle (base : Nat) : List (Nat × Bool) :=
  [(base, true), (base + 30, true), (base + 60, false), (base + 90, false)]

/-- The samples of `n` cycles, 100 ms apart, the first at `base`. -/
def rapidClicksFrom : Nat → Nat → List (Nat × Bool)
  | _, 0 => []
  | base, n + 1 => clickCycle base ++ rapidClicksFrom (base + 100) n

/-- The samples of `n` rapid clicks from time 0 (each debounced press lasts 60 ms, each
next debounced press begins 40 ms after the previous debounced release), followed by one
released sample 300 ms after the last debounced release. -/
def rapidClicks (n : Nat) : List (Nat × Bool) :=
  rapidClicksFrom 0 n ++ [(100 * n + 290, false)]

/-- What `loop()` keeps true of the scheduler and the settle timer: the registered
names never change, and an armed timer remembers "solid" or "pixels". -/
def LoopInvariant (d : Device) : Prop :=
  d.animMgr.listNames = setup.animMgr.listNames ∧
  (d.inStrobePhase = true → d.strobeThen = "solid" ∨ d.strobeThen = "pixels")

namespace AnimationManager

/-- The `onExit` call the two switching operations make first: one call on the active
strategy, none when no strategy is active. -/
def exitCalls (mgr : AnimationManager) : List StrategyCall :=
  if 0 ≤ mgr._activeIndex ∧ mgr._activeIndex < (mgr._animations.length : Int) then
    [StrategyCall.onExit mgr._activeIndex.toNat]
  else []

/-- `nextAnimation` called `n` times in a row; `states k` is the shared state passed to
call number `k`. -/
def nextTimes (mgr : AnimationManager) (states : Nat → AppState) : Nat → AnimationManager
  | 0 => mgr
  | n + 1 => (nextTimes mgr states n).nextAnimation (states n)

end AnimationManager

namespace LedRing

/-- The red channel of a packed colour, as `scaleColor` extracts it. -/
def red (color : Nat) : Nat := (color >>> 16) &&& 0xFF

/-- The green channel of a packed colour, as `scaleColor` extracts it. -/
def green (color : Nat) : Nat := (color >>> 8) &&& 0xFF

/-- The blue channel of a packed colour, as `scaleColor` extracts it. -/
def blue (color : Nat) : Nat := color &&& 0xFF

end LedRing

namespace Commands

/-- The pixel array after applying, in order, the entries whose position is in range. -/
def applyInRange (pixels : List Nat) (updates : List PixelUpdate) : List Nat :=
  (updates.filter (fun u => decide (u.position < Config.NUM_PIXELS))).foldl
    (fun p u => p.set u.position u.color) pixels

end Commands

/-! ## HttpApi.cpp: the setter handlers -/

namespace HttpApi

/-- `HttpApi::handleSetBrightness`; `val` is the value of the local `int val` once the
request has been read (the `value` argument or JSON member, -1 when absent).  The result
is whether `sendOk()` was reached, with the globals after the call. -/
def handleSetBrightness (d : Device) (val : Int) : Bool × Device :=
  if val < 0 ∨ val > 255 then (false, d)
  else
    let r := Commands.setBrightness d.appState d.ledRing (val % 256).toNat
    (true, { d with appState := r.1, ledRing := r.2 })

/-- `HttpApi::handleSetSpeed`; the argument of `setSpeed` is `(uint16_t)val`. -/
def handleSetSpeed (d : Device) (val : Int) : Bool × Device :=
  if val < 1 then (false, d)
  else (true, { d with appState := Commands.setSpeed d.appState (val % 65536).toNat })

/-- `HttpApi::handleSetTail`; the argument of `setTailLength` is `(uint8_t)val`. -/
def handleSetTail (d : Device) (val : Int) : Bool × Device :=
  if val < 1 ∨ val > 12 then (false, d)
  else (true, { d with appState := Commands.setTailLength d.appState (val % 256).toNat })

/-- `HttpApi::handleSetStrobe`; the argument of `setStrobePeriod` is `(uint16_t)val`. -/
def handleSetStrobe (d : Device) (val : Int) : Bool × Device :=
  if val < 10 then (false, d)
  else (true, { d with appState := Commands.setStrobePeriod d.appState (val % 65536).toNat })

/-- `HttpApi::handleSetPixel`; `pos` and `colorStr` are the locals once the request has
been read, `color` is the value `parseColor(colorStr)` returns. -/
def handleSetPixel (d : Device) (pos : Int) (colorStr : String) (color : Nat) : Bool × Device :=
  if pos < 0 ∨ pos ≥ (Config.NUM_PIXELS : Int) then (false, d)
  else if colorStr.length = 0 then (false, d)
  else
    let d1 : Device :=
      { d with appState := Commands.setPixel d.appState (pos % 65536).toNat color }
    (true, d1.setAnimation "pixels")

end HttpApi

namespace ButtonInput

/-- The result of each call of `run`: the returned event and the object after the call,
oldest first. -/
def trace (b : ButtonInput) : List (Nat × Bool) → List (ButtonEvent × ButtonInput)
  | [] => []
  | (t, raw) :: rest => b.update raw t :: trace (b.update raw t).2 rest

end ButtonInput

/-- A released debouncer with two clicks pending since a release at time 0. -/
def burstPending : ButtonInput :=
  { _clickCount := 2 }

/-- Run a strategy's `update` once per call, oldest first; each call carries the
timestamp and the shared state passed in. -/
def runUpdates {α : Type} (upd : α → Nat → AppState → LedRing → α × LedRing) (a : α)
    (ring : LedRing) : List (Nat × AppState) → α × LedRing
  | [] => (a, ring)
  | (nowMs, state) :: rest =>
    runUpdates upd (upd a nowMs state ring).1 (upd a nowMs state ring).2 rest

/-- Every call of the sequence passes the time gate: its 32-bit distance from the
previous call (from `last` for the first call) is at least `gate state`. -/
def NonGated (gate : AppState → Nat) : Nat → List (Nat × AppState) → Prop
  | _, [] => True
  | last, (nowMs, state) :: rest => gate state ≤ sub32 nowMs last ∧ NonGated gate nowMs rest

namespace FadeAnimation

/-- The brightness statements of `update`, on `_brightness` and `_increasing`. -/
def step (brightness : Nat) (increasing : Bool) : Nat × Bool :=
  if increasing = true then
    let b1 : Nat := if brightness < 255 then (brightness + 5) % 256 else brightness
    if b1 ≥ 255 then (255, false) else (b1, true)
  else
    let b1 : Nat := if brightness > 0 then (brightness + 256 - 5) % 256 else brightness
    if b1 = 0 then (b1, true) else (b1, false)

/-- Brightness of the triangle wave at position `r` of its period of 102 steps. -/
def triangle (r : Nat) : Nat :=
  if r ≤ 51 then 5 * r else 255 - 5 * (r - 51)

/-- Brightness and direction after `k` steps from the phase set by `onEnter`. -/
def phase (k : Nat) : Nat × Bool :=
  (triangle (k % 102), decide (k % 102 < 51))

end FadeAnimation

/-- The `switch (evt)` of `loop()` run on the same event `n` times in a row. -/
def handleButtonTimes (evt : ButtonEvent) : Nat → Device → Device
  | 0, d => d
  | n + 1, d => handleButtonTimes evt n (handleButton d evt)

theorem sub32_eq_emod (a b : Nat) :
    (sub32 a b : Int) = ((a : Int) - (b : Int)) % 4294967296 := by
  unfold sub32
  omega

theorem name_onEnter (a : IAnimation) (s : AppState) : (a.onEnter s).name = a.name := by
  cases a <;> rfl

theorem map_name_modifyAt (f : IAnimation → IAnimation) (hf : ∀ a, (f a).name = a.name)
    (l : List IAnimation) (i : Nat) :
    (modifyAt f l i).map IAnimation.name = l.map IAnimation.name := by
  induction l generalizing i with
  | nil => rfl
  | cons a rest ih =>
    cases i with
    | zero => simp [modifyAt, hf]
    | succ i => simp [modifyAt, ih]

theorem length_modifyAt (f : IAnimation → IAnimation) (l : List IAnimation) (i : Nat) :
    (modifyAt f l i).length = l.length := by
  induction l generalizing i with
  | nil => rfl
  | cons a rest ih =>
    cases i with
    | zero => simp [modifyAt]
    | succ i => simp [modifyAt, ih]

theorem modifyAt_onExit (l : List IAnimation) (i : Nat) : modifyAt IAnimation.onExit l i = l := by
  induction l generalizing i with
  | nil => rfl
  | cons a rest ih =>
    cases i with
    | zero => simp [modifyAt, IAnimation.onExit]
    | succ i => simp [modifyAt, ih]

theorem findFrom_eq_findName (name : String) (l : List IAnimation) (i : Nat) :
    AnimationManager.findFrom name l i = findName name (l.map IAnimation.name) i := by
  induction l generalizing i with
  | nil => rfl
  | cons a rest ih => simp [AnimationManager.findFrom, findName, ih]

theorem currentName_eq_getD (mgr : AnimationManager) :
    mgr.currentName =
      if 0 ≤ mgr._activeIndex ∧ mgr._activeIndex < (mgr._animations.length : Int) then
        mgr.listNames.getD mgr._activeIndex.toNat ""
      else "" := by
  unfold AnimationManager.currentName AnimationManager.listNames
  split
  · rename_i h
    have hlt : mgr._activeIndex.toNat < mgr._animations.length := by omega
    simp [List.getD, List.getElem?_map, List.get?_eq_getElem?, List.getElem?_eq_getElem hlt]
  · rfl

theorem listNames_exitActive (mgr : AnimationManager) :
    mgr.exitActive.listNames = mgr.listNames := by
  unfold AnimationManager.exitActive AnimationManager.listNames
  split
  · exact map_name_modifyAt _ (fun _ => rfl) _ _
  · rfl

theorem listNames_enterAt (mgr : AnimationManager) (i : Int) (s : AppState) :
    (mgr.enterAt i s).listNames = mgr.listNames := by
  unfold AnimationManager.enterAt AnimationManager.listNames
  exact map_name_modifyAt _ (fun a => name_onEnter a s) _ _

theorem length_listNames (mgr : AnimationManager) :
    mgr.listNames.length = mgr._animations.length := by
  simp [AnimationManager.listNames]

theorem activeIndex_enterAt (mgr : AnimationManager) (i : Int) (s : AppState) :
    (mgr.enterAt i s)._activeIndex = i := rfl

/-- When the search finds index `i`, `setActive` leaves the registered names as they
were and makes `i` the active index. -/
theorem setActive_of_found (mgr : AnimationManager) (name : String) (s : AppState) (i : Nat)
    (h : AnimationManager.findFrom name mgr._animations 0 = some i) :
    (mgr.setActive name s).listNames = mgr.listNames ∧
      (mgr.setActive name s)._activeIndex = (i : Int) := by
  unfold AnimationManager.setActive
  rw [h]
  exact ⟨by rw [listNames_enterAt, listNames_exitActive], rfl⟩

/-- On the registry of `setup()`, activating "solid" or "pixels" makes that name the
current one. -/
theorem currentName_setActive_then (mgr : AnimationManager) (name : String) (s : AppState)
    (hreg : mgr.listNames = setup.animMgr.listNames)
    (hname : name = "solid" ∨ name = "pixels") :
    (mgr.setActive name s).currentName = name := by
  have hnames : setup.animMgr.listNames =
      ["fade", "spin", "spinTail", "strobe", "solid", "pixels"] := by decide
  rw [hnames] at hreg
  have hmap : mgr._animations.map IAnimation.name =
      ["fade", "spin", "spinTail", "strobe", "solid", "pixels"] := hreg
  rcases hname with hname | hname
  · subst hname
    have hfind : AnimationManager.findFrom "solid" mgr._animations 0 = some 4 := by
      rw [findFrom_eq_findName, hmap]; decide
    obtain ⟨hl, hi⟩ := setActive_of_found mgr "solid" s 4 hfind
    have hlen : (mgr.setActive "solid" s)._animations.length = 6 := by
      rw [← length_listNames, hl, hreg]; rfl
    rw [currentName_eq_getD, hi, hlen, hl, hreg]
    decide
  · subst hname
    have hfind : AnimationManager.findFrom "pixels" mgr._animations 0 = some 5 := by
      rw [findFrom_eq_findName, hmap]; decide
    obtain ⟨hl, hi⟩ := setActive_of_found mgr "pixels" s 5 hfind
    have hlen : (mgr.setActive "pixels" s)._animations.length = 6 := by
      rw [← length_listNames, hl, hreg]; rfl
    rw [currentName_eq_getD, hi, hlen, hl, hreg]
    decide

/-- C1: `mapPresenceToEffect` yields, for every classification, the effect type and
colour of the fixed table: Available is (Solid, green 0x00FF00); Away and BeRightBack
are (Fade, amber 0xFF9600); Busy, DoNotDisturb, InACall, InAMeeting and Presenting are
(StrobeThenSolid, red 0xFF0000); Offline is (Off, 0x000000); Unknown is
(Solid, blue 0x0000FF). -/
theorem mapPresenceToEffect_table (p : Presence) :
    ((TeamsPresence.mapPresenceToEffect p).type, (TeamsPresence.mapPresenceToEffect p).color) =
      match p with
      | Presence.Available => (EffectType.Solid, 0x00FF00)
      | Presence.Away => (EffectType.Fade, 0xFF9600)
      | Presence.BeRightBack => (EffectType.Fade, 0xFF9600)
      | Presence.Busy => (EffectType.StrobeThenSolid, 0xFF0000)
      | Presence.DoNotDisturb => (EffectType.StrobeThenSolid, 0xFF0000)
      | Presence.InACall => (EffectType.StrobeThenSolid, 0xFF0000)
      | Presence.InAMeeting => (EffectType.StrobeThenSolid, 0xFF0000)
      | Presence.Presenting => (EffectType.StrobeThenSolid, 0xFF0000)
      | Presence.Offline => (EffectType.Off, 0x000000)
      | Presence.Unknown => (EffectType.Solid, 0x0000FF) := by
  cases p <;> rfl

/-- C2 (evaluation of the code where the claim fails): one pass of `loop()` from the
state after `setup()` at time 5000.  With classification Available fetched the table
colour becomes the primary colour, but the active animation becomes strobe (not solid)
and the settle timer is armed with then-animation "pixels"; with Offline fetched the
power flag is true afterwards and the timer is armed; with Busy fetched the
then-animation is "pixels" (not "solid"). -/
theorem loop_presence_ignores_table :
    (let d := loop setup { nowMs := 5000, fetched := some Presence.Available }
     d.appState.primaryColor = 0x00FF00 ∧ d.animMgr.currentName = "strobe" ∧
       d.inStrobePhase = true ∧ d.strobeStartTime = 5000 ∧ d.strobeThen = "pixels") ∧
    (let d := loop setup { nowMs := 5000, fetched := some Presence.Offline }
     d.appState.powerOn = true ∧ d.animMgr.currentName = "strobe" ∧
       d.inStrobePhase = true ∧ d.strobeThen = "pixels") ∧
    (let d := loop setup { nowMs := 5000, fetched := some Presence.Busy }
     d.appState.primaryColor = 0xFF0000 ∧ d.animMgr.currentName = "strobe" ∧
       d.inStrobePhase = true ∧ d.strobeStartTime = 5000 ∧ d.strobeThen = "pixels") := by
  decide

/-- C3 (evaluation of the code where the claim fails): Busy is fetched at time 5000
after `setup()`; the next pass of `loop()`, at time 6000 with no presence change, makes
"pixels" (not "solid") the active animation, and its render leaves the strip showing
red on pixel 0 only, the other two pixels off. -/
theorem busy_settles_into_pixels :
    (runLoop setup [{ nowMs := 5000, fetched := some Presence.Busy }]).animMgr.currentName
        = "strobe" ∧
    (runLoop setup [{ nowMs := 5000, fetched := some Presence.Busy },
        { nowMs := 6000 }]).animMgr.currentName = "pixels" ∧
    (runLoop setup [{ nowMs := 5000, fetched := some Presence.Busy },
        { nowMs := 6000 }]).inStrobePhase = false ∧
    (runLoop setup [{ nowMs := 5000, fetched := some Presence.Busy },
        { nowMs := 6000 }]).ledRing.shown = [0xFF0000, 0, 0] := by
  decide

/-- The settle block fires exactly when the timer is armed and the 32-bit difference
has reached the strobe duration. -/
theorem settleStep_fire (d : Device) (nowMs : Nat) (harmed : d.inStrobePhase = true)
    (hdue : sub32 nowMs d.strobeStartTime ≥ 1000) :
    settleStep d nowMs = { d.setAnimation d.strobeThen with inStrobePhase := false } := by
  unfold settleStep
  rw [if_pos ⟨harmed, hdue⟩]

theorem settleStep_idle (d : Device) (nowMs : Nat)
    (h : d.inStrobePhase = false ∨ sub32 nowMs d.strobeStartTime < 1000) :
    settleStep d nowMs = d := by
  unfold settleStep
  rw [if_neg]
  rintro ⟨h1, h2⟩
  rcases h with h | h
  · rw [h] at h1; exact Bool.noConfusion h1
  · exact absurd h2 (by unfold Config.STROBE_DURATION_MS; omega)

theorem name_update (a : IAnimation) (t : Nat) (s : AppState) (ring : LedRing) :
    (a.update t s ring).1.name = a.name := by
  cases a <;> rfl

theorem map_name_set (l : List IAnimation) (i : Nat) (x a : IAnimation)
    (ha : l[i]? = some a) (hx : x.name = a.name) :
    (l.set i x).map IAnimation.name = l.map IAnimation.name := by
  induction l generalizing i with
  | nil => rfl
  | cons y rest ih =>
    cases i with
    | zero =>
      simp at ha
      subst ha
      simp [hx]
    | succ i =>
      simp at ha
      simp [ih i ha]

theorem listNames_setActive (mgr : AnimationManager) (name : String) (s : AppState) :
    (mgr.setActive name s).listNames = mgr.listNames := by
  unfold AnimationManager.setActive
  split
  · rw [listNames_enterAt, listNames_exitActive]
  · rfl

theorem listNames_nextAnimation (mgr : AnimationManager) (s : AppState) :
    (mgr.nextAnimation s).listNames = mgr.listNames := by
  unfold AnimationManager.nextAnimation
  split
  · rfl
  · rw [listNames_enterAt, listNames_exitActive]

theorem listNames_update (mgr : AnimationManager) (t : Nat) (s : AppState) (ring : LedRing) :
    (mgr.update t s ring).1.listNames = mgr.listNames := by
  unfold AnimationManager.update
  split
  · split
    · rename_i anim hget
      exact map_name_set _ _ _ anim (by simpa [List.get?_eq_getElem?] using hget)
        (name_update anim t s ring)
    · rfl
  · rfl

theorem listNames_deviceSetAnimation (d : Device) (name : String) :
    (d.setAnimation name).animMgr.listNames = d.animMgr.listNames := by
  simp [Device.setAnimation, Commands.setAnimation, listNames_setActive]

theorem timer_deviceSetAnimation (d : Device) (name : String) :
    (d.setAnimation name).inStrobePhase = d.inStrobePhase ∧
    (d.setAnimation name).strobeThen = d.strobeThen ∧
    (d.setAnimation name).strobeStartTime = d.strobeStartTime := ⟨rfl, rfl, rfl⟩

theorem handleButton_invariant (d : Device) (evt : ButtonEvent) (h : LoopInvariant d) :
    LoopInvariant (handleButton d evt) := by
  obtain ⟨h1, h2⟩ := h
  cases evt
  · exact ⟨h1, h2⟩
  · exact ⟨by simp [handleButton, Commands.nextAnimation, listNames_nextAnimation, h1], h2⟩
  · unfold handleButton
    simp only
    split
    · exact ⟨by rw [listNames_deviceSetAnimation, h1], h2⟩
    · exact ⟨by rw [listNames_deviceSetAnimation, h1], h2⟩
  · exact ⟨h1, h2⟩
  · exact ⟨h1, h2⟩

theorem applyEffect_invariant (d : Device) (t : Nat) (e : PresenceEffect) (h : LoopInvariant d) :
    LoopInvariant (applyEffect d t e) := by
  obtain ⟨h1, h2⟩ := h
  obtain ⟨ty, col, tl⟩ := e
  cases tl <;> cases ty <;>
    simp [LoopInvariant, applyEffect, stampTrafficLight, selectAnimation,
      listNames_deviceSetAnimation, timer_deviceSetAnimation, h1] <;>
    exact h2

theorem presenceStep_invariant (d : Device) (t : Nat) (c : Presence) (h : LoopInvariant d) :
    LoopInvariant (presenceStep d t c) := by
  unfold presenceStep
  split
  · exact applyEffect_invariant _ _ _ h
  · exact h

theorem pollPresence_invariant (d : Device) (inp : TickInput) (h : LoopInvariant d) :
    LoopInvariant (pollPresence d inp) := by
  unfold pollPresence
  have h1 : LoopInvariant
      (if d.authInProgress = true then
        if inp.tokenPolled = true then { d with authInProgress := false, lastPresencePoll := 0 }
        else d
      else d) := by
    split
    · split
      · exact h
      · exact h
    · exact h
  revert h1
  generalize (if d.authInProgress = true then
        if inp.tokenPolled = true then { d with authInProgress := false, lastPresencePoll := 0 }
        else d
      else d) = d1
  intro h1
  simp only
  split
  · split
    · split
      · exact presenceStep_invariant _ _ _ h1
      · split
        · split
          · exact h1
          · exact h1
        · exact h1
    · exact h1
  · exact h1

theorem settleStep_invariant (d : Device) (t : Nat) (h : LoopInvariant d) :
    LoopInvariant (settleStep d t) := by
  unfold settleStep
  split
  · exact ⟨by simp [listNames_deviceSetAnimation, h.1], fun hf => Bool.noConfusion hf⟩
  · exact h

theorem renderStep_invariant (d : Device) (t : Nat) (h : LoopInvariant d) :
    LoopInvariant (renderStep d t) := by
  unfold renderStep
  split
  · exact ⟨by simp [listNames_update, h.1], h.2⟩
  · exact h

theorem loop_invariant (d : Device) (inp : TickInput) (h : LoopInvariant d) :
    LoopInvariant (loop d inp) := by
  unfold loop
  exact renderStep_invariant _ _ (settleStep_invariant _ _ (pollPresence_invariant _ _
    (handleButton_invariant _ _ h)))

theorem setup_invariant : LoopInvariant setup :=
  ⟨rfl, fun h => Bool.noConfusion h⟩

/-- C5: the settle block of `loop()`, in every state that satisfies the loop invariant
(the registry is the one of `setup()` and an armed timer remembers "solid" or "pixels";
every state reachable from `setup()` does).  If the timer is armed and
`(now - start) mod 2^32 >= 1000`, the active animation and the animation identifier
become the remembered then-animation and the timer is disarmed; if it is armed and
`(now - start) mod 2^32 < 1000`, or if it is not armed, the block changes nothing (in
particular the timer keeps its start and then-animation and the active animation
stays). -/
theorem settleStep_contract (d : Device) (nowMs : Nat) (hinv : LoopInvariant d) :
    (d.inStrobePhase = true ∧
        ((nowMs : Int) - (d.strobeStartTime : Int)) % 4294967296 ≥ 1000 →
      (settleStep d nowMs).animMgr.currentName = d.strobeThen ∧
      (settleStep d nowMs).appState.currentAnimationName = d.strobeThen ∧
      (settleStep d nowMs).inStrobePhase = false) ∧
    (d.inStrobePhase = true ∧
        ((nowMs : Int) - (d.strobeStartTime : Int)) % 4294967296 < 1000 →
      settleStep d nowMs = d) ∧
    (d.inStrobePhase = false → settleStep d nowMs = d) := by
  have hsub := sub32_eq_emod nowMs d.strobeStartTime
  refine ⟨?_, ?_, ?_⟩
  · rintro ⟨harmed, hdue⟩
    rw [settleStep_fire d nowMs harmed (by omega)]
    exact ⟨currentName_setActive_then _ _ _ hinv.1 (hinv.2 harmed), rfl, rfl⟩
  · rintro ⟨_, hearly⟩
    exact settleStep_idle d nowMs (Or.inr (by omega))
  · intro hoff
    exact settleStep_idle d nowMs (Or.inl hoff)

theorem settleStep_contract_witness :
    LoopInvariant busyAt5000 ∧
    (busyAt5000.inStrobePhase = true ∧
      (((6000 : Nat) : Int) - (busyAt5000.strobeStartTime : Int)) % 4294967296 ≥ 1000) ∧
    (settleStep busyAt5000 6000).animMgr.currentName = busyAt5000.strobeThen ∧
    (settleStep busyAt5000 6000).appState.currentAnimationName = busyAt5000.strobeThen ∧
    (settleStep busyAt5000 6000).inStrobePhase = false :=
  ⟨loop_invariant _ _ setup_invariant, by decide,
    (settleStep_contract busyAt5000 6000 (loop_invariant _ _ setup_invariant)).1 (by decide)⟩

/-! ## The debouncer -/

theorem sub32_self (t : Nat) : sub32 t t = 0 := by
  unfold sub32; omega

theorem sub32_of_le (a b : Nat) (h : b ≤ a) (ha : a < 4294967296) : sub32 a b = a - b := by
  unfold sub32; omega

theorem update_eq_afterDebounce (b : ButtonInput) (raw : Bool) (t : Nat) :
    b.update raw t =
      ButtonInput.afterDebounce (b.debounceRaw raw t)
        (ButtonInput.debouncedOf (b.debounceRaw raw t) t) t :=
  rfl

theorem afterDebounce_rising (b1 : ButtonInput) (t : Nat) (h : b1._stableState = false) :
    ButtonInput.afterDebounce b1 true t =
      (ButtonEvent.None,
        { b1 with _pressStartMs := t, _holdFired := false, _stableState := true }) := by
  simp [ButtonInput.afterDebounce, h, sub32_self, ButtonInput.HOLD_THRESHOLD_MS]

theorem afterDebounce_pressed (b1 : ButtonInput) (t : Nat) (h : b1._stableState = true) :
    ButtonInput.afterDebounce b1 true t =
      if b1._holdFired = false ∧ sub32 t b1._pressStartMs ≥ 800 then
        (ButtonEvent.Hold, { b1 with _holdFired := true, _clickCount := 0 })
      else (ButtonEvent.None, b1) := by
  obtain ⟨al, lr, st, ld, cc, lrel, ps, hf⟩ := b1
  simp only at h
  subst h
  by_cases hh : sub32 t ps ≥ 800 <;> cases hf <;>
    simp [ButtonInput.afterDebounce, hh, ButtonInput.HOLD_THRESHOLD_MS]

theorem afterDebounce_falling (b1 : ButtonInput) (t : Nat) (h : b1._stableState = true)
    (hf : b1._holdFired = false) :
    ButtonInput.afterDebounce b1 false t =
      (ButtonEvent.None,
        { b1 with _clickCount := (b1._clickCount + 1) % 256, _lastReleaseMs := t,
                  _stableState := false }) := by
  obtain ⟨al, lr, st, ld, cc, lrel, ps, hf0⟩ := b1
  simp only at h hf
  subst h hf
  by_cases hc : (cc + 1) % 256 > 0 <;>
    simp [ButtonInput.afterDebounce, hc, sub32_self, ButtonInput.MULTI_CLICK_WINDOW_MS]

theorem afterDebounce_falling_held (b1 : ButtonInput) (t : Nat) (h : b1._stableState = true)
    (hf : b1._holdFired = true) (hc : b1._clickCount = 0) :
    ButtonInput.afterDebounce b1 false t =
      (ButtonEvent.None, { b1 with _holdFired := false, _stableState := false }) := by
  obtain ⟨al, lr, st, ld, cc, lrel, ps, hf0⟩ := b1
  simp only at h hf hc
  subst h hf hc
  simp [ButtonInput.afterDebounce]

theorem afterDebounce_released (b1 : ButtonInput) (t : Nat) (h : b1._stableState = false) :
    ButtonInput.afterDebounce b1 false t =
      if b1._clickCount > 0 ∧ sub32 t b1._lastReleaseMs ≥ 300 then
        (ButtonInput.clickEvent b1._clickCount, { b1 with _clickCount := 0 })
      else (ButtonEvent.None, b1) := by
  obtain ⟨al, lr, st, ld, cc, lrel, ps, hf0⟩ := b1
  simp only at h
  subst h
  by_cases hc : cc > 0 <;> by_cases hw : sub32 t lrel ≥ 300 <;>
    simp [ButtonInput.afterDebounce, hc, hw, ButtonInput.MULTI_CLICK_WINDOW_MS,
      ButtonInput.clickEvent]

theorem debounceRaw_fields (b : ButtonInput) (raw : Bool) (t : Nat) :
    (b.debounceRaw raw t)._stableState = b._stableState ∧
    (b.debounceRaw raw t)._clickCount = b._clickCount ∧
    (b.debounceRaw raw t)._lastReleaseMs = b._lastReleaseMs ∧
    (b.debounceRaw raw t)._pressStartMs = b._pressStartMs ∧
    (b.debounceRaw raw t)._holdFired = b._holdFired ∧
    (b.debounceRaw raw t)._activeLow = b._activeLow ∧
    (b.debounceRaw raw t)._lastRawState = raw ∧
    (b.debounceRaw raw t)._lastDebounceMs =
      (if raw = b._lastRawState then b._lastDebounceMs else t) := by
  unfold ButtonInput.debounceRaw
  by_cases h : raw = b._lastRawState <;> simp [h]

theorem debouncedOf_debounceRaw (b : ButtonInput) (raw : Bool) (t : Nat) :
    ButtonInput.debouncedOf (b.debounceRaw raw t) t =
      if raw = b._lastRawState ∧ sub32 t b._lastDebounceMs ≥ 30 then raw
      else b._stableState := by
  unfold ButtonInput.debouncedOf
  obtain ⟨h1, _, _, _, _, _, h7, h8⟩ := debounceRaw_fields b raw t
  rw [h1, h7, h8]
  by_cases h : raw = b._lastRawState
  · simp [h, ButtonInput.DEBOUNCE_MS]
  · simp [h, sub32_self, ButtonInput.DEBOUNCE_MS]

theorem glitchInput_tail (x : Nat × Bool) (l : List (Nat × Bool)) (h : GlitchInput (x :: l)) :
    GlitchInput l := by
  obtain ⟨⟨hp, hr⟩, hg⟩ := h
  refine ⟨⟨(List.pairwise_cons.mp hp).2, fun s hs => hr s (List.mem_cons_of_mem _ hs)⟩, ?_⟩
  intro seg hseg hall a ha b hb
  exact hg seg (List.infix_cons hseg) hall a ha b hb

theorem glitchInput_take (n : Nat) (l : List (Nat × Bool)) (h : GlitchInput l) :
    GlitchInput (l.take n) := by
  obtain ⟨⟨hp, hr⟩, hg⟩ := h
  refine ⟨⟨hp.sublist (List.take_sublist n l), fun s hs => hr s (List.mem_of_mem_take hs)⟩, ?_⟩
  intro seg hseg hall a ha b hb
  exact hg seg (hseg.trans (List.take_prefix n l).isInfix) hall a ha b hb

/-- Dropping the second of two leading pressed samples keeps the input conditions. -/
theorem glitchInput_skip (x y : Nat × Bool) (l : List (Nat × Bool)) (hx : x.2 = true)
    (hy : y.2 = true) (h : GlitchInput (x :: y :: l)) : GlitchInput (x :: l) := by
  obtain ⟨⟨hp, hr⟩, hg⟩ := h
  refine ⟨⟨?_, ?_⟩, ?_⟩
  · exact hp.sublist (List.Sublist.cons₂ x (List.sublist_cons_self y l))
  · intro s hs
    apply hr
    rcases List.mem_cons.mp hs with h | h
    · exact h ▸ List.mem_cons_self _ _
    · exact List.mem_cons_of_mem _ (List.mem_cons_of_mem _ h)
  · intro seg hseg hall a ha b hb
    rcases List.infix_cons_iff.mp hseg with hpre | hin
    · rcases List.prefix_cons_iff.mp hpre with hnil | ⟨t, ht, htl⟩
      · subst hnil; exact absurd ha (List.not_mem_nil _)
      · subst ht
        have hseg2 : (x :: y :: t) <:+: (x :: y :: l) :=
          ((List.prefix_cons_inj x).mpr ((List.prefix_cons_inj y).mpr htl)).isInfix
        have hall2 : ∀ s ∈ x :: y :: t, s.2 = true := by
          intro s hs
          rcases List.mem_cons.mp hs with h | h
          · exact h ▸ hx
          · rcases List.mem_cons.mp h with h | h
            · exact h ▸ hy
            · exact hall s (List.mem_cons_of_mem _ h)
        have mem2 : ∀ s ∈ x :: t, s ∈ x :: y :: t := by
          intro s hs
          rcases List.mem_cons.mp hs with h | h
          · exact h ▸ List.mem_cons_self _ _
          · exact List.mem_cons_of_mem _ (List.mem_cons_of_mem _ h)
        exact hg _ hseg2 hall2 a (mem2 a ha) b (mem2 b hb)
    · exact hg seg (List.infix_cons (List.infix_cons hin)) hall a ha b hb

theorem run_length (samples : List (Nat × Bool)) : ∀ b : ButtonInput,
    (b.run samples).1.length = samples.length := by
  induction samples with
  | nil => intro b; rfl
  | cons x rest ih => intro b; obtain ⟨t, r⟩ := x; simp [ButtonInput.run, ih]

theorem run_append (l1 l2 : List (Nat × Bool)) : ∀ b : ButtonInput,
    b.run (l1 ++ l2) =
      ((b.run l1).1 ++ ((b.run l1).2.run l2).1, ((b.run l1).2.run l2).2) := by
  induction l1 with
  | nil => intro b; rfl
  | cons x rest ih => intro b; obtain ⟨t, r⟩ := x; simp [ButtonInput.run, ih]

/-- The invariant behind glitch rejection: a released debouncer with no pending click,
whose current raw-pressed run (if any) started at `_lastDebounceMs`, stays that way. -/
theorem run_glitch (samples : List (Nat × Bool)) : ∀ (b : ButtonInput),
    b._stableState = false → b._clickCount = 0 → GlitchInput samples →
    (b._lastRawState = true → GlitchInput ((b._lastDebounceMs, true) :: samples)) →
    (∀ e ∈ (b.run samples).1, e = ButtonEvent.None) ∧
      (b.run samples).2._stableState = false ∧ (b.run samples).2._clickCount = 0 := by
  induction samples with
  | nil =>
    intro b hs hc _ _
    exact ⟨fun e he => absurd he (List.not_mem_nil _), hs, hc⟩
  | cons x rest ih =>
    intro b hs hc hin hpend
    obtain ⟨t, r⟩ := x
    obtain ⟨f1, f2, f3, f4, f5, f6, f7, f8⟩ := debounceRaw_fields b r t
    have ht : t < 4294967296 := hin.1.2 (t, r) (List.mem_cons_self _ _)
    have hdeb : ButtonInput.debouncedOf (b.debounceRaw r t) t = false := by
      rw [debouncedOf_debounceRaw, hs]
      split
      · rename_i hcond
        obtain ⟨hraw, hge⟩ := hcond
        cases r with
        | false => rfl
        | true =>
          exfalso
          have hg := hpend hraw.symm
          have hle : b._lastDebounceMs ≤ t :=
            (List.pairwise_cons.mp hg.1.1).1 (t, true) (List.mem_cons_self _ _)
          have hlt : t - b._lastDebounceMs < 30 :=
            hg.2 [(b._lastDebounceMs, true), (t, true)]
              ((List.prefix_cons_inj _).mpr
                ((List.prefix_cons_inj _).mpr (List.nil_prefix))).isInfix
              (by intro s hs; simp at hs; rcases hs with h | h <;> simp [h])
              (b._lastDebounceMs, true) (by simp) (t, true) (by simp)
          rw [sub32_of_le t _ hle ht] at hge
          omega
      · rfl
    have hupd : b.update r t = (ButtonEvent.None, b.debounceRaw r t) := by
      rw [update_eq_afterDebounce, hdeb, afterDebounce_released _ _ (f1.trans hs), f2, hc]
      simp
    have hrun : b.run ((t, r) :: rest) =
        (ButtonEvent.None :: ((b.debounceRaw r t).run rest).1,
          ((b.debounceRaw r t).run rest).2) := by
      simp [ButtonInput.run, hupd]
    have hrest := ih (b.debounceRaw r t) (f1.trans hs) (f2.trans hc) (glitchInput_tail _ _ hin)
      (by
        intro hraw
        rw [f7] at hraw
        subst hraw
        rw [f8]
        split
        · rename_i heq
          exact glitchInput_skip _ _ _ rfl rfl (hpend heq.symm)
        · exact hin)
    rw [hrun]
    refine ⟨?_, hrest.2.1, hrest.2.2⟩
    intro e he
    rcases List.mem_cons.mp he with h | h
    · exact h
    · exact hrest.1 e h

theorem bounceSamples_glitchInput : GlitchInput bounceSamples := by
  refine ⟨⟨by decide, by decide⟩, ?_⟩
  intro seg hseg hall a ha b hb
  have key : ∀ s ∈ seg, s.1 = 100 ∨ s.1 = 120 ∨ s.1 = 125 := by
    intro s hs
    have hmem : s ∈ bounceSamples := hseg.subset hs
    have hpressed := hall s hs
    simp [bounceSamples] at hmem
    rcases hmem with h | h | h | h | h <;> simp [h] at hpressed ⊢
  have h1 := key a ha
  have h2 := key b hb
  omega

/-- C6: glitch rejection.  From the initial `ButtonInput` state, for every sample
sequence with non-decreasing 32-bit timestamps in which no run of consecutive
pressed readings spans 30 ms or more, every call of `update` returns `None`, and after
every call the debounced state is released and the click count is 0. -/
theorem glitch_rejection (activeLow : Bool) (samples : List (Nat × Bool))
    (hmono : NonDecreasing32 samples) (hshort : ShortPressesOnly samples) :
    (ButtonInput.run { _activeLow := activeLow } samples).1 =
      List.replicate samples.length ButtonEvent.None ∧
    ∀ n : Nat,
      (ButtonInput.run { _activeLow := activeLow } (samples.take n)).2._stableState = false ∧
      (ButtonInput.run { _activeLow := activeLow } (samples.take n)).2._clickCount = 0 := by
  have hin : GlitchInput samples := ⟨hmono, hshort⟩
  refine ⟨?_, ?_⟩
  · rw [List.eq_replicate_iff]
    exact ⟨run_length samples _,
      (run_glitch samples _ rfl rfl hin (fun h => Bool.noConfusion h)).1⟩
  intro n
  exact (run_glitch (samples.take n) _ rfl rfl (glitchInput_take n samples hin)
    (fun h => Bool.noConfusion h)).2

theorem glitch_rejection_witness :
    NonDecreasing32 bounceSamples ∧ ShortPressesOnly bounceSamples ∧
    ((ButtonInput.run { _activeLow := true } bounceSamples).1 =
        List.replicate bounceSamples.length ButtonEvent.None ∧
      ∀ n : Nat,
        (ButtonInput.run { _activeLow := true } (bounceSamples.take n)).2._stableState
            = false ∧
        (ButtonInput.run { _activeLow := true } (bounceSamples.take n)).2._clickCount = 0) :=
  ⟨bounceSamples_glitchInput.1, bounceSamples_glitchInput.2,
    glitch_rejection true bounceSamples bounceSamples_glitchInput.1
      bounceSamples_glitchInput.2⟩

theorem update_stableState (b : ButtonInput) (raw : Bool) (t : Nat) :
    (b.update raw t).2._stableState = ButtonInput.debouncedOf (b.debounceRaw raw t) t := rfl

/-- A tick on which the debounced state stays pressed. -/
theorem update_stays_pressed (b : ButtonInput) (raw : Bool) (t : Nat)
    (h1 : b._stableState = true) (h2 : (b.update raw t).2._stableState = true) :
    b.update raw t =
      if b._holdFired = false ∧ sub32 t b._pressStartMs ≥ 800 then
        (ButtonEvent.Hold, { b.debounceRaw raw t with _holdFired := true, _clickCount := 0 })
      else (ButtonEvent.None, b.debounceRaw raw t) := by
  obtain ⟨f1, f2, f3, f4, f5, f6, f7, f8⟩ := debounceRaw_fields b raw t
  rw [update_stableState] at h2
  rw [update_eq_afterDebounce, h2, afterDebounce_pressed _ _ (f1.trans h1)]
  by_cases hc : b._holdFired = false ∧ sub32 t b._pressStartMs ≥ 800
  · rw [if_pos hc, if_pos (by rw [f5, f4]; exact hc)]
  · rw [if_neg hc, if_neg (by rw [f5, f4]; exact hc)]

/-- The tick on which the debounced state becomes pressed. -/
theorem update_rising (b : ButtonInput) (raw : Bool) (t : Nat)
    (h1 : b._stableState = false) (h2 : (b.update raw t).2._stableState = true) :
    b.update raw t =
      (ButtonEvent.None,
        { b.debounceRaw raw t with _pressStartMs := t, _holdFired := false,
                                   _stableState := true }) := by
  obtain ⟨f1, f2, f3, f4, f5, f6, f7, f8⟩ := debounceRaw_fields b raw t
  rw [update_stableState] at h2
  rw [update_eq_afterDebounce, h2, afterDebounce_rising _ _ (f1.trans h1)]

/-- The tick on which the debounced state becomes released after a hold has fired. -/
theorem update_release_held (b : ButtonInput) (raw : Bool) (t : Nat)
    (h1 : b._stableState = true) (hf : b._holdFired = true) (hc : b._clickCount = 0)
    (h2 : (b.update raw t).2._stableState = false) :
    b.update raw t =
      (ButtonEvent.None,
        { b.debounceRaw raw t with _holdFired := false, _stableState := false }) := by
  obtain ⟨f1, f2, f3, f4, f5, f6, f7, f8⟩ := debounceRaw_fields b raw t
  rw [update_stableState] at h2
  rw [update_eq_afterDebounce, h2,
    afterDebounce_falling_held _ _ (f1.trans h1) (f5.trans hf) (f2.trans hc)]

/-- While pressed after the hold has fired, nothing is emitted. -/
theorem run_held (press : List (Nat × Bool)) : ∀ b : ButtonInput,
    b._stableState = true → b._holdFired = true → b._clickCount = 0 →
    (∀ s ∈ b.runStates press, s._stableState = true) →
    (b.run press).1 = List.replicate press.length ButtonEvent.None ∧
    (b.run press).2._stableState = true ∧ (b.run press).2._holdFired = true ∧
    (b.run press).2._clickCount = 0 := by
  induction press with
  | nil => intro b h1 h2 h3 _; exact ⟨rfl, h1, h2, h3⟩
  | cons x rest ih =>
    intro b h1 h2 h3 hst
    obtain ⟨t, r⟩ := x
    obtain ⟨f1, f2, f3, f4, f5, f6, f7, f8⟩ := debounceRaw_fields b r t
    have hs1 : (b.update r t).2._stableState = true :=
      hst _ (by simp [ButtonInput.runStates])
    have hupd := update_stays_pressed b r t h1 hs1
    rw [if_neg (by rw [h2]; simp)] at hupd
    have hrest := ih (b.debounceRaw r t) (f1.trans h1) (f5.trans h2) (f2.trans h3)
      (by
        intro s hs
        apply hst
        simp only [ButtonInput.runStates, hupd, List.mem_cons]
        exact Or.inr hs)
    simp only [ButtonInput.run, hupd, List.length_cons, List.replicate_succ]
    exact ⟨by rw [hrest.1], hrest.2⟩

/-- While pressed before the hold has fired: the hold fires once, at the first tick whose
32-bit distance from the press start reaches 800. -/
theorem run_pressed (press : List (Nat × Bool)) : ∀ b : ButtonInput,
    b._stableState = true → b._holdFired = false →
    (∀ s ∈ b.runStates press, s._stableState = true) →
    (∃ s ∈ press, sub32 s.1 b._pressStartMs ≥ 800) →
    (b.run press).1.count ButtonEvent.Hold = 1 ∧
    (∀ e ∈ (b.run press).1, e = ButtonEvent.None ∨ e = ButtonEvent.Hold) ∧
    (b.run press).2._stableState = true ∧ (b.run press).2._holdFired = true ∧
    (b.run press).2._clickCount = 0 := by
  induction press with
  | nil => intro b _ _ _ hex; obtain ⟨s, hs, _⟩ := hex; exact absurd hs (List.not_mem_nil _)
  | cons x rest ih =>
    intro b h1 h2 hst hex
    obtain ⟨t, r⟩ := x
    obtain ⟨f1, f2, f3, f4, f5, f6, f7, f8⟩ := debounceRaw_fields b r t
    have hs1 : (b.update r t).2._stableState = true :=
      hst _ (by simp [ButtonInput.runStates])
    have hupd := update_stays_pressed b r t h1 hs1
    by_cases hfire : sub32 t b._pressStartMs ≥ 800
    · rw [if_pos ⟨h2, hfire⟩] at hupd
      have hrest := run_held rest
        { b.debounceRaw r t with _holdFired := true, _clickCount := 0 } (f1.trans h1) rfl rfl
        (by
          intro s hs
          apply hst
          simp only [ButtonInput.runStates, hupd, List.mem_cons]
          exact Or.inr hs)
      simp only [ButtonInput.run, hupd]
      refine ⟨?_, ?_, hrest.2⟩
      · rw [hrest.1]
        simp [List.count_cons, List.count_replicate]
      · intro e he
        rcases List.mem_cons.mp he with h | h
        · exact Or.inr h
        · rw [hrest.1] at h
          exact Or.inl (List.eq_of_mem_replicate h)
    · rw [if_neg (by intro h; exact hfire h.2)] at hupd
      have hex2 : ∃ s ∈ rest, sub32 s.1 (b.debounceRaw r t)._pressStartMs ≥ 800 := by
        obtain ⟨s, hs, hge⟩ := hex
        rcases List.mem_cons.mp hs with h | h
        · subst h; exact absurd hge hfire
        · exact ⟨s, h, by rw [f4]; exact hge⟩
      have hrest := ih (b.debounceRaw r t) (f1.trans h1) (f5.trans h2)
        (by
          intro s hs
          apply hst
          simp only [ButtonInput.runStates, hupd, List.mem_cons]
          exact Or.inr hs) hex2
      simp only [ButtonInput.run, hupd]
      refine ⟨?_, ?_, hrest.2.2⟩
      · simp [List.count_cons, hrest.1]
      · intro e he
        rcases List.mem_cons.mp he with h | h
        · exact Or.inl h
        · exact hrest.2.1 e h

/-- C7: a press held for at least 800 ms.  The debouncer is released before the tick
`first`; on `first` the debounced state becomes pressed and it stays pressed on every
tick of `press`, one of which lies at least 800 ms (on the 32-bit clock) after `first`;
on the tick `rel` the debounced state becomes released.  Raw readings are otherwise
arbitrary.  Then `update` returns `Hold` on exactly one tick of the press and `None` on
all the others, the release tick returns `None` and leaves the click count as it was,
namely 0: the press produces no click event. -/
theorem hold_fires_once (b : ButtonInput) (first : Nat × Bool) (press : List (Nat × Bool))
    (rel : Nat × Bool)
    (h0 : b._stableState = false)
    (hpress : ∀ s ∈ b.runStates (first :: press), s._stableState = true)
    (hlong : ∃ s ∈ press, ((s.1 : Int) - (first.1 : Int)) % 4294967296 ≥ 800)
    (hrel : (b.run (first :: press ++ [rel])).2._stableState = false) :
    (b.run (first :: press)).1.count ButtonEvent.Hold = 1 ∧
    (∀ e ∈ (b.run (first :: press)).1, e = ButtonEvent.None ∨ e = ButtonEvent.Hold) ∧
    (b.run (first :: press ++ [rel])).1 = (b.run (first :: press)).1 ++ [ButtonEvent.None] ∧
    (b.run (first :: press ++ [rel])).2._clickCount =
      (b.run (first :: press)).2._clickCount ∧
    (b.run (first :: press ++ [rel])).2._clickCount = 0 := by
  obtain ⟨t0, r0⟩ := first
  obtain ⟨t1, r1⟩ := rel
  have hs1 : (b.update r0 t0).2._stableState = true :=
    hpress _ (by simp [ButtonInput.runStates])
  have hupd := update_rising b r0 t0 h0 hs1
  have hex : ∃ s ∈ press, sub32 s.1 t0 ≥ 800 := by
    obtain ⟨s, hs, hge⟩ := hlong
    refine ⟨s, hs, ?_⟩
    have := sub32_eq_emod s.1 t0
    simp only at hge
    omega
  obtain ⟨b1, hb1s, hb1h, hb1p, hupd1⟩ : ∃ b1 : ButtonInput, b1._stableState = true ∧
      b1._holdFired = false ∧ b1._pressStartMs = t0 ∧
      b.update r0 t0 = (ButtonEvent.None, b1) := ⟨_, rfl, rfl, rfl, hupd⟩
  have hrun := run_pressed press b1 hb1s hb1h
    (by
      intro s hs
      apply hpress
      simp only [ButtonInput.runStates, hupd1, List.mem_cons]
      exact Or.inr hs) (by rw [hb1p]; exact hex)
  have hcons : ∀ l : List (Nat × Bool),
      b.run ((t0, r0) :: l) = (ButtonEvent.None :: (b1.run l).1, (b1.run l).2) := by
    intro l
    simp only [ButtonInput.run, hupd1]
  obtain ⟨hcount, hev, hst, hhf, hcc⟩ := hrun
  rw [run_append, hcons press] at hrel
  simp only [ButtonInput.run] at hrel
  have hlast := update_release_held _ r1 t1 hst hhf hcc hrel
  rw [run_append, hcons press]
  simp only [ButtonInput.run, hlast]
  obtain ⟨f1, f2, f3, f4, f5, f6, f7, f8⟩ := debounceRaw_fields (b1.run press).2 r1 t1
  refine ⟨?_, ?_, ?_, f2, f2.trans hcc⟩
  · simpa [List.count_cons] using hcount
  · intro e he
    rcases List.mem_cons.mp he with h | h
    · exact Or.inl h
    · exact hev e h
  · simp

theorem hold_fires_once_witness :
    pressPending._stableState = false ∧
    (∀ s ∈ pressPending.runStates ((30, true) :: longPress), s._stableState = true) ∧
    (∃ s ∈ longPress, ((s.1 : Int) - (((30, true) : Nat × Bool).1 : Int)) % 4294967296 ≥ 800) ∧
    (pressPending.run ((30, true) :: longPress ++ [(980, false)])).2._stableState = false ∧
    ((pressPending.run ((30, true) :: longPress)).1.count ButtonEvent.Hold = 1 ∧
      (∀ e ∈ (pressPending.run ((30, true) :: longPress)).1,
        e = ButtonEvent.None ∨ e = ButtonEvent.Hold) ∧
      (pressPending.run ((30, true) :: longPress ++ [(980, false)])).1 =
        (pressPending.run ((30, true) :: longPress)).1 ++ [ButtonEvent.None] ∧
      (pressPending.run ((30, true) :: longPress ++ [(980, false)])).2._clickCount =
        (pressPending.run ((30, true) :: longPress)).2._clickCount ∧
      (pressPending.run ((30, true) :: longPress ++ [(980, false)])).2._clickCount = 0) :=
  ⟨by decide, by decide, by decide, by decide,
    hold_fires_once pressPending (30, true) longPress (980, false)
      (by decide) (by decide) (by decide) (by decide)⟩

/-- C8 (evaluation of the code where the claim fails): from the initial state, one, two
and three rapid clicks followed by the quiet period make `update` emit exactly Click1,
Click2 and Click3; 256 rapid clicks followed by the quiet period make every one of the
1025 calls return `None` (the 8-bit click count has wrapped to 0), and 257 rapid clicks
emit Click1. -/
theorem rapid_clicks_wrap :
    (ButtonInput.run {} (rapidClicks 1)).1.filter (fun e => e ≠ ButtonEvent.None)
        = [ButtonEvent.Click1] ∧
    (ButtonInput.run {} (rapidClicks 2)).1.filter (fun e => e ≠ ButtonEvent.None)
        = [ButtonEvent.Click2] ∧
    (ButtonInput.run {} (rapidClicks 3)).1.filter (fun e => e ≠ ButtonEvent.None)
        = [ButtonEvent.Click3] ∧
    (ButtonInput.run {} (rapidClicks 256)).1 = List.replicate 1025 ButtonEvent.None ∧
    (ButtonInput.run {} (rapidClicks 257)).1.filter (fun e => e ≠ ButtonEvent.None)
        = [ButtonEvent.Click1] := by
  set_option maxRecDepth 100000 in decide

theorem sub32_shift (a b d : Nat) :
    sub32 ((a + d) % 4294967296) ((b + d) % 4294967296) = sub32 a b := by
  unfold sub32; omega

theorem debounceRaw_shift (b : ButtonInput) (raw : Bool) (now d : Nat) :
    (b.shift d).debounceRaw raw ((now + d) % 4294967296) = (b.debounceRaw raw now).shift d := by
  unfold ButtonInput.debounceRaw ButtonInput.shift
  by_cases h : raw = b._lastRawState <;> simp [h]

theorem debouncedOf_shift (b1 : ButtonInput) (now d : Nat) :
    ButtonInput.debouncedOf (b1.shift d) ((now + d) % 4294967296) =
      ButtonInput.debouncedOf b1 now := by
  unfold ButtonInput.debouncedOf ButtonInput.shift
  simp only [sub32_shift]

theorem afterDebounce_shift (b1 : ButtonInput) (deb : Bool) (now d : Nat) :
    ButtonInput.afterDebounce (b1.shift d) deb ((now + d) % 4294967296) =
      ((ButtonInput.afterDebounce b1 deb now).1,
        (ButtonInput.afterDebounce b1 deb now).2.shift d) := by
  obtain ⟨al, lr, st, ld, cc, lrel, ps, hf⟩ := b1
  cases deb <;> cases st
  · have h1 := afterDebounce_released ⟨al, lr, false, ld, cc, lrel, ps, hf⟩ now rfl
    have h2 := afterDebounce_released
      (ButtonInput.shift ⟨al, lr, false, ld, cc, lrel, ps, hf⟩ d) ((now + d) % 4294967296) rfl
    rw [h1, h2]
    simp only [ButtonInput.shift, sub32_shift]
    split <;> rfl
  · cases hf
    · have h1 := afterDebounce_falling ⟨al, lr, true, ld, cc, lrel, ps, false⟩ now rfl rfl
      have h2 := afterDebounce_falling
        (ButtonInput.shift ⟨al, lr, true, ld, cc, lrel, ps, false⟩ d)
        ((now + d) % 4294967296) rfl rfl
      rw [h1, h2]
      rfl
    · by_cases hc : cc > 0 <;> by_cases hw : sub32 now lrel ≥ 300 <;>
        simp [ButtonInput.afterDebounce, ButtonInput.shift, sub32_shift, hc, hw,
          ButtonInput.MULTI_CLICK_WINDOW_MS]
  · have h1 := afterDebounce_rising ⟨al, lr, false, ld, cc, lrel, ps, hf⟩ now rfl
    have h2 := afterDebounce_rising
      (ButtonInput.shift ⟨al, lr, false, ld, cc, lrel, ps, hf⟩ d) ((now + d) % 4294967296) rfl
    rw [h1, h2]
    rfl
  · have h1 := afterDebounce_pressed ⟨al, lr, true, ld, cc, lrel, ps, hf⟩ now rfl
    have h2 := afterDebounce_pressed
      (ButtonInput.shift ⟨al, lr, true, ld, cc, lrel, ps, hf⟩ d) ((now + d) % 4294967296) rfl
    rw [h1, h2]
    simp only [ButtonInput.shift, sub32_shift]
    split <;> rfl

/-- C9: clock-wraparound tolerance of the debouncer.  For every state, raw reading,
timestamp `now` and offset `d`: `update` on the state whose three stored timestamps are
advanced by `d` (mod 2^32), called with `now + d` (mod 2^32), returns the same event as
`update` on the original state with `now`, and its resulting state is the resulting
state of the original run with the three timestamps advanced by `d`. -/
theorem update_shift_invariant (b : ButtonInput) (raw : Bool) (now d : Nat) :
    (b.shift d).update raw ((now + d) % 4294967296) =
      ((b.update raw now).1, (b.update raw now).2.shift d) := by
  rw [update_eq_afterDebounce, update_eq_afterDebounce, debounceRaw_shift, debouncedOf_shift,
    afterDebounce_shift]

/-! ## The scheduler -/

theorem findName_first (name : String) (names : List String) : ∀ (k i : Nat) (n : String),
    names[i]? = some n → equalsIgnoreCase name n = true →
    (∀ j m, j < i → names[j]? = some m → equalsIgnoreCase name m = false) →
    findName name names k = some (k + i) := by
  induction names with
  | nil => intro k i n hi; simp at hi
  | cons x rest ih =>
    intro k i n hi hm hfirst
    cases i with
    | zero =>
      simp at hi
      subst hi
      simp [findName, hm]
    | succ i =>
      have hx : equalsIgnoreCase name x = false := hfirst 0 x (Nat.succ_pos i) (by simp)
      have := ih (k + 1) i n (by simpa using hi) hm
        (fun j m hj hjm => hfirst (j + 1) m (Nat.succ_lt_succ hj) (by simpa using hjm))
      simp [findName, hx, this]
      omega

theorem findName_none (name : String) (names : List String) : ∀ k : Nat,
    (∀ m ∈ names, equalsIgnoreCase name m = false) → findName name names k = none := by
  induction names with
  | nil => intro k _; rfl
  | cons x rest ih =>
    intro k h
    simp [findName, h x (List.mem_cons_self _ _),
      ih (k + 1) (fun m hm => h m (List.mem_cons_of_mem _ hm))]

/-- C10: `AnimationManager::setActive(name)`.  If the strategy registered at index `i`
has a name equal to `name` ignoring letter case and no strategy registered before it
has, the active index becomes `i`.  If no registered name matches, the call changes
nothing: the manager is exactly as before, so the active index is unchanged and no
`onExit` or `onEnter` call is made. -/
theorem setActive_contract (mgr : AnimationManager) (name : String) (state : AppState) :
    (∀ (i : Nat) (n : String), mgr.listNames[i]? = some n → equalsIgnoreCase name n = true →
        (∀ j m, j < i → mgr.listNames[j]? = some m → equalsIgnoreCase name m = false) →
        (mgr.setActive name state)._activeIndex = (i : Int)) ∧
    ((∀ m ∈ mgr.listNames, equalsIgnoreCase name m = false) →
        mgr.setActive name state = mgr ∧
        (mgr.setActive name state)._activeIndex = mgr._activeIndex ∧
        (mgr.setActive name state).calls = mgr.calls) := by
  constructor
  · intro i n hi hm hfirst
    have hfind : AnimationManager.findFrom name mgr._animations 0 = some i := by
      rw [findFrom_eq_findName]
      have := findName_first name mgr.listNames 0 i n hi hm hfirst
      simpa [AnimationManager.listNames] using this
    exact (setActive_of_found mgr name state i hfind).2
  · intro hnone
    have hfind : AnimationManager.findFrom name mgr._animations 0 = none := by
      rw [findFrom_eq_findName]
      exact findName_none name _ 0 hnone
    have heq : mgr.setActive name state = mgr := by
      unfold AnimationManager.setActive
      rw [hfind]
    rw [heq]
    exact ⟨rfl, rfl, rfl⟩

theorem setActive_contract_witness :
    (setup.animMgr.setActive "SOLID" {})._activeIndex = 4 ∧
    setup.animMgr.setActive "rainbow" {} = setup.animMgr :=
  ⟨(setActive_contract setup.animMgr "SOLID" {}).1 4 "solid" (by decide) (by decide)
      (by
        intro j m hj hjm
        have hn : setup.animMgr.listNames =
            ["fade", "spin", "spinTail", "strobe", "solid", "pixels"] := by decide
        rw [hn] at hjm
        interval_cases j <;> simp at hjm <;> subst hjm <;> decide),
    ((setActive_contract setup.animMgr "rainbow" {}).2 (by decide)).1⟩

theorem calls_exitActive (mgr : AnimationManager) :
    mgr.exitActive.calls = mgr.calls ++ mgr.exitCalls := by
  unfold AnimationManager.exitActive AnimationManager.exitCalls
  split <;> simp

theorem animations_exitActive (mgr : AnimationManager) :
    mgr.exitActive._animations = mgr._animations := by
  unfold AnimationManager.exitActive
  split
  · exact modifyAt_onExit _ _
  · rfl

theorem calls_setActive_found (mgr : AnimationManager) (name : String) (s : AppState) (i : Nat)
    (h : AnimationManager.findFrom name mgr._animations 0 = some i) :
    (mgr.setActive name s).calls = mgr.calls ++ mgr.exitCalls ++ [StrategyCall.onEnter i] ∧
    (mgr.setActive name s)._animations =
      modifyAt (fun a => a.onEnter s) mgr._animations i := by
  unfold AnimationManager.setActive
  rw [h]
  simp [AnimationManager.enterAt, calls_exitActive, animations_exitActive]

theorem nextAnimation_nonempty (mgr : AnimationManager) (s : AppState)
    (h : mgr._animations.length ≠ 0) :
    mgr.nextAnimation s =
      (mgr.exitActive).enterAt
        (Int.tmod (mgr._activeIndex + 1) (mgr._animations.length : Int)) s := by
  unfold AnimationManager.nextAnimation
  rw [if_neg h]

/-- C11: the strategy calls made by a switch.  `setActive` with a name whose first
case-insensitive match is registered at index `i`, and `nextAnimation` on a non-empty
registry, append to the calls made so far exactly: one `onExit` on the previously
active strategy (none when no strategy was active), then one `onEnter` on the newly
active strategy; no `update` call is made.  The registered objects change only by that
`onEnter`. -/
theorem switch_call_sequence (mgr : AnimationManager) (state : AppState) :
    (∀ (name : String) (i : Nat) (n : String), mgr.listNames[i]? = some n →
        equalsIgnoreCase name n = true →
        (∀ j m, j < i → mgr.listNames[j]? = some m → equalsIgnoreCase name m = false) →
        (mgr.setActive name state).calls =
            mgr.calls ++ mgr.exitCalls ++ [StrategyCall.onEnter i] ∧
          (mgr.setActive name state)._activeIndex = (i : Int) ∧
          (mgr.setActive name state)._animations =
            modifyAt (fun a => a.onEnter state) mgr._animations i) ∧
    (mgr._animations.length ≠ 0 → -1 ≤ mgr._activeIndex →
        (mgr.nextAnimation state).calls =
            mgr.calls ++ mgr.exitCalls ++
              [StrategyCall.onEnter
                ((mgr._activeIndex + 1) % (mgr._animations.length : Int)).toNat] ∧
          (mgr.nextAnimation state)._activeIndex =
            (mgr._activeIndex + 1) % (mgr._animations.length : Int) ∧
          (mgr.nextAnimation state)._animations =
            modifyAt (fun a => a.onEnter state) mgr._animations
              ((mgr._activeIndex + 1) % (mgr._animations.length : Int)).toNat) := by
  constructor
  · intro name i n hi hm hfirst
    have hfind : AnimationManager.findFrom name mgr._animations 0 = some i := by
      rw [findFrom_eq_findName]
      have := findName_first name mgr.listNames 0 i n hi hm hfirst
      simpa [AnimationManager.listNames] using this
    obtain ⟨h1, h2⟩ := calls_setActive_found mgr name state i hfind
    exact ⟨h1, (setActive_of_found mgr name state i hfind).2, h2⟩
  · intro hne hidx
    have ht : Int.tmod (mgr._activeIndex + 1) (mgr._animations.length : Int) =
        (mgr._activeIndex + 1) % (mgr._animations.length : Int) :=
      Int.tmod_eq_emod (by omega) (by omega)
    rw [nextAnimation_nonempty mgr state hne, ht]
    simp [AnimationManager.enterAt, calls_exitActive, animations_exitActive]

theorem length_nextAnimation (mgr : AnimationManager) (s : AppState) :
    (mgr.nextAnimation s)._animations.length = mgr._animations.length := by
  have := congrArg List.length (listNames_nextAnimation mgr s)
  simpa [AnimationManager.listNames] using this

theorem activeIndex_nextAnimation (mgr : AnimationManager) (s : AppState) (K i : Nat)
    (hK : mgr._animations.length = K) (hpos : 1 ≤ K) (hi : mgr._activeIndex = (i : Int)) :
    (mgr.nextAnimation s)._activeIndex = (((i + 1) % K : Nat) : Int) := by
  rw [nextAnimation_nonempty mgr s (by omega), activeIndex_enterAt, hi, hK,
    Int.tmod_eq_emod (by omega) (by omega)]
  norm_cast

theorem nextTimes_index (mgr : AnimationManager) (states : Nat → AppState) (K i : Nat)
    (hK : mgr._animations.length = K) (hpos : 1 ≤ K) (hi : mgr._activeIndex = (i : Int))
    (hlt : i < K) :
    ∀ n : Nat, (mgr.nextTimes states n)._animations.length = K ∧
      (mgr.nextTimes states n)._activeIndex = (((i + n) % K : Nat) : Int) := by
  intro n
  induction n with
  | zero => exact ⟨hK, by rw [Nat.add_zero, Nat.mod_eq_of_lt hlt]; exact hi⟩
  | succ n ih =>
    obtain ⟨hl, hx⟩ := ih
    refine ⟨by simp [AnimationManager.nextTimes, length_nextAnimation, hl], ?_⟩
    simp only [AnimationManager.nextTimes]
    rw [activeIndex_nextAnimation _ _ K _ hl hpos hx]
    congr 1
    rw [Nat.add_mod, Nat.mod_mod, ← Nat.add_mod]
    rfl

theorem add_mod_cases (K i n : Nat) (hlt : i < K) (hn : n ≤ K) :
    (i + n) % K = if i + n < K then i + n else i + n - K := by
  split
  · rename_i h; exact Nat.mod_eq_of_lt h
  · rename_i h
    rw [Nat.mod_eq_sub_mod (by omega), Nat.mod_eq_of_lt (by omega)]

/-- C12: for a registry of size `K >= 1` and an active index `i < K`, `K` calls of
`nextAnimation` bring the active index back to `i`, and every index `t < K` is the
active index after exactly one of the calls number 1 to `K`. -/
theorem nextAnimation_cycle (mgr : AnimationManager) (states : Nat → AppState) (K i : Nat)
    (hK : mgr._animations.length = K) (hpos : 1 ≤ K) (hi : mgr._activeIndex = (i : Int))
    (hlt : i < K) :
    (mgr.nextTimes states K)._activeIndex = (i : Int) ∧
    ∀ t : Nat, t < K →
      ∃! n : Nat, 1 ≤ n ∧ n ≤ K ∧ (mgr.nextTimes states n)._activeIndex = (t : Int) := by
  have hidx := fun n => (nextTimes_index mgr states K i hK hpos hi hlt n).2
  constructor
  · rw [hidx K, Nat.add_mod_right, Nat.mod_eq_of_lt hlt]
  · intro t ht
    refine ⟨if i < t then t - i else t + K - i, ⟨?_, ?_, ?_⟩, ?_⟩
    · split <;> omega
    · split <;> omega
    · rw [hidx]
      have hc := add_mod_cases K i (if i < t then t - i else t + K - i) hlt
        (by split <;> omega)
      rw [hc]
      congr 1
      split <;> split <;> omega
    · rintro n ⟨h1, hn, hx⟩
      rw [hidx, add_mod_cases K i n hlt hn] at hx
      have hx2 : (if i + n < K then i + n else i + n - K) = t := by exact_mod_cast hx
      split at hx2 <;> split <;> omega

theorem switch_call_sequence_witness :
    (setup.animMgr.setActive "Strobe" {}).calls =
        setup.animMgr.calls ++ [StrategyCall.onExit 0] ++ [StrategyCall.onEnter 3] ∧
    (setup.animMgr.nextAnimation {}).calls =
        setup.animMgr.calls ++ [StrategyCall.onExit 0] ++ [StrategyCall.onEnter 1] :=
  ⟨((switch_call_sequence setup.animMgr {}).1 "Strobe" 3 "strobe" (by decide) (by decide)
      (by
        intro j m hj hjm
        have hn : setup.animMgr.listNames =
            ["fade", "spin", "spinTail", "strobe", "solid", "pixels"] := by decide
        rw [hn] at hjm
        interval_cases j <;> simp at hjm <;> subst hjm <;> decide)).1,
    ((switch_call_sequence setup.animMgr {}).2 (by decide) (by decide)).1⟩

theorem nextAnimation_cycle_witness :
    setup.animMgr._animations.length = 6 ∧ 1 ≤ 6 ∧ setup.animMgr._activeIndex = ((0 : Nat) : Int) ∧
    0 < 6 ∧
    ((setup.animMgr.nextTimes (fun _ => {}) 6)._activeIndex = ((0 : Nat) : Int) ∧
      ∀ t : Nat, t < 6 →
        ∃! n : Nat, 1 ≤ n ∧ n ≤ 6 ∧
          (setup.animMgr.nextTimes (fun _ => {}) n)._activeIndex = (t : Int)) :=
  ⟨by decide, by decide, by decide, by decide,
    nextAnimation_cycle setup.animMgr (fun _ => {}) 6 0 (by decide) (by decide) (by decide)
      (by decide)⟩

/-! ## Colour scaling -/

theorem roundF32_zero : roundF32 0 = 0 := by
  simp [roundF32]

theorem roundHalfEven_nonneg (y : ℚ) (hy : 0 ≤ y) : 0 ≤ roundHalfEven y := by
  have hf : 0 ≤ ⌊y⌋ := Int.floor_nonneg.mpr hy
  unfold roundHalfEven
  simp only
  split_ifs <;> omega

theorem roundHalfEven_le (y : ℚ) (M : ℤ) (hy : y ≤ (M : ℚ)) : roundHalfEven y ≤ M := by
  have hfloor : (⌊y⌋ : ℚ) ≤ y := Int.floor_le y
  have hfl : ⌊y⌋ ≤ M := by
    have : ((⌊y⌋ : ℤ) : ℚ) ≤ (M : ℚ) := hfloor.trans hy
    exact_mod_cast this
  -- when the fractional part is positive the floor is strictly below `M`
  have hstrict : (0 : ℚ) < y - ⌊y⌋ → ⌊y⌋ + 1 ≤ M := by
    intro hpos
    have : ((⌊y⌋ : ℤ) : ℚ) < (M : ℚ) := by linarith
    have : ⌊y⌋ < M := by exact_mod_cast this
    omega
  unfold roundHalfEven
  simp only
  split_ifs with h1 h2 h3
  · exact hfl
  · exact hstrict (by linarith)
  · exact hfl
  · exact hstrict (by linarith)

theorem binExponent_le (q : ℚ) (hq : q < (2 : ℚ) ^ (8 : ℤ)) : ∀ (fuel : Nat) (e : ℤ), e ≤ 7 →
    binExponent q fuel e ≤ 7 := by
  intro fuel
  induction fuel with
  | zero => intro e he; exact he
  | succ n ih =>
    intro e he
    simp only [binExponent]
    split_ifs with h1 h2
    · exact ih _ (by omega)
    · apply ih
      have : (2 : ℚ) ^ (e + 1) < (2 : ℚ) ^ (8 : ℤ) := lt_of_le_of_lt h2 hq
      have := (zpow_lt_zpow_iff_right₀ (by norm_num : (1 : ℚ) < 2)).mp this
      omega
    · exact he

/-- Rounding to single precision keeps a value of `[0, N]` inside `[0, N]` when `N` is
an integer below 256. -/
theorem roundF32_bounds (x : ℚ) (N : Nat) (hN : N < 256) (h0 : 0 ≤ x) (hx : x ≤ (N : ℚ)) :
    0 ≤ roundF32 x ∧ roundF32 x ≤ (N : ℚ) := by
  by_cases hz : x = 0
  · subst hz
    rw [roundF32_zero]
    exact ⟨le_refl _, by exact_mod_cast Nat.zero_le N⟩
  have hpos : 0 < x := lt_of_le_of_ne h0 (Ne.symm hz)
  have hlt : x < (2 : ℚ) ^ (8 : ℤ) := by
    have : (N : ℚ) < 256 := by exact_mod_cast hN
    norm_num
    linarith
  have he := binExponent_le x hlt 64 0 (by norm_num)
  unfold roundF32
  rw [if_neg hz]
  simp only [abs_of_pos hpos, if_neg (not_lt.mpr h0)]
  generalize binExponent x 64 0 = e at he
  obtain ⟨k, hk⟩ : ∃ k : Nat, e - 23 = -(k : ℤ) := ⟨(23 - e).toNat, by omega⟩
  rw [hk, zpow_neg, zpow_natCast]
  have h2 : (0 : ℚ) < 2 ^ k := by positivity
  rw [div_inv_eq_mul]
  constructor
  · have := roundHalfEven_nonneg (x * 2 ^ k) (by positivity)
    have : (0 : ℚ) ≤ (roundHalfEven (x * 2 ^ k) : ℚ) := by exact_mod_cast this
    positivity
  · have hM : x * 2 ^ k ≤ (((N : ℤ) * 2 ^ k : ℤ) : ℚ) := by
      push_cast
      exact mul_le_mul_of_nonneg_right hx h2.le
    have := roundHalfEven_le (x * 2 ^ k) _ hM
    have hq : (roundHalfEven (x * 2 ^ k) : ℚ) ≤ (N : ℚ) * 2 ^ k := by exact_mod_cast this
    calc (roundHalfEven (x * 2 ^ k) : ℚ) * (2 ^ k)⁻¹
        ≤ ((N : ℚ) * 2 ^ k) * (2 ^ k)⁻¹ :=
          mul_le_mul_of_nonneg_right hq (inv_nonneg.mpr h2.le)
      _ = (N : ℚ) := by field_simp

theorem floatToU8_le (q : ℚ) (N : Nat) (hq : q ≤ (N : ℚ)) : floatToU8 q ≤ N := by
  unfold floatToU8
  have h1 : ⌊q⌋ ≤ (N : ℤ) := by
    have : ((⌊q⌋ : ℤ) : ℚ) ≤ ((N : ℤ) : ℚ) := (Int.floor_le q).trans (by exact_mod_cast hq)
    exact_mod_cast this
  have h2 : ⌊q⌋.toNat ≤ N := by omega
  exact (Nat.mod_le _ _).trans h2

theorem floatToU8_lt (q : ℚ) : floatToU8 q < 256 := by
  unfold floatToU8
  exact Nat.mod_lt _ (by norm_num)

theorem colorRgb_eq (r g b : Nat) (hg : g < 256) (hb : b < 256) :
    LedRing.colorRgb r g b = r * 65536 + g * 256 + b := by
  unfold LedRing.colorRgb
  rw [Nat.shiftLeft_eq, Nat.shiftLeft_eq]
  have h1 : r * 2 ^ 16 ||| g * 2 ^ 8 = r * 2 ^ 16 + g * 2 ^ 8 := by
    have := Nat.mul_add_lt_is_or (i := 16) (b := g * 2 ^ 8) (by omega) r
    rw [Nat.mul_comm (2 ^ 16) r] at this
    exact this.symm
  rw [h1]
  have h2 : (r * 2 ^ 16 + g * 2 ^ 8) ||| b = r * 2 ^ 16 + g * 2 ^ 8 + b := by
    have := Nat.mul_add_lt_is_or (i := 8) (b := b) (by omega) (r * 2 ^ 8 + g)
    have e : r * 2 ^ 16 + g * 2 ^ 8 = 2 ^ 8 * (r * 2 ^ 8 + g) := by ring
    rw [e]
    exact this.symm
  rw [h2]
  norm_num

theorem channel_eq (x s : Nat) : (x >>> s) &&& 0xFF = (x / 2 ^ s) % 256 := by
  rw [Nat.shiftRight_eq_div_pow]
  exact Nat.and_pow_two_sub_one_eq_mod _ 8




theorem channels_pack (r g b : Nat) (hr : r < 256) (hg : g < 256) (hb : b < 256) :
    LedRing.red (r * 65536 + g * 256 + b) = r ∧
    LedRing.green (r * 65536 + g * 256 + b) = g ∧
    LedRing.blue (r * 65536 + g * 256 + b) = b := by
  have h0 := channel_eq (r * 65536 + g * 256 + b) 0
  simp only [Nat.shiftRight_zero, pow_zero, Nat.div_one] at h0
  refine ⟨?_, ?_, ?_⟩
  · unfold LedRing.red; rw [channel_eq]; norm_num; omega
  · unfold LedRing.green; rw [channel_eq]; norm_num; omega
  · unfold LedRing.blue; rw [h0]; omega

theorem channel_lt (c : Nat) :
    LedRing.red c < 256 ∧ LedRing.green c < 256 ∧ LedRing.blue c < 256 := by
  have h0 := channel_eq c 0
  simp only [Nat.shiftRight_zero, pow_zero, Nat.div_one] at h0
  refine ⟨?_, ?_, ?_⟩
  · unfold LedRing.red; rw [channel_eq]; exact Nat.mod_lt _ (by norm_num)
  · unfold LedRing.green; rw [channel_eq]; exact Nat.mod_lt _ (by norm_num)
  · unfold LedRing.blue; rw [h0]; exact Nat.mod_lt _ (by norm_num)

theorem channel_scaled_le (ch : Nat) (hch : ch < 256) (f : ℚ) (h0 : 0 < f) (h1 : f < 1) :
    floatToU8 (roundF32 ((ch : ℚ) * f)) ≤ ch := by
  have hc : (0 : ℚ) ≤ (ch : ℚ) := by exact_mod_cast Nat.zero_le ch
  have hx0 : 0 ≤ (ch : ℚ) * f := mul_nonneg hc h0.le
  have hx1 : (ch : ℚ) * f ≤ (ch : ℚ) := by nlinarith
  exact floatToU8_le _ ch (roundF32_bounds _ ch hch hx0 hx1).2

/-- C14 (amended): for every packed colour `c` and factor `f` with `0 < f < 1`, each of
the red, green and blue channels of `scaleColor(c, f)` is the single-precision product of
the corresponding 8-bit channel of `c` and `f` (the exact product rounded to the nearest
`float`), truncated toward zero; it never exceeds the input channel, and the result has
no bit set above bit 23. -/
theorem scaleColor_intermediate (c : Nat) (f : ℚ) (h0 : 0 < f) (h1 : f < 1) :
    LedRing.red (LedRing.scaleColor c f) = floatToU8 (roundF32 ((LedRing.red c : ℚ) * f)) ∧
    LedRing.green (LedRing.scaleColor c f) = floatToU8 (roundF32 ((LedRing.green c : ℚ) * f)) ∧
    LedRing.blue (LedRing.scaleColor c f) = floatToU8 (roundF32 ((LedRing.blue c : ℚ) * f)) ∧
    LedRing.red (LedRing.scaleColor c f) ≤ LedRing.red c ∧
    LedRing.green (LedRing.scaleColor c f) ≤ LedRing.green c ∧
    LedRing.blue (LedRing.scaleColor c f) ≤ LedRing.blue c ∧
    LedRing.scaleColor c f < 2 ^ 24 := by
  have hr := floatToU8_lt (roundF32 ((LedRing.red c : ℚ) * f))
  have hg := floatToU8_lt (roundF32 ((LedRing.green c : ℚ) * f))
  have hb := floatToU8_lt (roundF32 ((LedRing.blue c : ℚ) * f))
  obtain ⟨hcr, hcg, hcb⟩ := channel_lt c
  have hs : LedRing.scaleColor c f =
      floatToU8 (roundF32 ((LedRing.red c : ℚ) * f)) * 65536 +
      floatToU8 (roundF32 ((LedRing.green c : ℚ) * f)) * 256 +
      floatToU8 (roundF32 ((LedRing.blue c : ℚ) * f)) := by
    unfold LedRing.scaleColor
    rw [if_neg (not_le.mpr h0), if_neg (not_le.mpr h1)]
    exact colorRgb_eq _ _ _ hg hb
  have er : LedRing.red (LedRing.scaleColor c f) =
      floatToU8 (roundF32 ((LedRing.red c : ℚ) * f)) := by
    rw [hs]; exact (channels_pack _ _ _ hr hg hb).1
  have eg : LedRing.green (LedRing.scaleColor c f) =
      floatToU8 (roundF32 ((LedRing.green c : ℚ) * f)) := by
    rw [hs]; exact (channels_pack _ _ _ hr hg hb).2.1
  have eb : LedRing.blue (LedRing.scaleColor c f) =
      floatToU8 (roundF32 ((LedRing.blue c : ℚ) * f)) := by
    rw [hs]; exact (channels_pack _ _ _ hr hg hb).2.2
  refine ⟨er, eg, eb, ?_, ?_, ?_, ?_⟩
  · rw [er]; exact channel_scaled_le _ hcr f h0 h1
  · rw [eg]; exact channel_scaled_le _ hcg f h0 h1
  · rw [eb]; exact channel_scaled_le _ hcb f h0 h1
  · rw [hs]; omega

theorem floatToU8_natCast (n : Nat) (h : n < 256) : floatToU8 (n : ℚ) = n := by
  unfold floatToU8
  rw [show ((n : ℚ)) = ((n : ℤ) : ℚ) by norm_cast, Int.floor_intCast]
  simp [Nat.mod_eq_of_lt h]

theorem binExponent_up (q : ℚ) (n : Nat) (e : ℤ) (h1 : ¬ q < (2 : ℚ) ^ e)
    (h2 : (2 : ℚ) ^ (e + 1) ≤ q) : binExponent q (n + 1) e = binExponent q n (e + 1) := by
  simp only [binExponent, if_neg h1, if_pos h2]

theorem binExponent_stop (q : ℚ) (n : Nat) (e : ℤ) (h1 : ¬ q < (2 : ℚ) ^ e)
    (h2 : ¬ (2 : ℚ) ^ (e + 1) ≤ q) : binExponent q (n + 1) e = e := by
  simp only [binExponent, if_neg h1, if_neg h2]

theorem roundF32_six_fifths : roundF32 (6 * (13981013 / 16777216)) = 5 := by
  have hb : binExponent (6 * (13981013 / 16777216)) 64 0 = 2 := by
    rw [binExponent_up _ 63 0 (by norm_num) (by norm_num)]
    rw [binExponent_up _ 62 (0 + 1) (by norm_num) (by norm_num)]
    rw [binExponent_stop _ 61 (0 + 1 + 1) (by norm_num) (by norm_num)]
    norm_num
  have hfloor : ⌊(6 * (13981013 / 16777216) : ℚ) / (2 : ℚ) ^ ((2 : ℤ) - 23)⌋ = 10485759 := by
    rw [Int.floor_eq_iff]
    norm_num
  have hr : roundHalfEven ((6 * (13981013 / 16777216) : ℚ) / (2 : ℚ) ^ ((2 : ℤ) - 23))
      = 10485760 := by
    unfold roundHalfEven
    simp only [hfloor]
    norm_num
  unfold roundF32
  rw [if_neg (by norm_num)]
  simp only [abs_of_pos (show (0 : ℚ) < 6 * (13981013 / 16777216) by norm_num), hb, hr]
  norm_num

theorem binExponent_down (q : ℚ) (n : Nat) (e : ℤ) (h1 : q < (2 : ℚ) ^ e) :
    binExponent q (n + 1) e = binExponent q n (e - 1) := by
  simp only [binExponent, if_pos h1]

/-- The factor of the counterexample is a single-precision value. -/
theorem roundF32_five_sixths :
    roundF32 (13981013 / 16777216) = 13981013 / 16777216 := by
  have hb : binExponent (13981013 / 16777216) 64 0 = -1 := by
    rw [binExponent_down _ 63 0 (by norm_num)]
    rw [binExponent_stop _ 62 (0 - 1) (by norm_num) (by norm_num)]
    norm_num
  have hfloor : ⌊(13981013 / 16777216 : ℚ) / (2 : ℚ) ^ ((-1 : ℤ) - 23)⌋ = 13981013 := by
    rw [Int.floor_eq_iff]
    norm_num
  have hr : roundHalfEven ((13981013 / 16777216 : ℚ) / (2 : ℚ) ^ ((-1 : ℤ) - 23))
      = 13981013 := by
    unfold roundHalfEven
    simp only [hfloor]
    norm_num
  unfold roundF32
  rw [if_neg (by norm_num)]
  simp only [abs_of_pos (show (0 : ℚ) < 13981013 / 16777216 by norm_num), hb, hr]
  norm_num

/-- C14 (the claim fails): for the colour 0x000006 and the single-precision factor
13981013 / 2^24 (about 0.8333333), the exact product of the blue channel 6 and the factor
is about 4.9999999, which truncates to 4, but `scaleColor` returns 5: the `float` product
rounds up to 5.0 before the conversion to `uint8_t`. -/
theorem scaleColor_rounds_up :
    LedRing.blue 0x000006 = 6 ∧
    (0 : ℚ) < 13981013 / 16777216 ∧ (13981013 / 16777216 : ℚ) < 1 ∧
    roundF32 (13981013 / 16777216) = 13981013 / 16777216 ∧
    LedRing.scaleColor 0x000006 (13981013 / 16777216) = 5 ∧
    ⌊((6 : ℚ) * (13981013 / 16777216))⌋ = 4 := by
  refine ⟨by decide, by norm_num, by norm_num, roundF32_five_sixths, ?_, ?_⟩
  · unfold LedRing.scaleColor
    rw [if_neg (by norm_num), if_neg (by norm_num)]
    have h16 : ((0x000006 >>> 16) &&& 0xFF : Nat) = 0 := by decide
    have h8 : ((0x000006 >>> 8) &&& 0xFF : Nat) = 0 := by decide
    have h0 : ((0x000006 : Nat) &&& 0xFF : Nat) = 6 := by decide
    simp only [h16, h8, h0]
    have e0 : roundF32 (((0 : Nat) : ℚ) * (13981013 / 16777216)) = 0 := by
      simp [roundF32_zero]
    have e6 : roundF32 (((6 : Nat) : ℚ) * (13981013 / 16777216)) = 5 := by
      have := roundF32_six_fifths
      simpa using this
    rw [e0, e6]
    have z : floatToU8 (0 : ℚ) = 0 := by simpa using floatToU8_natCast 0 (by decide)
    have f : floatToU8 (5 : ℚ) = 5 := by simpa using floatToU8_natCast 5 (by decide)
    rw [z, f]
    decide
  · rw [Int.floor_eq_iff]
    norm_num

/-- C13: `scaleColor` at the boundaries: for every packed colour `c`, a factor `f <= 0`
yields 0 and a factor `f >= 1` yields `c` itself. -/
theorem scaleColor_boundary (c : Nat) (f : ℚ) :
    (f ≤ 0 → LedRing.scaleColor c f = 0) ∧ (1 ≤ f → LedRing.scaleColor c f = c) := by
  constructor
  · intro h
    unfold LedRing.scaleColor
    rw [if_pos h]
  · intro h
    unfold LedRing.scaleColor
    rw [if_neg (by linarith), if_pos h]

theorem scaleColor_boundary_witness :
    LedRing.scaleColor 0xFF9600 0 = 0 ∧ LedRing.scaleColor 0xFF9600 1 = 0xFF9600 :=
  ⟨(scaleColor_boundary 0xFF9600 0).1 (le_refl 0), (scaleColor_boundary 0xFF9600 1).2 (le_refl 1)⟩

theorem scaleColor_intermediate_witness :
    (0 : ℚ) < 1 / 2 ∧ (1 / 2 : ℚ) < 1 ∧
    LedRing.red (LedRing.scaleColor 0xFF9600 (1 / 2)) ≤ LedRing.red 0xFF9600 ∧
    LedRing.scaleColor 0xFF9600 (1 / 2) < 2 ^ 24 :=
  ⟨by norm_num, by norm_num,
    (scaleColor_intermediate 0xFF9600 (1 / 2) (by norm_num) (by norm_num)).2.2.2.1,
    (scaleColor_intermediate 0xFF9600 (1 / 2) (by norm_num) (by norm_num)).2.2.2.2.2.2⟩

/-! ## Pixels mode and the pixel commands -/

theorem log_setPixelsFrom (color : Nat → Nat) : ∀ (k i : Nat) (ring : LedRing),
    (ring.setPixelsFrom color i k).log =
      ring.log ++ (List.range k).map (fun j => RingOp.setPixelColor (i + j) (color (i + j))) := by
  intro k
  induction k with
  | zero => intro i ring; simp [LedRing.setPixelsFrom]
  | succ k ih =>
    intro i ring
    simp only [LedRing.setPixelsFrom]
    rw [ih]
    simp only [LedRing.setPixelColor, List.range_succ_eq_map, List.map_cons, List.map_map,
      List.append_assoc, List.singleton_append, Nat.add_zero]
    congr 2
    apply List.map_congr_left
    intro j _
    simp only [Function.comp]
    rw [show i + 1 + j = i + (j + 1) by omega]

theorem count_show_setPixelsFrom (color : Nat → Nat) (k i : Nat) (ring : LedRing) :
    (ring.setPixelsFrom color i k).log.count RingOp.show = ring.log.count RingOp.show := by
  rw [log_setPixelsFrom, List.count_append]
  have : ((List.range k).map
      (fun j => RingOp.setPixelColor (i + j) (color (i + j)))).count RingOp.show = 0 := by
    rw [List.count_eq_zero]
    intro h
    obtain ⟨j, _, hj⟩ := List.mem_map.mp h
    exact RingOp.noConfusion hj
  omega

/-- C15: `PixelsAnimation::update` is idempotent between version bumps.  For every
private state, shared state and surface, a second `update` with the same shared state
(no change to the pixel array or its version counter, no re-enter) returns the strategy
and the surface exactly as the first call left them: it writes nothing and flushes
nothing; the first call flushes at most once. -/
theorem pixels_update_idempotent (a : PixelsAnimation) (now1 now2 : Nat) (state : AppState)
    (ring : LedRing) :
    (a.update now1 state ring).1.update now2 state (a.update now1 state ring).2 =
      a.update now1 state ring ∧
    (a.update now1 state ring).2.log.count RingOp.show ≤ ring.log.count RingOp.show + 1 := by
  unfold PixelsAnimation.update
  by_cases h : a._lastVersion = state.pixelVersion
  · simp [h]
  · simp [h, LedRing.show, count_show_setPixelsFrom]

theorem setColorsLoop_eq (updates : List Commands.PixelUpdate) : ∀ acc : List Nat × Bool,
    Commands.setColorsLoop updates acc =
      (Commands.applyInRange acc.1 updates,
        acc.2 || (updates.any (fun u => decide (u.position < Config.NUM_PIXELS)))) := by
  induction updates with
  | nil => intro acc; simp [Commands.setColorsLoop, Commands.applyInRange]
  | cons u rest ih =>
    intro acc
    by_cases h : u.position ≥ Config.NUM_PIXELS
    · have hn : ¬ u.position < Config.NUM_PIXELS := by omega
      simp [Commands.setColorsLoop, h, ih, Commands.applyInRange, hn]
    · have hn : u.position < Config.NUM_PIXELS := by omega
      simp [Commands.setColorsLoop, h, ih, Commands.applyInRange, hn]

theorem applyInRange_filter (pixels : List Nat) (updates : List Commands.PixelUpdate) :
    Commands.applyInRange pixels
        (updates.filter (fun u => decide (u.position < Config.NUM_PIXELS))) =
      Commands.applyInRange pixels updates := by
  simp [Commands.applyInRange, List.filter_filter]

theorem applyInRange_none (pixels : List Nat) (updates : List Commands.PixelUpdate)
    (h : ∀ u ∈ updates, u.position ≥ Config.NUM_PIXELS) :
    Commands.applyInRange pixels updates = pixels ∧
    updates.any (fun u => decide (u.position < Config.NUM_PIXELS)) = false := by
  have hf : updates.filter (fun u => decide (u.position < Config.NUM_PIXELS)) = [] := by
    rw [List.filter_eq_nil_iff]
    intro u hu
    have := h u hu
    simp; omega
  constructor
  · simp [Commands.applyInRange, hf]
  · rw [List.any_eq_false]
    intro u hu
    have := h u hu
    simp; omega

theorem setColors_eq (state : AppState) (updates : List Commands.PixelUpdate) :
    Commands.setColors state updates =
      if updates.any (fun u => decide (u.position < Config.NUM_PIXELS)) = true then
        { state with pixelColors := Commands.applyInRange state.pixelColors updates,
                     pixelVersion := (state.pixelVersion + 1) % 4294967296 }
      else { state with pixelColors := Commands.applyInRange state.pixelColors updates } := by
  unfold Commands.setColors
  simp only [setColorsLoop_eq, Bool.false_or]

/-- C16: out-of-range pixel positions are rejected, not clamped.  `setColor(state,
position, color)` with `position >= NUM_PIXELS` returns the state unchanged; `setColors`
gives the same result as on the batch with every out-of-range entry removed; and a batch
whose entries are all out of range returns the state unchanged, version counter
included. -/
theorem out_of_range_rejected (state : AppState) :
    (∀ position color : Nat, position ≥ Config.NUM_PIXELS →
        Commands.setPixel state position color = state) ∧
    (∀ updates : List Commands.PixelUpdate,
        Commands.setColors state updates =
          Commands.setColors state
            (updates.filter (fun u => decide (u.position < Config.NUM_PIXELS)))) ∧
    (∀ updates : List Commands.PixelUpdate,
        (∀ u ∈ updates, u.position ≥ Config.NUM_PIXELS) →
        Commands.setColors state updates = state) := by
  refine ⟨?_, ?_, ?_⟩
  · intro position color h
    unfold Commands.setPixel
    rw [if_pos h]
  · intro updates
    rw [setColors_eq, setColors_eq, applyInRange_filter]
    simp [List.any_filter]
  · intro updates h
    obtain ⟨h1, h2⟩ := applyInRange_none state.pixelColors updates h
    rw [setColors_eq, h1, h2]
    simp

theorem foldl_set_length (us : List Commands.PixelUpdate) : ∀ pixels : List Nat,
    (us.foldl (fun p u => p.set u.position u.color) pixels).length = pixels.length := by
  induction us with
  | nil => intro p; rfl
  | cons u rest ih => intro p; simp [ih]

theorem foldl_set_other (us : List Commands.PixelUpdate) (q : Nat)
    (h : ∀ u ∈ us, u.position ≠ q) : ∀ pixels : List Nat,
    (us.foldl (fun p u => p.set u.position u.color) pixels)[q]? = pixels[q]? := by
  induction us with
  | nil => intro p; rfl
  | cons u rest ih =>
    intro p
    simp only [List.foldl_cons]
    rw [ih (fun v hv => h v (List.mem_cons_of_mem _ hv))]
    exact List.getElem?_set_ne (h u (List.mem_cons_self _ _))

/-- The last in-range entry for a position decides the colour stored there. -/
theorem applyInRange_last (pixels : List Nat) (pre post : List Commands.PixelUpdate)
    (u : Commands.PixelUpdate) (hu : u.position < Config.NUM_PIXELS)
    (hlen : pixels.length = Config.NUM_PIXELS)
    (hpost : ∀ v ∈ post, v.position ≠ u.position) :
    (Commands.applyInRange pixels (pre ++ u :: post))[u.position]? = some u.color := by
  unfold Commands.applyInRange
  rw [List.filter_append, List.foldl_append]
  simp only [List.filter_cons, hu, decide_True, if_true, List.foldl_cons]
  rw [foldl_set_other _ _ (fun v hv => hpost v (List.mem_of_mem_filter hv))]
  exact List.getElem?_set_self (by simp [foldl_set_length, hlen, hu])

/-- C17: version-bump semantics of the pixel commands, for a state whose pixel array has
`NUM_PIXELS` entries.  `setColor(state, position, color)` with `position < NUM_PIXELS`
stores `color` at `position`, adds 1 (mod 2^32) to `pixelVersion` and changes no other
pixel or field.  `setColors` with at least one in-range entry applies the in-range
entries in order, adds 1 (mod 2^32) to `pixelVersion` once for the whole batch and
changes no other field; the last in-range entry for a position decides its colour. -/
theorem pixel_commands_bump_version (state : AppState)
    (hlen : state.pixelColors.length = Config.NUM_PIXELS) :
    (∀ position color : Nat, position < Config.NUM_PIXELS →
        Commands.setPixel state position color =
          { state with pixelColors := state.pixelColors.set position color,
                       pixelVersion := (state.pixelVersion + 1) % 4294967296 } ∧
        (Commands.setPixel state position color).pixelColors[position]? = some color ∧
        ∀ q : Nat, q ≠ position →
          (Commands.setPixel state position color).pixelColors[q]? = state.pixelColors[q]?) ∧
    (∀ updates : List Commands.PixelUpdate,
        (∃ u ∈ updates, u.position < Config.NUM_PIXELS) →
        Commands.setColors state updates =
          { state with pixelColors := Commands.applyInRange state.pixelColors updates,
                       pixelVersion := (state.pixelVersion + 1) % 4294967296 }) ∧
    (∀ (pre post : List Commands.PixelUpdate) (u : Commands.PixelUpdate),
        u.position < Config.NUM_PIXELS → (∀ v ∈ post, v.position ≠ u.position) →
        (Commands.setColors state (pre ++ u :: post)).pixelColors[u.position]? =
          some u.color) := by
  refine ⟨?_, ?_, ?_⟩
  · intro position color h
    have hs : Commands.setPixel state position color =
        { state with pixelColors := state.pixelColors.set position color,
                     pixelVersion := (state.pixelVersion + 1) % 4294967296 } := by
      unfold Commands.setPixel
      rw [if_neg (by omega)]
    rw [hs]
    refine ⟨rfl, ?_, ?_⟩
    · exact List.getElem?_set_self (by rw [hlen]; exact h)
    · intro q hq
      exact List.getElem?_set_ne (Ne.symm hq)
  · intro updates hex
    have hany : updates.any (fun u => decide (u.position < Config.NUM_PIXELS)) = true := by
      rw [List.any_eq_true]
      obtain ⟨u, hu, hp⟩ := hex
      exact ⟨u, hu, by simpa using hp⟩
    rw [setColors_eq, if_pos hany]
  · intro pre post u hu hpost
    have hpx : (Commands.setColors state (pre ++ u :: post)).pixelColors =
        Commands.applyInRange state.pixelColors (pre ++ u :: post) := by
      rw [setColors_eq]
      split <;> rfl
    rw [hpx]
    exact applyInRange_last _ pre post u hu hlen hpost

theorem pixel_commands_bump_version_witness :
    ({} : AppState).pixelColors.length = Config.NUM_PIXELS ∧
    (Commands.setPixel {} 1 0xFF0000).pixelColors = [0, 0xFF0000, 0] ∧
    (Commands.setPixel {} 1 0xFF0000).pixelVersion = 2 ∧
    (Commands.setColors {} [⟨1, 5⟩, ⟨7, 9⟩, ⟨1, 6⟩]).pixelColors[1]? = some 6 :=
  ⟨rfl,
    congrArg AppState.pixelColors
      ((pixel_commands_bump_version {} rfl).1 1 0xFF0000 (by decide)).1,
    congrArg AppState.pixelVersion
      ((pixel_commands_bump_version {} rfl).1 1 0xFF0000 (by decide)).1,
    (pixel_commands_bump_version {} rfl).2.2 [⟨1, 5⟩, ⟨7, 9⟩] [] ⟨1, 6⟩ (by decide)
      (by intro v hv; exact absurd hv (List.not_mem_nil _))⟩

/-! ## The presence block when nothing changed -/

/-- C18: a pass of `loop()` on which the presence fetch fails (or is not attempted), or
on which the fetched classification equals the last-seen one, leaves the last-seen
classification, the shared device state, the scheduler with its strategies, the surface
and the three settle-timer variables exactly as they were before the presence block. -/
theorem presence_noop (d : Device) (inp : TickInput)
    (h : inp.fetched = none ∨ inp.fetched = some d.lastPresence) :
    (pollPresence d inp).lastPresence = d.lastPresence ∧
    (pollPresence d inp).appState = d.appState ∧
    (pollPresence d inp).animMgr = d.animMgr ∧
    (pollPresence d inp).ledRing = d.ledRing ∧
    (pollPresence d inp).inStrobePhase = d.inStrobePhase ∧
    (pollPresence d inp).strobeStartTime = d.strobeStartTime ∧
    (pollPresence d inp).strobeThen = d.strobeThen := by
  unfold pollPresence
  rcases h with h | h
  · rw [h]
    simp only
    split_ifs <;> exact ⟨rfl, rfl, rfl, rfl, rfl, rfl, rfl⟩
  · rw [h]
    simp only [presenceStep]
    split_ifs <;> first | exact ⟨rfl, rfl, rfl, rfl, rfl, rfl, rfl⟩ | simp_all

theorem presence_noop_witness :
    (({ nowMs := 70000, fetched := none } : TickInput).fetched = none ∨
      ({ nowMs := 70000, fetched := none } : TickInput).fetched
        = some busyAt5000.lastPresence) ∧
    (pollPresence busyAt5000 { nowMs := 70000, fetched := none }).lastPresence
        = Presence.Busy ∧
    (pollPresence busyAt5000 { nowMs := 70000, fetched := none }).inStrobePhase = true :=
  ⟨Or.inl rfl,
    (presence_noop busyAt5000 { nowMs := 70000, fetched := none } (Or.inl rfl)).1,
    (presence_noop busyAt5000 { nowMs := 70000, fetched := none }
      (Or.inl rfl)).2.2.2.2.1⟩

/-! ## The HTTP setter handlers -/

/-- The handlers with a two-sided range check, and the position check of
`handleSetPixel`: a request is either rejected with the globals unchanged, or the value
itself, which lies in the checked range, is stored. -/
theorem http_checked_handlers (d : Device) (v : Int) :
    ((HttpApi.handleSetBrightness d v = (false, d)) ∨
      ((HttpApi.handleSetBrightness d v).2.appState.brightness = v ∧ 0 ≤ v ∧ v ≤ 255)) ∧
    ((HttpApi.handleSetTail d v = (false, d)) ∨
      ((HttpApi.handleSetTail d v).2.appState.tailLength = v ∧ 1 ≤ v ∧ v ≤ 12)) ∧
    (∀ (colorStr : String) (color : Nat), (v < 0 ∨ v ≥ (Config.NUM_PIXELS : Int)) →
      HttpApi.handleSetPixel d v colorStr color = (false, d)) := by
  refine ⟨?_, ?_, ?_⟩
  · unfold HttpApi.handleSetBrightness
    split
    · exact Or.inl rfl
    · right
      simp only [Commands.setBrightness]
      omega
  · unfold HttpApi.handleSetTail
    split
    · exact Or.inl rfl
    · right
      simp only [Commands.setTailLength]
      omega
  · intro colorStr color h
    unfold HttpApi.handleSetPixel
    rw [if_pos h]

/-- C19 (evaluation of the code where the claim fails): `handleSetSpeed` accepts the
request value 65536 and stores 0 in `speedMs`, and accepts 70000 and stores 4464;
`handleSetStrobe` accepts 65536 and stores 0 in `strobePeriodMs`.  Both handlers reject
the request value 0. -/
theorem http_speed_strobe_wrap :
    (HttpApi.handleSetSpeed setup 65536).1 = true ∧
    (HttpApi.handleSetSpeed setup 65536).2.appState.speedMs = 0 ∧
    (HttpApi.handleSetSpeed setup 70000).1 = true ∧
    (HttpApi.handleSetSpeed setup 70000).2.appState.speedMs = 4464 ∧
    (HttpApi.handleSetStrobe setup 65536).1 = true ∧
    (HttpApi.handleSetStrobe setup 65536).2.appState.strobePeriodMs = 0 ∧
    HttpApi.handleSetSpeed setup 0 = (false, setup) ∧
    HttpApi.handleSetStrobe setup 0 = (false, setup) := by
  decide

/-! ## A hold cancels a pending click burst -/

theorem run_fst_eq_trace (l : List (Nat × Bool)) : ∀ b : ButtonInput,
    (b.run l).1 = (b.trace l).map Prod.fst := by
  induction l with
  | nil => intro b; rfl
  | cons x rest ih => intro b; obtain ⟨t, r⟩ := x; simp [ButtonInput.run, ButtonInput.trace, ih]

theorem runStates_eq_trace (l : List (Nat × Bool)) : ∀ b : ButtonInput,
    b.runStates l = (b.trace l).map Prod.snd := by
  induction l with
  | nil => intro b; rfl
  | cons x rest ih =>
    intro b; obtain ⟨t, r⟩ := x; simp [ButtonInput.runStates, ButtonInput.trace, ih]

theorem trace_append (l1 l2 : List (Nat × Bool)) : ∀ b : ButtonInput,
    b.trace (l1 ++ l2) = b.trace l1 ++ (b.run l1).2.trace l2 := by
  induction l1 with
  | nil => intro b; rfl
  | cons x rest ih =>
    intro b; obtain ⟨t, r⟩ := x; simp [ButtonInput.run, ButtonInput.trace, ih]

/-- A tick on which the debounced state stays released. -/
theorem update_stays_released (b : ButtonInput) (raw : Bool) (t : Nat)
    (h1 : b._stableState = false) (h2 : (b.update raw t).2._stableState = false) :
    b.update raw t =
      if b._clickCount > 0 ∧ sub32 t b._lastReleaseMs ≥ 300 then
        (ButtonInput.clickEvent b._clickCount, { b.debounceRaw raw t with _clickCount := 0 })
      else (ButtonEvent.None, b.debounceRaw raw t) := by
  obtain ⟨f1, f2, f3, f4, f5, f6, f7, f8⟩ := debounceRaw_fields b raw t
  rw [update_stableState] at h2
  rw [update_eq_afterDebounce, h2, afterDebounce_released _ _ (f1.trans h1)]
  by_cases hc : b._clickCount > 0 ∧ sub32 t b._lastReleaseMs ≥ 300
  · rw [if_pos hc, if_pos (by rw [f2, f3]; exact hc), f2]
  · rw [if_neg hc, if_neg (by rw [f2, f3]; exact hc)]

/-- Released with a pending click burst whose window has not expired: nothing is
emitted. -/
theorem trace_waiting (gap : List (Nat × Bool)) : ∀ b : ButtonInput,
    b._stableState = false →
    (∀ s ∈ b.runStates gap, s._stableState = false) →
    (∀ s ∈ gap, sub32 s.1 b._lastReleaseMs < 300) →
    (∀ p ∈ b.trace gap, p.1 = ButtonEvent.None) ∧ (b.run gap).2._stableState = false := by
  induction gap with
  | nil => intro b h _ _; exact ⟨fun p hp => absurd hp (List.not_mem_nil _), h⟩
  | cons x rest ih =>
    intro b h0 hst hw
    obtain ⟨t, r⟩ := x
    obtain ⟨f1, f2, f3, f4, f5, f6, f7, f8⟩ := debounceRaw_fields b r t
    have hs1 : (b.update r t).2._stableState = false :=
      hst _ (by simp [ButtonInput.runStates])
    have hupd := update_stays_released b r t h0 hs1
    have hwin : sub32 t b._lastReleaseMs < 300 := hw (t, r) (List.mem_cons_self _ _)
    rw [if_neg (by intro h; omega)] at hupd
    have hrest := ih (b.debounceRaw r t) (f1.trans h0)
      (by
        intro s hs
        apply hst
        simp only [ButtonInput.runStates, hupd, List.mem_cons]
        exact Or.inr hs)
      (by
        intro s hs
        rw [f3]
        exact hw s (List.mem_cons_of_mem _ hs))
    simp only [ButtonInput.trace, ButtonInput.run, hupd]
    refine ⟨?_, hrest.2⟩
    intro p hp
    rcases List.mem_cons.mp hp with h | h
    · rw [h]
    · exact hrest.1 p h

/-- Released with no pending click: nothing is emitted and the count stays 0. -/
theorem trace_idle (after : List (Nat × Bool)) : ∀ b : ButtonInput,
    b._stableState = false → b._clickCount = 0 →
    (∀ s ∈ b.runStates after, s._stableState = false) →
    (∀ p ∈ b.trace after, p.1 = ButtonEvent.None) ∧ (b.run after).2._clickCount = 0 := by
  induction after with
  | nil => intro b _ h _; exact ⟨fun p hp => absurd hp (List.not_mem_nil _), h⟩
  | cons x rest ih =>
    intro b h0 hc hst
    obtain ⟨t, r⟩ := x
    obtain ⟨f1, f2, f3, f4, f5, f6, f7, f8⟩ := debounceRaw_fields b r t
    have hs1 : (b.update r t).2._stableState = false :=
      hst _ (by simp [ButtonInput.runStates])
    have hupd := update_stays_released b r t h0 hs1
    rw [if_neg (by intro h; omega)] at hupd
    have hrest := ih (b.debounceRaw r t) (f1.trans h0) (f2.trans hc)
      (by
        intro s hs
        apply hst
        simp only [ButtonInput.runStates, hupd, List.mem_cons]
        exact Or.inr hs)
    simp only [ButtonInput.trace, ButtonInput.run, hupd]
    refine ⟨?_, hrest.2⟩
    intro p hp
    rcases List.mem_cons.mp hp with h | h
    · rw [h]
    · exact hrest.1 p h

/-- While the debounced state stays pressed, a tick that returns `Hold` leaves the click
count at 0. -/
theorem trace_pressed_hold (press : List (Nat × Bool)) : ∀ b : ButtonInput,
    b._stableState = true →
    (∀ s ∈ b.runStates press, s._stableState = true) →
    ∀ p ∈ b.trace press, p.1 = ButtonEvent.Hold → p.2._clickCount = 0 := by
  induction press with
  | nil => intro b _ _ p hp; exact absurd hp (List.not_mem_nil _)
  | cons x rest ih =>
    intro b h1 hst p hp
    obtain ⟨t, r⟩ := x
    have hs1 : (b.update r t).2._stableState = true :=
      hst _ (by simp [ButtonInput.runStates])
    have hupd := update_stays_pressed b r t h1 hs1
    simp only [ButtonInput.trace] at hp
    rcases List.mem_cons.mp hp with h | h
    · intro hH
      rw [h] at hH ⊢
      rw [hupd] at hH ⊢
      split at hH
      · rename_i hc; rw [if_pos hc]
      · exact absurd hH (by simp)
    · exact ih _ hs1
        (by
          intro s hs
          apply hst
          simp only [ButtonInput.runStates, List.mem_cons]
          exact Or.inr hs) p h

theorem count_hold_of_none (l : List (ButtonEvent × ButtonInput))
    (h : ∀ p ∈ l, p.1 = ButtonEvent.None) : (l.map Prod.fst).count ButtonEvent.Hold = 0 := by
  rw [List.count_eq_zero]
  intro hmem
  obtain ⟨p, hp, hpe⟩ := List.mem_map.mp hmem
  have := h p hp
  rw [hpe] at this
  exact ButtonEvent.noConfusion this

theorem run_cons (b : ButtonInput) (t : Nat) (r : Bool) (l : List (Nat × Bool)) :
    (b.run ((t, r) :: l)).2 = ((b.update r t).2.run l).2 := rfl

/-- C20: a hold cancels a click burst in progress.  The debouncer is released with a
pending click count (any value, in particular `n >= 1`); on the ticks of `gap` it stays
released and the 300 ms window since the last release has not expired; on `first` the
debounced state becomes pressed, it stays pressed on the ticks of `press`, one of which
lies at least 800 ms (on the 32-bit clock) after `first`; on `rel` it becomes released
and stays released on the ticks of `after`.  Then over the whole sequence `update`
returns `Hold` exactly once and `None` on every other tick (no click event before or
after the release), the click count is 0 right after the tick that returns `Hold`, and
it is 0 at the end. -/
theorem hold_cancels_clicks (b : ButtonInput) (gap : List (Nat × Bool)) (first : Nat × Bool)
    (press : List (Nat × Bool)) (rel : Nat × Bool) (after : List (Nat × Bool))
    (h0 : b._stableState = false)
    (hgap : ∀ s ∈ b.runStates gap, s._stableState = false)
    (hwin : ∀ s ∈ gap, ((s.1 : Int) - (b._lastReleaseMs : Int)) % 4294967296 < 300)
    (hpress : ∀ s ∈ (b.run gap).2.runStates (first :: press), s._stableState = true)
    (hlong : ∃ s ∈ press, ((s.1 : Int) - (first.1 : Int)) % 4294967296 ≥ 800)
    (hafter : ∀ s ∈ (b.run (gap ++ first :: press)).2.runStates (rel :: after),
      s._stableState = false) :
    ((b.trace (gap ++ first :: press ++ rel :: after)).map Prod.fst).count ButtonEvent.Hold = 1 ∧
    (∀ p ∈ b.trace (gap ++ first :: press ++ rel :: after),
      p.1 = ButtonEvent.None ∨ (p.1 = ButtonEvent.Hold ∧ p.2._clickCount = 0)) ∧
    (b.run (gap ++ first :: press ++ rel :: after)).2._clickCount = 0 := by
  obtain ⟨t0, r0⟩ := first
  obtain ⟨t1, r1⟩ := rel
  -- the gap
  have hw : ∀ s ∈ gap, sub32 s.1 b._lastReleaseMs < 300 := by
    intro s hs
    have := hwin s hs
    have := sub32_eq_emod s.1 b._lastReleaseMs
    omega
  obtain ⟨hgapNone, hb1⟩ := trace_waiting gap b h0 hgap hw
  -- the rising tick
  have hs1 : ((b.run gap).2.update r0 t0).2._stableState = true :=
    hpress _ (by simp [ButtonInput.runStates])
  have hupd := update_rising (b.run gap).2 r0 t0 hb1 hs1
  obtain ⟨b2, hb2s, hb2h, hb2p, hupd2⟩ : ∃ b2 : ButtonInput, b2._stableState = true ∧
      b2._holdFired = false ∧ b2._pressStartMs = t0 ∧
      (b.run gap).2.update r0 t0 = (ButtonEvent.None, b2) := ⟨_, rfl, rfl, rfl, hupd⟩
  -- the press
  have hex : ∃ s ∈ press, sub32 s.1 b2._pressStartMs ≥ 800 := by
    obtain ⟨s, hs, hge⟩ := hlong
    refine ⟨s, hs, ?_⟩
    have := sub32_eq_emod s.1 t0
    simp only at hge
    rw [hb2p]
    omega
  have hpress2 : ∀ s ∈ b2.runStates press, s._stableState = true := by
    intro s hs
    apply hpress
    simp only [ButtonInput.runStates, hupd2, List.mem_cons]
    exact Or.inr hs
  obtain ⟨hcount, hev, hst3, hhf3, hcc3⟩ := run_pressed press b2 hb2s hb2h hpress2 hex
  have hhold := trace_pressed_hold press b2 hb2s hpress2
  -- the state after the press
  have hb3 : (b.run (gap ++ (t0, r0) :: press)).2 = (b2.run press).2 := by
    rw [run_append, run_cons, hupd2]
  rw [hb3] at hafter
  -- the release tick
  have hs4 : ((b2.run press).2.update r1 t1).2._stableState = false :=
    hafter _ (by simp [ButtonInput.runStates])
  have hupd4 := update_release_held (b2.run press).2 r1 t1 hst3 hhf3 hcc3 hs4
  obtain ⟨f1, f2, f3, f4, f5, f6, f7, f8⟩ := debounceRaw_fields (b2.run press).2 r1 t1
  obtain ⟨b4, hupd5, hb4s, hb4c⟩ : ∃ b4 : ButtonInput,
      (b2.run press).2.update r1 t1 = (ButtonEvent.None, b4) ∧ b4._stableState = false ∧
      b4._clickCount = 0 := ⟨_, hupd4, rfl, f2.trans hcc3⟩
  have hafter4 : ∀ s ∈ b4.runStates after, s._stableState = false := by
    intro s hs
    apply hafter
    simp only [ButtonInput.runStates, hupd5, List.mem_cons]
    exact Or.inr hs
  obtain ⟨hafterNone, hfinal⟩ := trace_idle after b4 hb4s hb4c hafter4
  -- assemble
  have htrace : b.trace (gap ++ (t0, r0) :: press ++ (t1, r1) :: after) =
      b.trace gap ++ ((ButtonEvent.None, b2) :: b2.trace press) ++
        ((ButtonEvent.None, b4) :: b4.trace after) := by
    rw [trace_append, trace_append, hb3]
    simp only [ButtonInput.trace, hupd2, hupd5]
  have hrun : (b.run (gap ++ (t0, r0) :: press ++ (t1, r1) :: after)).2 =
      (b4.run after).2 := by
    rw [run_append, hb3, run_cons, hupd5]
  refine ⟨?_, ?_, ?_⟩
  · have hcg := count_hold_of_none _ hgapNone
    have hca := count_hold_of_none _ hafterNone
    have hcp : ((b2.trace press).map Prod.fst).count ButtonEvent.Hold = 1 := by
      rw [← run_fst_eq_trace]; exact hcount
    rw [htrace]
    simp only [List.map_append, List.map_cons, List.count_append, List.count_cons, hcg, hca,
      hcp]
    simp
  · rw [htrace]
    intro p hp
    simp only [List.mem_append, List.mem_cons] at hp
    rcases hp with (hp | hp | hp) | hp | hp
    · exact Or.inl (hgapNone p hp)
    · rw [hp]; exact Or.inl rfl
    · have hmem : p.1 ∈ (b2.run press).1 := by
        rw [run_fst_eq_trace]
        exact List.mem_map_of_mem _ hp
      rcases hev p.1 hmem with h | h
      · exact Or.inl h
      · exact Or.inr ⟨h, hhold p hp h⟩
    · rw [hp]; exact Or.inl rfl
    · exact Or.inl (hafterNone p hp)
  · rw [hrun]
    exact hfinal

theorem hold_cancels_clicks_witness :
    burstPending._stableState = false ∧
    (∀ s ∈ burstPending.runStates [(0, true)], s._stableState = false) ∧
    (∀ s ∈ [((0 : Nat), true)],
      ((s.1 : Int) - (burstPending._lastReleaseMs : Int)) % 4294967296 < 300) ∧
    (∀ s ∈ (burstPending.run [(0, true)]).2.runStates ((30, true) :: longPress),
      s._stableState = true) ∧
    (∃ s ∈ longPress, ((s.1 : Int) - (((30, true) : Nat × Bool).1 : Int)) % 4294967296 ≥ 800) ∧
    (∀ s ∈ (burstPending.run ([(0, true)] ++ (30, true) :: longPress)).2.runStates
        ((980, false) :: [(2000, false)]), s._stableState = false) ∧
    (((burstPending.trace ([(0, true)] ++ (30, true) :: longPress ++
        (980, false) :: [(2000, false)])).map Prod.fst).count ButtonEvent.Hold = 1 ∧
      (∀ p ∈ burstPending.trace ([(0, true)] ++ (30, true) :: longPress ++
          (980, false) :: [(2000, false)]),
        p.1 = ButtonEvent.None ∨ (p.1 = ButtonEvent.Hold ∧ p.2._clickCount = 0)) ∧
      (burstPending.run ([(0, true)] ++ (30, true) :: longPress ++
        (980, false) :: [(2000, false)])).2._clickCount = 0) :=
  ⟨by decide, by decide, by decide, by decide, by decide, by decide,
    hold_cancels_clicks burstPending [(0, true)] (30, true) longPress (980, false)
      [(2000, false)] (by decide) (by decide) (by decide) (by decide) (by decide)
      (by decide)⟩

/-! ## The animation strategies -/

theorem fade_update_nongated (a : FadeAnimation) (nowMs : Nat) (state : AppState)
    (ring : LedRing) (hgate : state.speedMs ≤ sub32 nowMs a._lastStepMs) :
    (a.update nowMs state ring).1 =
      { _lastStepMs := nowMs,
        _brightness := (FadeAnimation.step a._brightness a._increasing).1,
        _increasing := (FadeAnimation.step a._brightness a._increasing).2 } := by
  obtain ⟨ls, br, inc⟩ := a
  simp only at hgate
  unfold FadeAnimation.update FadeAnimation.step
  rw [if_neg (by simp only; omega)]
  cases inc <;> simp only <;> split_ifs <;> simp_all

theorem fade_step_period : ∀ r : Nat, r < 102 →
    FadeAnimation.step (FadeAnimation.triangle r) (decide (r < 51)) =
      (FadeAnimation.triangle ((r + 1) % 102), decide ((r + 1) % 102 < 51)) := by
  decide

theorem fade_step_phase (j : Nat) :
    FadeAnimation.step (FadeAnimation.phase j).1 (FadeAnimation.phase j).2 =
      FadeAnimation.phase (j + 1) := by
  have h := fade_step_period (j % 102) (Nat.mod_lt _ (by norm_num))
  have e : (j % 102 + 1) % 102 = (j + 1) % 102 := by omega
  rw [e] at h
  exact h

theorem fade_run (calls : List (Nat × AppState)) : ∀ (a : FadeAnimation) (ring : LedRing)
    (j : Nat), (a._brightness, a._increasing) = FadeAnimation.phase j →
    NonGated (fun s => s.speedMs) a._lastStepMs calls →
    ((runUpdates FadeAnimation.update a ring calls).1._brightness,
      (runUpdates FadeAnimation.update a ring calls).1._increasing) =
        FadeAnimation.phase (j + calls.length) := by
  induction calls with
  | nil => intro a ring j h _; exact h
  | cons c rest ih =>
    intro a ring j hph hng
    obtain ⟨nowMs, state⟩ := c
    obtain ⟨hg, hrest⟩ := hng
    have hupd := fade_update_nongated a nowMs state ring hg
    have hb : a._brightness = (FadeAnimation.phase j).1 := congrArg Prod.fst hph
    have hi : a._increasing = (FadeAnimation.phase j).2 := congrArg Prod.snd hph
    simp only [runUpdates]
    rw [List.length_cons, show j + (rest.length + 1) = (j + 1) + rest.length by omega]
    apply ih
    · rw [hupd, hb, hi]
      exact fade_step_phase j
    · rw [hupd]
      exact hrest

theorem triangle_facts : ∀ r : Nat, r < 102 →
    (1 ≤ r → r ≤ 51 → FadeAnimation.triangle r = 5 * r) ∧
    (51 ≤ r → FadeAnimation.triangle r = 255 - 5 * (r - 51)) ∧
    5 ∣ FadeAnimation.triangle r ∧ FadeAnimation.triangle r ≤ 255 ∧
    (FadeAnimation.triangle r = 255 ↔ r = 51) ∧ (FadeAnimation.triangle r = 0 ↔ r = 0) := by
  intro r hr
  unfold FadeAnimation.triangle
  refine ⟨?_, ?_, ?_, ?_, ?_, ?_⟩
  · intro _ h; rw [if_pos h]
  · intro h
    split
    · have : r = 51 := by omega
      subst this; rfl
    · rfl
  · split
    · exact Dvd.intro _ rfl
    · exact ⟨51 - (r - 51), by omega⟩
  · split <;> omega
  · split <;> omega
  · split <;> omega

/-- C21: Fade is a triangle wave with step 5 on [0, 255].  After `onEnter`, following
`k` non-gated `update` calls the brightness is the triangle value at `k mod 102`: it is
`5k` for `1 <= k <= 51` and `255 - 5(k - 51)` for `51 <= k <= 102`, and repeats with
period 102.  It is always a multiple of 5 within [0, 255] (so the 8-bit addition and
subtraction never wrap), and the direction is "decreasing" exactly from the step that
reaches 255 and "increasing" again exactly from the step that reaches 0. -/
theorem fade_triangle_wave (a0 : FadeAnimation) (s0 : AppState) (ring : LedRing)
    (calls : List (Nat × AppState))
    (hng : NonGated (fun s => s.speedMs) 0 calls) :
    (runUpdates FadeAnimation.update (a0.onEnter s0) ring calls).1._brightness =
      FadeAnimation.triangle (calls.length % 102) ∧
    (runUpdates FadeAnimation.update (a0.onEnter s0) ring calls).1._increasing =
      decide (calls.length % 102 < 51) ∧
    (1 ≤ calls.length → calls.length ≤ 51 →
      (runUpdates FadeAnimation.update (a0.onEnter s0) ring calls).1._brightness =
        5 * calls.length) ∧
    (51 ≤ calls.length → calls.length ≤ 102 →
      (runUpdates FadeAnimation.update (a0.onEnter s0) ring calls).1._brightness =
        255 - 5 * (calls.length - 51)) ∧
    5 ∣ (runUpdates FadeAnimation.update (a0.onEnter s0) ring calls).1._brightness ∧
    (runUpdates FadeAnimation.update (a0.onEnter s0) ring calls).1._brightness ≤ 255 ∧
    ((runUpdates FadeAnimation.update (a0.onEnter s0) ring calls).1._brightness = 255 →
      (runUpdates FadeAnimation.update (a0.onEnter s0) ring calls).1._increasing = false) ∧
    ((runUpdates FadeAnimation.update (a0.onEnter s0) ring calls).1._brightness = 0 →
      (runUpdates FadeAnimation.update (a0.onEnter s0) ring calls).1._increasing = true) := by
  have h := fade_run calls (a0.onEnter s0) ring 0 rfl hng
  rw [Nat.zero_add] at h
  have hb : (runUpdates FadeAnimation.update (a0.onEnter s0) ring calls).1._brightness =
      FadeAnimation.triangle (calls.length % 102) := congrArg Prod.fst h
  have hi : (runUpdates FadeAnimation.update (a0.onEnter s0) ring calls).1._increasing =
      decide (calls.length % 102 < 51) := congrArg Prod.snd h
  have hr : calls.length % 102 < 102 := Nat.mod_lt _ (by norm_num)
  obtain ⟨t1, t2, t3, t4, t5, t6⟩ := triangle_facts (calls.length % 102) hr
  rw [hb, hi]
  refine ⟨rfl, rfl, ?_, ?_, t3, t4, ?_, ?_⟩
  · intro h1 h2
    have e : calls.length % 102 = calls.length := Nat.mod_eq_of_lt (by omega)
    rw [e] at t1 ⊢
    exact t1 h1 h2
  · intro h1 h2
    by_cases h102 : calls.length = 102
    · rw [h102]; rfl
    · have e : calls.length % 102 = calls.length := Nat.mod_eq_of_lt (by omega)
      rw [e] at t2 ⊢
      exact t2 h1
  · intro h255
    have := t5.mp h255
    rw [this]; rfl
  · intro h0
    have := t6.mp h0
    rw [this]; rfl

theorem fade_triangle_wave_witness :
    NonGated (fun s => s.speedMs) 0 [(50, ({} : AppState)), (100, {})] ∧
    (runUpdates FadeAnimation.update (({} : FadeAnimation).onEnter {}) (LedRing.init 3)
      [(50, ({} : AppState)), (100, {})]).1._brightness = 10 :=
  ⟨⟨by decide, by decide, trivial⟩,
    (fade_triangle_wave {} {} (LedRing.init 3) [(50, ({} : AppState)), (100, {})]
      ⟨by decide, by decide, trivial⟩).2.2.1 (by decide) (by decide)⟩

theorem setPixelsFrom_frame (color : Nat → Nat) : ∀ (k i : Nat) (ring : LedRing),
    (ring.setPixelsFrom color i k).numPixels = ring.numPixels ∧
    (ring.setPixelsFrom color i k).shown = ring.shown ∧
    (ring.setPixelsFrom color i k).brightness = ring.brightness ∧
    (ring.setPixelsFrom color i k).pixels.length = ring.pixels.length := by
  intro k
  induction k with
  | zero => intro i ring; exact ⟨rfl, rfl, rfl, rfl⟩
  | succ k ih =>
    intro i ring
    simp only [LedRing.setPixelsFrom]
    obtain ⟨h1, h2, h3, h4⟩ := ih (i + 1) (ring.setPixelColor i (color i))
    refine ⟨h1, h2, h3, ?_⟩
    rw [h4]
    simp only [LedRing.setPixelColor]
    split <;> simp

theorem getElem?_setPixelsFrom (color : Nat → Nat) : ∀ (k i : Nat) (ring : LedRing) (q : Nat),
    i + k ≤ ring.numPixels → ring.pixels.length = ring.numPixels →
    (ring.setPixelsFrom color i k).pixels[q]? =
      if i ≤ q ∧ q < i + k then some (color q) else ring.pixels[q]? := by
  intro k
  induction k with
  | zero =>
    intro i ring q _ _
    simp only [LedRing.setPixelsFrom]
    rw [if_neg (by omega)]
  | succ k ih =>
    intro i ring q hb hl
    simp only [LedRing.setPixelsFrom]
    have hlt : i < ring.numPixels := by omega
    have hpx : (ring.setPixelColor i (color i)).pixels = ring.pixels.set i (color i) := by
      simp [LedRing.setPixelColor, hlt]
    rw [ih (i + 1) (ring.setPixelColor i (color i)) q (by simpa [LedRing.setPixelColor] using (by omega : i + 1 + k ≤ ring.numPixels))
      (by rw [hpx]; simpa [LedRing.setPixelColor] using hl)]
    rw [hpx]
    by_cases hq : q = i
    · subst hq
      rw [if_neg (by omega), if_pos (by omega)]
      exact List.getElem?_set_self (by omega)
    · rw [List.getElem?_set_ne (Ne.symm hq)]
      by_cases h2 : i + 1 ≤ q ∧ q < i + 1 + k
      · rw [if_pos h2, if_pos (by omega)]
      · rw [if_neg h2, if_neg (by omega)]

/-- Writing a colour to every pixel leaves the buffer holding that colour everywhere. -/
theorem pixels_setPixelsFrom_all (color : Nat → Nat) (ring : LedRing)
    (hl : ring.pixels.length = ring.numPixels) :
    (ring.setPixelsFrom color 0 ring.numPixels).pixels = (List.range ring.numPixels).map color := by
  apply List.ext_getElem?
  intro q
  rw [getElem?_setPixelsFrom color ring.numPixels 0 ring q (by omega) hl]
  by_cases hq : q < ring.numPixels
  · rw [if_pos (by omega)]
    simp [hq]
  · rw [if_neg (by omega)]
    rw [List.getElem?_eq_none (by omega), List.getElem?_eq_none (by simp; omega)]

theorem runUpdates_append {α : Type} (upd : α → Nat → AppState → LedRing → α × LedRing) :
    ∀ (l1 l2 : List (Nat × AppState)) (a : α) (ring : LedRing),
    runUpdates upd a ring (l1 ++ l2) =
      runUpdates upd (runUpdates upd a ring l1).1 (runUpdates upd a ring l1).2 l2 := by
  intro l1
  induction l1 with
  | nil => intro l2 a ring; rfl
  | cons c rest ih =>
    intro l2 a ring
    obtain ⟨nowMs, state⟩ := c
    simp only [List.cons_append, runUpdates]
    exact ih l2 _ _

theorem numPixels_setPixelsFrom (color : Nat → Nat) : ∀ (k i : Nat) (ring : LedRing),
    (ring.setPixelsFrom color i k).numPixels = ring.numPixels := by
  intro k
  induction k with
  | zero => intro i ring; rfl
  | succ k ih => intro i ring; simp only [LedRing.setPixelsFrom]; rw [ih]; rfl

theorem strobe_update_gated (a : StrobeAnimation) (nowMs : Nat) (state : AppState)
    (ring : LedRing) (h : sub32 nowMs a._lastToggleMs < StrobeAnimation.halfPeriod state) :
    a.update nowMs state ring = (a, ring) := by
  unfold StrobeAnimation.update
  rw [if_pos h]

theorem strobe_update_nongated (a : StrobeAnimation) (nowMs : Nat) (state : AppState)
    (ring : LedRing) (h : StrobeAnimation.halfPeriod state ≤ sub32 nowMs a._lastToggleMs) :
    a.update nowMs state ring =
      ({ _lastToggleMs := nowMs, _on := !a._on },
        (ring.setPixelsFrom (fun _ => if (!a._on) = true then state.primaryColor else 0) 0
          ring.numPixels).show) := by
  unfold StrobeAnimation.update
  rw [if_neg (by omega)]

theorem strobe_run (nowMs : Nat) (state : AppState) : ∀ (pre : List (Nat × AppState))
    (a : StrobeAnimation) (ring : LedRing),
    NonGated StrobeAnimation.halfPeriod a._lastToggleMs (pre ++ [(nowMs, state)]) →
    StrobeAnimation.halfPeriod state ≤
      sub32 nowMs (runUpdates StrobeAnimation.update a ring pre).1._lastToggleMs ∧
    (runUpdates StrobeAnimation.update a ring pre).1._on =
      (a._on != decide (pre.length % 2 = 1)) ∧
    (runUpdates StrobeAnimation.update a ring pre).2.numPixels = ring.numPixels := by
  intro pre
  induction pre with
  | nil =>
    intro a ring h
    exact ⟨h.1, by simp [runUpdates], rfl⟩
  | cons c rest ih =>
    intro a ring h
    obtain ⟨n1, s1⟩ := c
    obtain ⟨hg, hrest⟩ := h
    have hupd := strobe_update_nongated a n1 s1 ring hg
    simp only [runUpdates]
    rw [hupd]
    obtain ⟨i1, i2, i3⟩ := ih { _lastToggleMs := n1, _on := !a._on }
      (ring.setPixelsFrom (fun _ => if (!a._on) = true then s1.primaryColor else 0) 0
          ring.numPixels).show hrest
    refine ⟨i1, ?_, ?_⟩
    · rw [i2, List.length_cons]
      rcases Nat.mod_two_eq_zero_or_one rest.length with h0 | h1
      · have : (rest.length + 1) % 2 = 1 := by omega
        simp [h0, this]
      · have : (rest.length + 1) % 2 = 0 := by omega
        simp [h1, this]
    · rw [i3]
      exact numPixels_setPixelsFrom _ _ _ _

/-- C23: Strobe alternation.  After `onEnter`, the k-th non-gated `update` (the one that
follows `k - 1` earlier non-gated updates) makes exactly these calls on the surface: one
`setPixelColor` per pixel, all with the same colour, then one `show`; the colour is the
primary colour of that call when k is odd and 0 when k is even.  For every private state
a call toggles iff its 32-bit elapsed time since the last toggle is at least the
half-period, and neither the half-period nor the result of `update` depends on the
shared step interval. -/
theorem strobe_alternation (a0 : StrobeAnimation) (s0 : AppState) (ring : LedRing)
    (pre : List (Nat × AppState)) (nowMs : Nat) (state : AppState)
    (hng : NonGated StrobeAnimation.halfPeriod 0 (pre ++ [(nowMs, state)])) :
    (runUpdates StrobeAnimation.update (a0.onEnter s0) ring (pre ++ [(nowMs, state)])).2.log =
      (runUpdates StrobeAnimation.update (a0.onEnter s0) ring pre).2.log ++
        (List.range ring.numPixels).map (fun j => RingOp.setPixelColor j
          (if (pre.length + 1) % 2 = 1 then state.primaryColor else 0)) ++ [RingOp.show] ∧
    (runUpdates StrobeAnimation.update (a0.onEnter s0) ring (pre ++ [(nowMs, state)])).1 =
      { _lastToggleMs := nowMs, _on := decide ((pre.length + 1) % 2 = 1) } ∧
    (∀ (a : StrobeAnimation) (t : Nat) (s : AppState) (r : LedRing),
      ((a.update t s r).1._on = (!a._on) ↔
        (StrobeAnimation.halfPeriod s : Int) ≤
          ((t : Int) - (a._lastToggleMs : Int)) % 4294967296) ∧
      ((a.update t s r).1._on = a._on ↔
        ((t : Int) - (a._lastToggleMs : Int)) % 4294967296 <
          (StrobeAnimation.halfPeriod s : Int))) ∧
    (∀ (a : StrobeAnimation) (t : Nat) (s : AppState) (r : LedRing) (v : Nat),
      StrobeAnimation.halfPeriod { s with speedMs := v } = StrobeAnimation.halfPeriod s ∧
      a.update t { s with speedMs := v } r = a.update t s r) := by
  obtain ⟨hg, hon, hnp⟩ := strobe_run nowMs state pre (a0.onEnter s0) ring hng
  have hstep := strobe_update_nongated _ nowMs state
    (runUpdates StrobeAnimation.update (a0.onEnter s0) ring pre).2 hg
  have hon2 : (!(runUpdates StrobeAnimation.update (a0.onEnter s0) ring pre).1._on) =
      decide ((pre.length + 1) % 2 = 1) := by
    rw [hon]
    rcases Nat.mod_two_eq_zero_or_one pre.length with h0 | h1
    · have : (pre.length + 1) % 2 = 1 := by omega
      simp [h0, this, StrobeAnimation.onEnter]
    · have : (pre.length + 1) % 2 = 0 := by omega
      simp [h1, this, StrobeAnimation.onEnter]
  refine ⟨?_, ?_, ?_, ?_⟩
  · rw [runUpdates_append]
    simp only [runUpdates]
    rw [hstep, hon2, hnp]
    simp only [LedRing.show, log_setPixelsFrom, Nat.zero_add, decide_eq_true_eq]
  · rw [runUpdates_append]
    simp only [runUpdates]
    rw [hstep, hon2]
  · intro a t s r
    rw [← sub32_eq_emod]
    by_cases h : sub32 t a._lastToggleMs < StrobeAnimation.halfPeriod s
    · rw [strobe_update_gated a t s r h]
      have h1 : ¬ ((StrobeAnimation.halfPeriod s : Int) ≤ (sub32 t a._lastToggleMs : Int)) := by
        exact_mod_cast not_le.mpr h
      have h2 : ((sub32 t a._lastToggleMs : Int) < (StrobeAnimation.halfPeriod s : Int)) := by
        exact_mod_cast h
      constructor
      · constructor
        · intro hc; cases hb : a._on <;> simp [hb] at hc
        · intro hc; exact absurd hc h1
      · exact ⟨fun _ => h2, fun _ => rfl⟩
    · rw [strobe_update_nongated a t s r (not_lt.mp h)]
      have h1 : ((StrobeAnimation.halfPeriod s : Int) ≤ (sub32 t a._lastToggleMs : Int)) := by
        exact_mod_cast not_lt.mp h
      constructor
      · exact ⟨fun _ => h1, fun _ => rfl⟩
      · constructor
        · intro hc; cases hb : a._on <;> simp [hb] at hc
        · intro hc; exact absurd h1 (not_le.mpr hc)
  · intro a t s r v
    exact ⟨rfl, rfl⟩

theorem strobe_alternation_witness :
    NonGated StrobeAnimation.halfPeriod 0
      ([(50, ({} : AppState))] ++ [(100, { primaryColor := 0xFF0000 })]) ∧
    (runUpdates StrobeAnimation.update (({} : StrobeAnimation).onEnter {}) (LedRing.init 3)
      ([(50, ({} : AppState))] ++ [(100, { primaryColor := 0xFF0000 })])).1 =
      { _lastToggleMs := 100, _on := decide (([(50, ({} : AppState))].length + 1) % 2 = 1) } :=
  ⟨⟨by decide, by decide, trivial⟩,
    (strobe_alternation {} {} (LedRing.init 3) [(50, ({} : AppState))] 100
      { primaryColor := 0xFF0000 } ⟨by decide, by decide, trivial⟩).2.1⟩

theorem spin_update_gated (a : SpinAnimation) (nowMs : Nat) (state : AppState)
    (ring : LedRing) (h : sub32 nowMs a._lastStepMs < state.speedMs) :
    a.update nowMs state ring = (a, ring) := by
  unfold SpinAnimation.update
  rw [if_pos h]

theorem spin_update_nongated (a : SpinAnimation) (nowMs : Nat) (state : AppState)
    (ring : LedRing) (h : state.speedMs ≤ sub32 nowMs a._lastStepMs) :
    a.update nowMs state ring =
      ({ _lastStepMs := nowMs, _position := ((a._position + 1) % ring.numPixels) % 65536 },
        ((ring.clear).setPixelColor a._position state.primaryColor).show) := by
  unfold SpinAnimation.update
  rw [if_neg (by omega)]

/-- Every `SpinAnimation::update` keeps the pixel count, and keeps the position below
it. -/
theorem spin_update_inv (a : SpinAnimation) (nowMs : Nat) (state : AppState) (ring : LedRing)
    (hn : 1 ≤ ring.numPixels) (hp : a._position < ring.numPixels) :
    (a.update nowMs state ring).2.numPixels = ring.numPixels ∧
    (a.update nowMs state ring).1._position < ring.numPixels := by
  by_cases h : sub32 nowMs a._lastStepMs < state.speedMs
  · rw [spin_update_gated a nowMs state ring h]
    exact ⟨rfl, hp⟩
  · rw [spin_update_nongated a nowMs state ring (not_lt.mp h)]
    refine ⟨rfl, ?_⟩
    exact lt_of_le_of_lt (Nat.mod_le _ _) (Nat.mod_lt _ hn)

theorem spin_run_inv : ∀ (calls : List (Nat × AppState)) (a : SpinAnimation) (ring : LedRing),
    1 ≤ ring.numPixels → a._position < ring.numPixels →
    (runUpdates SpinAnimation.update a ring calls).2.numPixels = ring.numPixels ∧
    (runUpdates SpinAnimation.update a ring calls).1._position < ring.numPixels := by
  intro calls
  induction calls with
  | nil => intro a ring _ hp; exact ⟨rfl, hp⟩
  | cons c rest ih =>
    intro a ring hn hp
    obtain ⟨n1, s1⟩ := c
    obtain ⟨u1, u2⟩ := spin_update_inv a n1 s1 ring hn hp
    simp only [runUpdates]
    obtain ⟨i1, i2⟩ := ih (a.update n1 s1 ring).1 (a.update n1 s1 ring).2
      (by rw [u1]; exact hn) (by rw [u1]; exact u2)
    rw [u1] at i1 i2
    exact ⟨i1, i2⟩

theorem spin_run (nowMs : Nat) (state : AppState) : ∀ (pre : List (Nat × AppState))
    (a : SpinAnimation) (ring : LedRing) (j : Nat),
    1 ≤ ring.numPixels → ring.numPixels < 65536 → a._position = j % ring.numPixels →
    NonGated (fun s => s.speedMs) a._lastStepMs (pre ++ [(nowMs, state)]) →
    state.speedMs ≤ sub32 nowMs (runUpdates SpinAnimation.update a ring pre).1._lastStepMs ∧
    (runUpdates SpinAnimation.update a ring pre).1._position =
      (j + pre.length) % ring.numPixels ∧
    (runUpdates SpinAnimation.update a ring pre).2.numPixels = ring.numPixels := by
  intro pre
  induction pre with
  | nil =>
    intro a ring j _ _ hp h
    exact ⟨h.1, hp, rfl⟩
  | cons c rest ih =>
    intro a ring j hn hlt hp h
    obtain ⟨n1, s1⟩ := c
    obtain ⟨hg, hrest⟩ := h
    have hupd := spin_update_nongated a n1 s1 ring hg
    simp only [runUpdates]
    rw [hupd]
    have hpos : ((a._position + 1) % ring.numPixels) % 65536 = (j + 1) % ring.numPixels := by
      rw [Nat.mod_eq_of_lt (lt_trans (Nat.mod_lt _ hn) hlt), hp, Nat.mod_add_mod]
    obtain ⟨i1, i2, i3⟩ := ih
      { _lastStepMs := n1, _position := ((a._position + 1) % ring.numPixels) % 65536 }
      ((ring.clear).setPixelColor a._position s1.primaryColor).show (j + 1) hn hlt hpos hrest
    refine ⟨i1, ?_, i3⟩
    rw [i2, List.length_cons]
    congr 1
    show j + 1 + rest.length = j + (rest.length + 1)
    omega

/-- C25: Spin step.  On a surface of `n` pixels (`1 <= n`, `n` a `uint16_t`), after
`onEnter` the k-th non-gated `update` (the one following `k - 1` earlier non-gated
updates) makes exactly the calls `clear`, `setPixelColor((k - 1) mod n, primary)`,
`show`; the buffer then holds the primary colour at that index and 0 elsewhere, and that
buffer is what is flushed.  The index written is below `n`, the position advances to
`k mod n`, and after any sequence of updates (gated or not) the stored position is
below `n`. -/
theorem spin_step (a0 : SpinAnimation) (s0 : AppState) (ring : LedRing)
    (pre : List (Nat × AppState)) (nowMs : Nat) (state : AppState)
    (hn : 1 ≤ ring.numPixels) (hlt : ring.numPixels < 65536)
    (hng : NonGated (fun s => s.speedMs) 0 (pre ++ [(nowMs, state)])) :
    (runUpdates SpinAnimation.update (a0.onEnter s0) ring (pre ++ [(nowMs, state)])).2.log =
      (runUpdates SpinAnimation.update (a0.onEnter s0) ring pre).2.log ++
        [RingOp.clear, RingOp.setPixelColor (pre.length % ring.numPixels) state.primaryColor,
          RingOp.show] ∧
    (runUpdates SpinAnimation.update (a0.onEnter s0) ring (pre ++ [(nowMs, state)])).2.pixels =
      (List.replicate ring.numPixels 0).set (pre.length % ring.numPixels) state.primaryColor ∧
    (runUpdates SpinAnimation.update (a0.onEnter s0) ring (pre ++ [(nowMs, state)])).2.shown =
      (List.replicate ring.numPixels 0).set (pre.length % ring.numPixels) state.primaryColor ∧
    pre.length % ring.numPixels < ring.numPixels ∧
    (runUpdates SpinAnimation.update (a0.onEnter s0) ring (pre ++ [(nowMs, state)])).1 =
      { _lastStepMs := nowMs, _position := (pre.length + 1) % ring.numPixels } ∧
    (∀ calls : List (Nat × AppState),
      (runUpdates SpinAnimation.update (a0.onEnter s0) ring calls).1._position <
        ring.numPixels) := by
  obtain ⟨hg, hpos, hnp⟩ := spin_run nowMs state pre (a0.onEnter s0) ring 0 hn hlt
    (by rw [Nat.zero_mod]; rfl) hng
  rw [Nat.zero_add] at hpos
  have hstep := spin_update_nongated _ nowMs state
    (runUpdates SpinAnimation.update (a0.onEnter s0) ring pre).2 hg
  have hidx : pre.length % ring.numPixels < ring.numPixels := Nat.mod_lt _ hn
  have hrun : runUpdates SpinAnimation.update (a0.onEnter s0) ring (pre ++ [(nowMs, state)]) =
      ({ _lastStepMs := nowMs, _position := (pre.length + 1) % ring.numPixels },
        (((runUpdates SpinAnimation.update (a0.onEnter s0) ring pre).2.clear).setPixelColor
          (pre.length % ring.numPixels) state.primaryColor).show) := by
    rw [runUpdates_append]
    simp only [runUpdates]
    rw [hstep, hpos, hnp, Nat.mod_add_mod,
      Nat.mod_eq_of_lt (lt_trans (Nat.mod_lt _ hn) hlt)]
  rw [hrun]
  refine ⟨?_, ?_, ?_, hidx, rfl, ?_⟩
  · simp [LedRing.show, LedRing.setPixelColor, LedRing.clear]
  · simp [LedRing.show, LedRing.setPixelColor, LedRing.clear, hnp, hidx]
  · simp [LedRing.show, LedRing.setPixelColor, LedRing.clear, hnp, hidx]
  · intro calls
    exact (spin_run_inv calls (a0.onEnter s0) ring hn (by
      show (0 : Nat) < ring.numPixels
      omega)).2

theorem spin_step_witness :
    NonGated (fun s => s.speedMs) 0
      ([(50, ({} : AppState)), (100, {}), (150, {})] ++ [(200, { primaryColor := 0x00FF00 })]) ∧
    (runUpdates SpinAnimation.update (({} : SpinAnimation).onEnter {}) (LedRing.init 3)
      ([(50, ({} : AppState)), (100, {}), (150, {})] ++
        [(200, { primaryColor := 0x00FF00 })])).2.pixels =
      (List.replicate (LedRing.init 3).numPixels 0).set
        ([(50, ({} : AppState)), (100, {}), (150, {})].length % (LedRing.init 3).numPixels)
        0x00FF00 :=
  ⟨⟨by decide, by decide, by decide, by decide, trivial⟩,
    (spin_step {} {} (LedRing.init 3) [(50, ({} : AppState)), (100, {}), (150, {})] 200
      { primaryColor := 0x00FF00 } (by decide) (by decide)
      ⟨by decide, by decide, by decide, by decide, trivial⟩).2.1⟩
theorem solid_run_idle : ∀ (calls : List (Nat × AppState)) (ring : LedRing),
    runUpdates SolidAnimation.update { _needsRefresh := false } ring calls =
      ({ _needsRefresh := false }, ring) := by
  intro calls
  induction calls with
  | nil => intro ring; rfl
  | cons c rest ih =>
    intro ring
    obtain ⟨n1, s1⟩ := c
    simp only [runUpdates]
    exact ih ring

/-- C26: Solid renders exactly once per activation.  The first `update` after `onEnter`
makes one `setPixelColor` call per pixel of the surface, each with the primary colour of
that call, then one `show` (so the buffer and the flushed frame hold the primary colour
everywhere); after it, any sequence of further updates, for every timestamp and every
shared state, leaves the strategy and the surface (buffer, flushed frame, call log)
exactly as they were. -/
theorem solid_renders_once (a0 : SolidAnimation) (s0 : AppState) (ring : LedRing)
    (nowMs : Nat) (state : AppState) (calls : List (Nat × AppState)) :
    ((a0.onEnter s0).update nowMs state ring).2.log =
      ring.log ++ (List.range ring.numPixels).map
        (fun j => RingOp.setPixelColor j state.primaryColor) ++ [RingOp.show] ∧
    (ring.pixels.length = ring.numPixels →
      ((a0.onEnter s0).update nowMs state ring).2.pixels =
        List.replicate ring.numPixels state.primaryColor ∧
      ((a0.onEnter s0).update nowMs state ring).2.shown =
        List.replicate ring.numPixels state.primaryColor) ∧
    ((a0.onEnter s0).update nowMs state ring).2.log.count RingOp.show =
      ring.log.count RingOp.show + 1 ∧
    runUpdates SolidAnimation.update ((a0.onEnter s0).update nowMs state ring).1
        ((a0.onEnter s0).update nowMs state ring).2 calls =
      ((a0.onEnter s0).update nowMs state ring) ∧
    runUpdates SolidAnimation.update (a0.onEnter s0) ring ((nowMs, state) :: calls) =
      ((a0.onEnter s0).update nowMs state ring) := by
  have hupd : (a0.onEnter s0).update nowMs state ring =
      ({ _needsRefresh := false },
        (ring.setPixelsFrom (fun _ => state.primaryColor) 0 ring.numPixels).show) := rfl
  have hidle := solid_run_idle calls
    (ring.setPixelsFrom (fun _ => state.primaryColor) 0 ring.numPixels).show
  refine ⟨?_, ?_, ?_, ?_, ?_⟩
  · rw [hupd]
    simp only [LedRing.show, log_setPixelsFrom, Nat.zero_add]
  · intro hl
    rw [hupd]
    have hp := pixels_setPixelsFrom_all (fun _ => state.primaryColor) ring hl
    have hr : (List.range ring.numPixels).map (fun _ => state.primaryColor) =
        List.replicate ring.numPixels state.primaryColor := by
      apply List.ext_getElem?
      intro q
      by_cases hq : q < ring.numPixels
      · simp [hq]
      · simp [hq]
    rw [hr] at hp
    exact ⟨hp, hp⟩
  · rw [hupd]
    simp only [LedRing.show]
    rw [List.count_append, count_show_setPixelsFrom]
    simp
  · rw [hupd]
    exact hidle
  · simp only [runUpdates]
    rw [hupd]
    exact hidle

theorem solid_renders_once_witness :
    (LedRing.init 3).pixels.length = (LedRing.init 3).numPixels ∧
    ((({ _needsRefresh := false } : SolidAnimation).onEnter {}).update 7
      { primaryColor := 0xFF0000 } (LedRing.init 3)).2.shown =
        List.replicate (LedRing.init 3).numPixels 0xFF0000 :=
  ⟨by decide,
    ((solid_renders_once { _needsRefresh := false } {} (LedRing.init 3) 7
      { primaryColor := 0xFF0000 } [(8, { primaryColor := 0x0000FF })]).2.1 (by decide)).2⟩

/-- C27: deterministic phase on activation.  For each of the six strategies `onEnter`
returns one fixed private state, whatever the previous private state and the shared
state: Fade (brightness 0, increasing, last step 0), Spin (position 0, last step 0),
SpinTail (head 0, last step 0), Strobe (off, last toggle 0), Solid (dirty), Pixels (last
rendered version 0).  Hence through the strategy interface two activations of the same
strategy give the same state, `onEnter` is idempotent, and two activations followed by
the same update sequence on the same surface give the same private state and the same
surface (buffer, flushed frame and call log). -/
theorem onEnter_deterministic :
    (∀ (a : FadeAnimation) (s : AppState),
      a.onEnter s = { _brightness := 0, _increasing := true, _lastStepMs := 0 }) ∧
    (∀ (a : SpinAnimation) (s : AppState), a.onEnter s = { _position := 0, _lastStepMs := 0 }) ∧
    (∀ (a : SpinTailAnimation) (s : AppState),
      a.onEnter s = { _headPosition := 0, _lastStepMs := 0 }) ∧
    (∀ (a : StrobeAnimation) (s : AppState), a.onEnter s = { _on := false, _lastToggleMs := 0 }) ∧
    (∀ (a : SolidAnimation) (s : AppState), a.onEnter s = { _needsRefresh := true }) ∧
    (∀ (a : PixelsAnimation) (s : AppState), a.onEnter s = { _lastVersion := 0 }) ∧
    (∀ (x y : IAnimation) (s1 s2 : AppState), x.name = y.name → x.onEnter s1 = y.onEnter s2) ∧
    (∀ (x : IAnimation) (s1 s2 : AppState), (x.onEnter s1).onEnter s2 = x.onEnter s1) ∧
    (∀ (x y : IAnimation) (s1 s2 : AppState) (ring : LedRing) (calls : List (Nat × AppState)),
      x.name = y.name →
      runUpdates IAnimation.update (x.onEnter s1) ring calls =
        runUpdates IAnimation.update (y.onEnter s2) ring calls) := by
  have hname : ∀ (x y : IAnimation) (s1 s2 : AppState), x.name = y.name →
      x.onEnter s1 = y.onEnter s2 := by
    intro x y s1 s2 h
    cases x <;> cases y <;>
      first
      | rfl
      | (simp only [IAnimation.name] at h; exact absurd h (by decide))
  refine ⟨fun _ _ => rfl, fun _ _ => rfl, fun _ _ => rfl, fun _ _ => rfl, fun _ _ => rfl,
    fun _ _ => rfl, hname, ?_, ?_⟩
  · intro x s1 s2
    cases x <;> rfl
  · intro x y s1 s2 ring calls h
    rw [hname x y s1 s2 h]

theorem onEnter_deterministic_witness :
    (IAnimation.fade { _lastStepMs := 900, _brightness := 35, _increasing := false }).onEnter
        { speedMs := 10 } =
      (IAnimation.fade {}).onEnter {} :=
  onEnter_deterministic.2.2.2.2.2.2.1
    (IAnimation.fade { _lastStepMs := 900, _brightness := 35, _increasing := false })
    (IAnimation.fade {}) { speedMs := 10 } {} rfl

/-- Evaluation of `roundF32` from the binary exponent and the rounded significand. -/
theorem roundF32_eval (q : ℚ) (e r : ℤ) (hq : 0 < q) (hb : binExponent q 64 0 = e)
    (hr : roundHalfEven (q / (2 : ℚ) ^ (e - 23)) = r) :
    roundF32 q = (r : ℚ) * (2 : ℚ) ^ (e - 23) := by
  unfold roundF32
  rw [if_neg (ne_of_gt hq)]
  simp only [abs_of_pos hq, hb, hr]
  rw [if_neg (not_lt.mpr (le_of_lt hq))]

theorem roundHalfEven_eval (q : ℚ) (f r : ℤ) (hf : ⌊q⌋ = f)
    (hr : (if q - (f : ℚ) < 1 / 2 then f
      else if 1 / 2 < q - (f : ℚ) then f + 1 else if f % 2 = 0 then f else f + 1) = r) :
    roundHalfEven q = r := by
  unfold roundHalfEven
  simp only [hf]
  exact hr

theorem roundF32_one : roundF32 1 = 1 := by
  have hb : binExponent 1 64 0 = 0 := by
    rw [binExponent_stop _ 63 0 (by norm_num) (by norm_num)]
  rw [roundF32_eval 1 0 8388608 (by norm_num) hb
    (roundHalfEven_eval _ 8388608 _ (by rw [Int.floor_eq_iff]; norm_num) (by norm_num))]
  norm_num

theorem roundF32_third : roundF32 (1 / 3) = 11184811 / 33554432 := by
  have hb : binExponent (1 / 3) 64 0 = -2 := by
    rw [binExponent_down _ 63 0 (by norm_num)]
    rw [binExponent_down _ 62 (0 - 1) (by norm_num)]
    rw [binExponent_stop _ 61 (0 - 1 - 1) (by norm_num) (by norm_num)]
    norm_num
  rw [roundF32_eval (1 / 3) (-2) 11184811 (by norm_num) hb
    (roundHalfEven_eval _ 11184810 _ (by rw [Int.floor_eq_iff]; norm_num) (by norm_num))]
  norm_num

theorem roundF32_two_thirds : roundF32 (2 / 3) = 11184811 / 16777216 := by
  have hb : binExponent (2 / 3) 64 0 = -1 := by
    rw [binExponent_down _ 63 0 (by norm_num)]
    rw [binExponent_stop _ 62 (0 - 1) (by norm_num) (by norm_num)]
    norm_num
  rw [roundF32_eval (2 / 3) (-1) 11184811 (by norm_num) hb
    (roundHalfEven_eval _ 11184810 _ (by rw [Int.floor_eq_iff]; norm_num) (by norm_num))]
  norm_num

/-- `1.0f - 1.0f / 3`: the difference is a tie between two `float` values and goes to
the even one. -/
theorem roundF32_one_minus_third :
    roundF32 (1 - 11184811 / 33554432) = 5592405 / 8388608 := by
  have hb : binExponent (1 - 11184811 / 33554432) 64 0 = -1 := by
    rw [binExponent_down _ 63 0 (by norm_num)]
    rw [binExponent_stop _ 62 (0 - 1) (by norm_num) (by norm_num)]
    norm_num
  rw [roundF32_eval (1 - 11184811 / 33554432) (-1) 11184810 (by norm_num) hb
    (roundHalfEven_eval _ 11184810 _ (by rw [Int.floor_eq_iff]; norm_num) (by norm_num))]
  norm_num

theorem roundF32_one_minus_two_thirds :
    roundF32 (1 - 11184811 / 16777216) = 5592405 / 16777216 := by
  have hb : binExponent (1 - 11184811 / 16777216) 64 0 = -2 := by
    rw [binExponent_down _ 63 0 (by norm_num)]
    rw [binExponent_down _ 62 (0 - 1) (by norm_num)]
    rw [binExponent_stop _ 61 (0 - 1 - 1) (by norm_num) (by norm_num)]
    norm_num
  rw [roundF32_eval (1 - 11184811 / 16777216) (-2) 11184810 (by norm_num) hb
    (roundHalfEven_eval _ 11184810 _ (by rw [Int.floor_eq_iff]; norm_num) (by norm_num))]
  norm_num

theorem roundF32_blue_t1 : roundF32 (255 * (5592405 / 8388608)) = 11141119 / 65536 := by
  have hb : binExponent (255 * (5592405 / 8388608)) 64 0 = 7 := by
    rw [binExponent_up _ 63 0 (by norm_num) (by norm_num)]
    rw [binExponent_up _ 62 (0 + 1) (by norm_num) (by norm_num)]
    rw [binExponent_up _ 61 (0 + 1 + 1) (by norm_num) (by norm_num)]
    rw [binExponent_up _ 60 (0 + 1 + 1 + 1) (by norm_num) (by norm_num)]
    rw [binExponent_up _ 59 (0 + 1 + 1 + 1 + 1) (by norm_num) (by norm_num)]
    rw [binExponent_up _ 58 (0 + 1 + 1 + 1 + 1 + 1) (by norm_num) (by norm_num)]
    rw [binExponent_up _ 57 (0 + 1 + 1 + 1 + 1 + 1 + 1) (by norm_num) (by norm_num)]
    rw [binExponent_stop _ 56 (0 + 1 + 1 + 1 + 1 + 1 + 1 + 1) (by norm_num) (by norm_num)]
    norm_num
  rw [roundF32_eval (255 * (5592405 / 8388608)) 7 11141119 (by norm_num) hb
    (roundHalfEven_eval _ 11141119 _ (by rw [Int.floor_eq_iff]; norm_num) (by norm_num))]
  norm_num

theorem roundF32_blue_t2 : roundF32 (255 * (5592405 / 16777216)) = 11141119 / 131072 := by
  have hb : binExponent (255 * (5592405 / 16777216)) 64 0 = 6 := by
    rw [binExponent_up _ 63 0 (by norm_num) (by norm_num)]
    rw [binExponent_up _ 62 (0 + 1) (by norm_num) (by norm_num)]
    rw [binExponent_up _ 61 (0 + 1 + 1) (by norm_num) (by norm_num)]
    rw [binExponent_up _ 60 (0 + 1 + 1 + 1) (by norm_num) (by norm_num)]
    rw [binExponent_up _ 59 (0 + 1 + 1 + 1 + 1) (by norm_num) (by norm_num)]
    rw [binExponent_up _ 58 (0 + 1 + 1 + 1 + 1 + 1) (by norm_num) (by norm_num)]
    rw [binExponent_stop _ 57 (0 + 1 + 1 + 1 + 1 + 1 + 1) (by norm_num) (by norm_num)]
    norm_num
  rw [roundF32_eval (255 * (5592405 / 16777216)) 6 11141119 (by norm_num) hb
    (roundHalfEven_eval _ 11141119 _ (by rw [Int.floor_eq_iff]; norm_num) (by norm_num))]
  norm_num

/-- A colour with only a blue channel, scaled by a factor strictly between 0 and 1. -/
theorem scaleColor_blue (b : Nat) (hb : b < 256) (f p : ℚ) (v : Nat) (h0 : 0 < f) (h1 : f < 1)
    (hp : roundF32 ((b : ℚ) * f) = p) (hv : floatToU8 p = v) :
    LedRing.scaleColor b f = v := by
  unfold LedRing.scaleColor
  rw [if_neg (by linarith), if_neg (by linarith)]
  have h16 : ((b >>> 16) &&& 0xFF : Nat) = 0 := by
    rw [channel_eq]
    have : b / 2 ^ 16 = 0 := Nat.div_eq_of_lt (by omega)
    rw [this]
  have h8 : ((b >>> 8) &&& 0xFF : Nat) = 0 := by
    rw [channel_eq]
    have : b / 2 ^ 8 = 0 := Nat.div_eq_of_lt (by omega)
    rw [this]
  have hlow : (b &&& 0xFF : Nat) = b := by
    have := channel_eq b 0
    simp only [Nat.shiftRight_zero, pow_zero, Nat.div_one] at this
    rw [this, Nat.mod_eq_of_lt hb]
  simp only [h16, h8, hlow]
  have e0 : roundF32 (((0 : Nat) : ℚ) * f) = 0 := by simp [roundF32_zero]
  rw [e0, hp, hv]
  have z : floatToU8 (0 : ℚ) = 0 := by simpa using floatToU8_natCast 0 (by decide)
  rw [z]
  have hvlt : v < 256 := by rw [← hv]; exact floatToU8_lt p
  rw [colorRgb_eq 0 0 v (by decide) hvlt]
  omega
theorem log_tailFrom (state : AppState) (h n m : Nat) : ∀ (k t : Nat) (ring : LedRing),
    (SpinTailAnimation.tailFrom state h n m ring t k).log =
      ring.log ++ (List.range k).map (fun j =>
        RingOp.setPixelColor (SpinTailAnimation.tailIndex h n (t + j))
          (SpinTailAnimation.tailColor state m (t + j))) := by
  intro k
  induction k with
  | zero => intro t ring; simp [SpinTailAnimation.tailFrom]
  | succ k ih =>
    intro t ring
    simp only [SpinTailAnimation.tailFrom]
    rw [ih]
    have e : ∀ j, t + 1 + j = t + (j + 1) := fun j => by omega
    simp only [LedRing.setPixelColor, List.range_succ_eq_map, List.map_cons, List.map_map,
      List.append_assoc, List.singleton_append, Nat.add_zero, Function.comp_def, e]

theorem numPixels_tailFrom (state : AppState) (h n m : Nat) : ∀ (k t : Nat) (ring : LedRing),
    (SpinTailAnimation.tailFrom state h n m ring t k).numPixels = ring.numPixels := by
  intro k
  induction k with
  | zero => intro t ring; rfl
  | succ k ih => intro t ring; simp only [SpinTailAnimation.tailFrom]; rw [ih]; rfl

/-- The index computed by the `int16_t` arithmetic of the tail loop, for a head below
2^15 and a trailing offset that fits a `uint8_t`. -/
theorem tailIndex_cases (h n t : Nat) (h15 : h < 32768) (hn : n < 65536)
    (ht : t < n) (ht8 : t < 256) :
    SpinTailAnimation.tailIndex h n t = (if t ≤ h then h - t else h + n - t) := by
  simp only [SpinTailAnimation.tailIndex, wrapInt16]
  split_ifs <;> omega

theorem tailIndex_emod (h n t : Nat) (hh : h < n) (h15 : h < 32768) (hn : n < 65536)
    (ht : t < n) (ht8 : t < 256) :
    SpinTailAnimation.tailIndex h n t = (((h : Int) - (t : Int)) % (n : Int)).toNat := by
  rw [tailIndex_cases h n t h15 hn ht ht8]
  by_cases hth : t ≤ h
  · rw [if_pos hth, Int.emod_eq_of_lt (by omega) (by omega)]
    omega
  · rw [if_neg hth, ← Int.add_emod_self, Int.emod_eq_of_lt (by omega) (by omega)]
    omega

theorem tailColor_head (state : AppState) (m : Nat) :
    SpinTailAnimation.tailColor state m 0 = state.primaryColor := by
  unfold SpinTailAnimation.tailColor
  have : roundF32 (1 - roundF32 (((0 : Nat) : ℚ) / (m : ℚ))) = 1 := by
    simp [roundF32_zero, roundF32_one]
  rw [this]
  exact (scaleColor_boundary state.primaryColor 1).2 (le_refl 1)

theorem spinTail_update_nongated (a : SpinTailAnimation) (nowMs : Nat) (state : AppState)
    (ring : LedRing) (h : state.speedMs ≤ sub32 nowMs a._lastStepMs) :
    a.update nowMs state ring =
      ({ _lastStepMs := nowMs,
         _headPosition := ((a._headPosition + 1) % ring.numPixels) % 65536 },
        (SpinTailAnimation.tailFrom state a._headPosition ring.numPixels
          (if state.tailLength > ring.numPixels then ring.numPixels % 256
            else state.tailLength) ring.clear 0
          (if state.tailLength > ring.numPixels then ring.numPixels % 256
            else state.tailLength)).show) := by
  unfold SpinTailAnimation.update
  rw [if_neg (by omega)]

theorem tailLen_eq_min (L n : Nat) (hL : L < 256) :
    (if L > n then n % 256 else L) = min L n := by
  split <;> omega
/-- C24 (the claim fails): on the device's 3 pixels with the default tail length 6, head
at 0 and primary colour 0x0000FF, a non-gated `SpinTailAnimation::update` divides by the
clamped length 3, not by the setting 6: offset 1 (pixel 2) is written with
`scaleColor(0xFF, 1 - 1/3) = 169` and offset 2 (pixel 1) with 84, whereas
`255 * (1 - 1/6) = 212.5` and `255 * (1 - 2/6) = 170`. -/
theorem spinTail_scale_uses_clamped_length :
    (LedRing.init Config.NUM_PIXELS).numPixels = 3 ∧
    ({ primaryColor := 0x0000FF } : AppState).tailLength = 6 ∧
    ((({} : SpinTailAnimation).onEnter {}).update 50 { primaryColor := 0x0000FF }
      (LedRing.init Config.NUM_PIXELS)).2.log =
      [RingOp.clear, RingOp.setPixelColor 0 255, RingOp.setPixelColor 2 169,
        RingOp.setPixelColor 1 84, RingOp.show] ∧
    (255 : ℚ) * (1 - 1 / 6) = 425 / 2 ∧ (255 : ℚ) * (1 - 2 / 6) = 170 := by
  have c0 : SpinTailAnimation.tailColor { primaryColor := 0x0000FF } 3 0 = 255 :=
    tailColor_head { primaryColor := 0x0000FF } 3
  have c1 : SpinTailAnimation.tailColor { primaryColor := 0x0000FF } 3 1 = 169 := by
    unfold SpinTailAnimation.tailColor
    have hf : roundF32 (1 - roundF32 (((1 : Nat) : ℚ) / ((3 : Nat) : ℚ))) =
        5592405 / 8388608 := by
      have : (((1 : Nat) : ℚ) / ((3 : Nat) : ℚ)) = 1 / 3 := by norm_num
      rw [this, roundF32_third, roundF32_one_minus_third]
    rw [hf]
    exact scaleColor_blue 255 (by decide) _ (11141119 / 65536) 169 (by norm_num) (by norm_num)
      (by simpa using roundF32_blue_t1)
      (by unfold floatToU8
          rw [show ⌊(11141119 / 65536 : ℚ)⌋ = 169 by rw [Int.floor_eq_iff]; norm_num]
          decide)
  have c2 : SpinTailAnimation.tailColor { primaryColor := 0x0000FF } 3 2 = 84 := by
    unfold SpinTailAnimation.tailColor
    have hf : roundF32 (1 - roundF32 (((2 : Nat) : ℚ) / ((3 : Nat) : ℚ))) =
        5592405 / 16777216 := by
      have : (((2 : Nat) : ℚ) / ((3 : Nat) : ℚ)) = 2 / 3 := by norm_num
      rw [this, roundF32_two_thirds, roundF32_one_minus_two_thirds]
    rw [hf]
    exact scaleColor_blue 255 (by decide) _ (11141119 / 131072) 84 (by norm_num) (by norm_num)
      (by simpa using roundF32_blue_t2)
      (by unfold floatToU8
          rw [show ⌊(11141119 / 131072 : ℚ)⌋ = 84 by rw [Int.floor_eq_iff]; norm_num]
          decide)
  refine ⟨rfl, rfl, ?_, by norm_num, by norm_num⟩
  rw [spinTail_update_nongated _ 50 _ _ (by decide)]
  simp only [LedRing.show, log_tailFrom]
  have hlen : (if ({ primaryColor := 0x0000FF } : AppState).tailLength >
      (LedRing.init Config.NUM_PIXELS).numPixels then
        (LedRing.init Config.NUM_PIXELS).numPixels % 256
      else ({ primaryColor := 0x0000FF } : AppState).tailLength) = 3 := by decide
  rw [hlen]
  have hnp : (LedRing.init Config.NUM_PIXELS).numPixels = 3 := rfl
  have hhead : (({} : SpinTailAnimation).onEnter {})._headPosition = 0 := rfl
  rw [hnp, hhead]
  have i0 : SpinTailAnimation.tailIndex 0 3 0 = 0 := by decide
  have i1 : SpinTailAnimation.tailIndex 0 3 1 = 2 := by decide
  have i2 : SpinTailAnimation.tailIndex 0 3 2 = 1 := by decide
  simp only [List.range_succ_eq_map, List.range_zero, List.map_cons, List.map_nil,
    Nat.zero_add, Nat.add_zero, i0, i1, i2, c0, c1, c2]
  rfl
/-- C24 (amended): Spin-with-tail step.  For a surface of `n` pixels (`1 <= n`, `n` a
`uint16_t`), a head position `h < n` below 2^15 and a tail length setting `L` (a
`uint8_t`), a non-gated `SpinTailAnimation::update` calls `clear`, then for each trailing
offset `t` with `0 <= t < min(L, n)`, in increasing order, `setPixelColor` on pixel
`(h - t) mod n` with the primary colour scaled by the `float` factor
`1 - t / min(L, n)` (the divisor is the clamped length), then `show`.  The written
indices are pairwise distinct and all below `n`, the head pixel (`t = 0`) gets the
unscaled primary colour, and the head advances to `(h + 1) mod n`. -/
theorem spinTail_step (a : SpinTailAnimation) (nowMs : Nat) (state : AppState)
    (ring : LedRing) (hn : 1 ≤ ring.numPixels) (hn16 : ring.numPixels < 65536)
    (hh : a._headPosition < ring.numPixels) (h15 : a._headPosition < 32768)
    (hL : state.tailLength < 256)
    (hg : (state.speedMs : Int) ≤ ((nowMs : Int) - (a._lastStepMs : Int)) % 4294967296) :
    (a.update nowMs state ring).2.log =
      ring.log ++ [RingOp.clear] ++
        (List.range (min state.tailLength ring.numPixels)).map (fun (t : Nat) =>
          RingOp.setPixelColor
            ((((a._headPosition : Int) - (t : Int)) % (ring.numPixels : Int)).toNat)
            (LedRing.scaleColor state.primaryColor
              (roundF32 (1 - roundF32 ((t : ℚ) /
                ((min state.tailLength ring.numPixels : Nat) : ℚ)))))) ++
        [RingOp.show] ∧
    (∀ t : Nat, t < min state.tailLength ring.numPixels →
      (((a._headPosition : Int) - (t : Int)) % (ring.numPixels : Int)).toNat <
        ring.numPixels) ∧
    (∀ t1 t2 : Nat, t1 < min state.tailLength ring.numPixels →
      t2 < min state.tailLength ring.numPixels →
      (((a._headPosition : Int) - (t1 : Int)) % (ring.numPixels : Int)).toNat =
        (((a._headPosition : Int) - (t2 : Int)) % (ring.numPixels : Int)).toNat → t1 = t2) ∧
    LedRing.scaleColor state.primaryColor
      (roundF32 (1 - roundF32 (((0 : Nat) : ℚ) /
        ((min state.tailLength ring.numPixels : Nat) : ℚ)))) = state.primaryColor ∧
    (a.update nowMs state ring).1 =
      { _lastStepMs := nowMs, _headPosition := (a._headPosition + 1) % ring.numPixels } := by
  have hg2 : state.speedMs ≤ sub32 nowMs a._lastStepMs := by
    rw [← sub32_eq_emod] at hg
    exact_mod_cast hg
  have hidx : ∀ t : Nat, t < min state.tailLength ring.numPixels →
      (((a._headPosition : Int) - (t : Int)) % (ring.numPixels : Int)).toNat =
        (if t ≤ a._headPosition then a._headPosition - t
          else a._headPosition + ring.numPixels - t) := by
    intro t ht
    rw [← tailIndex_emod a._headPosition ring.numPixels t hh h15 hn16 (by omega) (by omega)]
    exact tailIndex_cases a._headPosition ring.numPixels t h15 hn16 (by omega) (by omega)
  refine ⟨?_, ?_, ?_, ?_, ?_⟩
  · rw [spinTail_update_nongated a nowMs state ring hg2, tailLen_eq_min _ _ hL]
    have hmap : (List.range (min state.tailLength ring.numPixels)).map (fun (t : Nat) =>
          RingOp.setPixelColor
            (SpinTailAnimation.tailIndex a._headPosition ring.numPixels t)
            (SpinTailAnimation.tailColor state (min state.tailLength ring.numPixels) t)) =
        (List.range (min state.tailLength ring.numPixels)).map (fun (t : Nat) =>
          RingOp.setPixelColor
            ((((a._headPosition : Int) - (t : Int)) % (ring.numPixels : Int)).toNat)
            (LedRing.scaleColor state.primaryColor
              (roundF32 (1 - roundF32 ((t : ℚ) /
                ((min state.tailLength ring.numPixels : Nat) : ℚ)))))) := by
      refine List.map_congr_left (fun t ht => ?_)
      rw [List.mem_range] at ht
      rw [tailIndex_emod a._headPosition ring.numPixels t hh h15 hn16 (by omega) (by omega)]
      rfl
    simp only [LedRing.show, log_tailFrom, LedRing.clear, Nat.zero_add, List.append_assoc]
    rw [hmap]
  · intro t ht
    rw [hidx t ht]
    split <;> omega
  · intro t1 t2 h1 h2 he
    rw [hidx t1 h1, hidx t2 h2] at he
    split_ifs at he <;> omega
  · exact tailColor_head state (min state.tailLength ring.numPixels)
  · rw [spinTail_update_nongated a nowMs state ring hg2]
    rw [Nat.mod_eq_of_lt (lt_trans (Nat.mod_lt _ hn) hn16)]

theorem spinTail_step_witness :
    (({ _lastStepMs := 0, _headPosition := 2 } : SpinTailAnimation).update 50 {}
      (LedRing.init 3)).1 = { _lastStepMs := 50, _headPosition := 0 } :=
  (spinTail_step { _lastStepMs := 0, _headPosition := 2 } 50 {} (LedRing.init 3)
    (by decide) (by decide) (by decide) (by decide) (by decide) (by decide)).2.2.2.2
/-- Beyond 2^15 the `int16_t` cast of the head position changes the index: on a surface
of 40000 pixels with the head at 35000 the offset-0 write goes to pixel 9464. -/
theorem tailIndex_large_head : SpinTailAnimation.tailIndex 35000 40000 0 = 9464 := by
  decide

/-- On the registry of `setup()`, activating "fade" or "strobe" makes that name the
current one. -/
theorem currentName_setActive_toggle (mgr : AnimationManager) (name : String) (s : AppState)
    (hreg : mgr.listNames = setup.animMgr.listNames)
    (hname : name = "fade" ∨ name = "strobe") :
    (mgr.setActive name s).currentName = name := by
  have hnames : setup.animMgr.listNames =
      ["fade", "spin", "spinTail", "strobe", "solid", "pixels"] := by decide
  rw [hnames] at hreg
  have hmap : mgr._animations.map IAnimation.name =
      ["fade", "spin", "spinTail", "strobe", "solid", "pixels"] := hreg
  rcases hname with hname | hname
  · subst hname
    have hfind : AnimationManager.findFrom "fade" mgr._animations 0 = some 0 := by
      rw [findFrom_eq_findName, hmap]; decide
    obtain ⟨hl, hi⟩ := setActive_of_found mgr "fade" s 0 hfind
    have hlen : (mgr.setActive "fade" s)._animations.length = 6 := by
      rw [← length_listNames, hl, hreg]; rfl
    rw [currentName_eq_getD, hi, hlen, hl, hreg]
    decide
  · subst hname
    have hfind : AnimationManager.findFrom "strobe" mgr._animations 0 = some 3 := by
      rw [findFrom_eq_findName, hmap]; decide
    obtain ⟨hl, hi⟩ := setActive_of_found mgr "strobe" s 3 hfind
    have hlen : (mgr.setActive "strobe" s)._animations.length = 6 := by
      rw [← length_listNames, hl, hreg]; rfl
    rw [currentName_eq_getD, hi, hlen, hl, hreg]
    decide

theorem handleButton_click3 (d : Device) :
    handleButton d ButtonEvent.Click3 =
      { d with colorIdx := (d.colorIdx + 1) % 7,
               appState := { d.appState with
                 primaryColor := presetColors.getD ((d.colorIdx + 1) % 7) 0 } } := by
  have h : ((d.colorIdx + 1) % 7) % 256 = (d.colorIdx + 1) % 7 := by omega
  simp only [handleButton, Commands.setColor, h]

theorem handleButtonTimes_click3 : ∀ (n : Nat) (d : Device),
    handleButtonTimes ButtonEvent.Click3 (n + 1) d =
      { d with colorIdx := (d.colorIdx + (n + 1)) % 7,
               appState := { d.appState with
                 primaryColor := presetColors.getD ((d.colorIdx + (n + 1)) % 7) 0 } } := by
  intro n
  induction n with
  | zero => intro d; exact handleButton_click3 d
  | succ n ih =>
    intro d
    have hstep : handleButtonTimes ButtonEvent.Click3 (n + 1 + 1) d =
        handleButtonTimes ButtonEvent.Click3 (n + 1) (handleButton d ButtonEvent.Click3) := rfl
    rw [hstep, ih, handleButton_click3]
    have h : ((d.colorIdx + 1) % 7 + (n + 1)) % 7 = (d.colorIdx + (n + 1 + 1)) % 7 := by omega
    simp only [h]

theorem togglePower_twice (s : AppState) (r : LedRing) :
    (Commands.togglePower (Commands.togglePower s r).1 (Commands.togglePower s r).2).1 = s := by
  cases s with
  | mk powerOn brightness primaryColor secondaryColor currentAnimationName speedMs tailLength
      strobePeriodMs pixelColors pixelVersion =>
    cases powerOn <;> rfl

theorem togglePower_flag (s : AppState) (r : LedRing) :
    (Commands.togglePower s r).1.powerOn = (!s.powerOn) := by
  unfold Commands.togglePower Commands.setPower
  split <;> rfl

/-- C29: the `switch (evt)` of `loop()`.  None changes nothing.  Click1 runs
`Commands::nextAnimation`: on a non-empty registry with active index `i` the active index
becomes `(i + 1) mod K` and the animation identifier the name of that strategy.  Click2
sets the animation to "fade" when the active strategy is named "strobe" and to "strobe"
otherwise (on the registry of `setup()` that name is then the current one).  Click3 moves
the colour index to `(index + 1) mod 7` and sets the primary colour to that entry of the
7 preset colours, so 7 more triple-clicks give the same device state again, and 7
triple-clicks return an index below 7 to itself.  Hold negates the power flag and two
holds restore the shared state. -/
theorem button_event_mapping (d : Device) :
    handleButton d ButtonEvent.None = d ∧
    ((handleButton d ButtonEvent.Click1).animMgr = d.animMgr.nextAnimation d.appState ∧
      (handleButton d ButtonEvent.Click1).appState =
        { d.appState with
          currentAnimationName := (d.animMgr.nextAnimation d.appState).currentName } ∧
      ∀ K i : Nat, d.animMgr._animations.length = K → 1 ≤ K →
        d.animMgr._activeIndex = (i : Int) →
        (handleButton d ButtonEvent.Click1).animMgr._activeIndex = (((i + 1) % K : Nat) : Int)) ∧
    ((d.animMgr.currentName = "strobe" →
        handleButton d ButtonEvent.Click2 = d.setAnimation "fade") ∧
      (d.animMgr.currentName ≠ "strobe" →
        handleButton d ButtonEvent.Click2 = d.setAnimation "strobe") ∧
      (d.animMgr.listNames = setup.animMgr.listNames →
        (handleButton d ButtonEvent.Click2).animMgr.currentName =
          (if d.animMgr.currentName = "strobe" then "fade" else "strobe") ∧
        (handleButton d ButtonEvent.Click2).appState.currentAnimationName =
          (if d.animMgr.currentName = "strobe" then "fade" else "strobe"))) ∧
    (presetColors = [0x0000FF, 0x00FF00, 0xFF0000, 0xFF00FF, 0x00FFFF, 0xFFFF00, 0xFFFFFF] ∧
      (handleButton d ButtonEvent.Click3).colorIdx = (d.colorIdx + 1) % 7 ∧
      (handleButton d ButtonEvent.Click3).appState =
        { d.appState with primaryColor := presetColors.getD ((d.colorIdx + 1) % 7) 0 } ∧
      handleButtonTimes ButtonEvent.Click3 7 (handleButton d ButtonEvent.Click3) =
        handleButton d ButtonEvent.Click3 ∧
      (d.colorIdx < 7 →
        (handleButtonTimes ButtonEvent.Click3 7 d).colorIdx = d.colorIdx ∧
        (handleButtonTimes ButtonEvent.Click3 7 d).appState.primaryColor =
          presetColors.getD d.colorIdx 0)) ∧
    ((handleButton d ButtonEvent.Hold).appState.powerOn = (!d.appState.powerOn) ∧
      (handleButton (handleButton d ButtonEvent.Hold) ButtonEvent.Hold).appState =
        d.appState) := by
  refine ⟨rfl, ⟨rfl, rfl, ?_⟩, ⟨?_, ?_, ?_⟩, ⟨rfl, ?_, ?_, ?_, ?_⟩,
    ⟨togglePower_flag d.appState d.ledRing, ?_⟩⟩
  · intro K i hK hpos hi
    exact activeIndex_nextAnimation d.animMgr d.appState K i hK hpos hi
  · intro h
    simp only [handleButton, h, if_true]
  · intro h
    simp only [handleButton, h, if_false]
  · intro hreg
    by_cases h : d.animMgr.currentName = "strobe"
    · simp only [handleButton, h, if_true]
      exact ⟨currentName_setActive_toggle d.animMgr "fade" _ hreg (Or.inl rfl), rfl⟩
    · simp only [handleButton, h, if_false]
      exact ⟨currentName_setActive_toggle d.animMgr "strobe" _ hreg (Or.inr rfl), rfl⟩
  · rw [handleButton_click3]
  · rw [handleButton_click3]
  · have h8 : handleButtonTimes ButtonEvent.Click3 7 (handleButton d ButtonEvent.Click3) =
        handleButtonTimes ButtonEvent.Click3 (7 + 1) d := rfl
    rw [h8, handleButtonTimes_click3 7 d, handleButton_click3]
    have h : (d.colorIdx + (7 + 1)) % 7 = (d.colorIdx + 1) % 7 := by omega
    simp only [h]
  · intro hlt
    rw [handleButtonTimes_click3 6 d]
    have h : (d.colorIdx + (6 + 1)) % 7 = d.colorIdx := by omega
    simp only [h]
    exact ⟨trivial, trivial⟩
  · exact togglePower_twice d.appState d.ledRing

theorem button_event_mapping_witness :
    (handleButton setup ButtonEvent.Click1).animMgr._activeIndex = (((0 + 1) % 6 : Nat) : Int) ∧
    (handleButton setup ButtonEvent.Click2).animMgr.currentName =
      (if setup.animMgr.currentName = "strobe" then "fade" else "strobe") ∧
    (handleButtonTimes ButtonEvent.Click3 7 setup).colorIdx = setup.colorIdx :=
  ⟨(button_event_mapping setup).2.1.2.2 6 0 (by decide) (by decide) (by decide),
    ((button_event_mapping setup).2.2.1.2.2 rfl).1,
    ((button_event_mapping setup).2.2.2.1.2.2.2.2 (by decide)).1⟩

/-- The presence branch of `loop()` writes `pixelColors` and never `pixelVersion`. -/
theorem applyEffect_pixelVersion (d : Device) (nowMs : Nat) (effect : PresenceEffect) :
    (applyEffect d nowMs effect).appState.pixelVersion = d.appState.pixelVersion ∧
    (applyEffect d nowMs effect).appState.pixelColors = (stampTrafficLight effect).1 := by
  obtain ⟨ty, col, tl⟩ := effect
  cases tl <;> cases ty <;>
    simp [applyEffect, stampTrafficLight, selectAnimation, Device.setAnimation,
      Commands.setAnimation]

/-- C30 (the code disagrees): after `setup()`, the pass of `loop()` at 5000 ms that
fetches the classification Available sees a changed presence and rewrites `pixelColors`
from `[0, 0, 0]` to `[0x00FF00, 0, 0]`, yet `pixelVersion` is 1 before and 1 after;
`Commands::setColor(state, position, color)` making the same kind of write increments
it. -/
theorem loop_rewrites_pixels_without_bump :
    setup.appState.pixelColors = [0, 0, 0] ∧ setup.appState.pixelVersion = 1 ∧
    setup.lastPresence ≠ Presence.Available ∧
    (loop setup { nowMs := 5000, fetched := some Presence.Available }).lastPresence =
      Presence.Available ∧
    (loop setup { nowMs := 5000, fetched := some Presence.Available }).appState.pixelColors =
      [0x00FF00, 0, 0] ∧
    (loop setup { nowMs := 5000, fetched := some Presence.Available }).appState.pixelVersion =
      1 ∧
    (Commands.setPixel setup.appState 0 0x00FF00).pixelColors = [0x00FF00, 0, 0] ∧
    (Commands.setPixel setup.appState 0 0x00FF00).pixelVersion = 2 ∧
    (∀ (d : Device) (nowMs : Nat) (currentPresence : Presence),
      (presenceStep d nowMs currentPresence).appState.pixelVersion =
        d.appState.pixelVersion) := by
  refine ⟨by decide, by decide, by decide, by decide, by decide, by decide, by decide,
    by decide, ?_⟩
  intro d nowMs currentPresence
  unfold presenceStep
  split
  · exact (applyEffect_pixelVersion _ nowMs _).1
  · rfl

/-! ## Remaining scheduler and control-loop properties -/

/-- C31: index semantics of `AnimationManager::nextAnimation`.  On an empty registry the
manager is returned unchanged (same active index, no hook called).  On a registry of
size `K >= 1` with the old index in `[-1, K)` the new index is `(old + 1) mod K`: it is
within `[0, K)`, the not-yet-activated index -1 advances to 0 and index `K - 1` wraps
to 0; the registry keeps its size. -/
theorem nextAnimation_index_semantics (mgr : AnimationManager) (state : AppState) :
    (mgr._animations.length = 0 →
      mgr.nextAnimation state = mgr ∧
      (mgr.nextAnimation state)._activeIndex = mgr._activeIndex ∧
      (mgr.nextAnimation state).calls = mgr.calls) ∧
    (∀ K : Nat, mgr._animations.length = K → 1 ≤ K → -1 ≤ mgr._activeIndex →
      mgr._activeIndex < (K : Int) →
      (mgr.nextAnimation state)._activeIndex = (mgr._activeIndex + 1) % (K : Int) ∧
      0 ≤ (mgr.nextAnimation state)._activeIndex ∧
      (mgr.nextAnimation state)._activeIndex < (K : Int) ∧
      (mgr._activeIndex = -1 → (mgr.nextAnimation state)._activeIndex = 0) ∧
      (mgr._activeIndex = (K : Int) - 1 → (mgr.nextAnimation state)._activeIndex = 0) ∧
      (mgr.nextAnimation state)._animations.length = K) := by
  constructor
  · intro h
    have : mgr.nextAnimation state = mgr := by
      unfold AnimationManager.nextAnimation
      rw [if_pos h]
    rw [this]
    exact ⟨rfl, rfl, rfl⟩
  · intro K hK hpos hlo hhi
    have hidx : (mgr.nextAnimation state)._activeIndex = (mgr._activeIndex + 1) % (K : Int) := by
      rw [nextAnimation_nonempty mgr state (by omega), activeIndex_enterAt, hK,
        Int.tmod_eq_emod (by omega) (by omega)]
    have hKpos : (0 : Int) < (K : Int) := by omega
    refine ⟨hidx, ?_, ?_, ?_, ?_, ?_⟩
    · rw [hidx]; exact Int.emod_nonneg _ (by omega)
    · rw [hidx]; exact Int.emod_lt_of_pos _ hKpos
    · intro h; rw [hidx, h]; simp
    · intro h; rw [hidx, h]; simp
    · rw [length_nextAnimation, hK]

theorem nextAnimation_index_semantics_witness :
    (((({} : AnimationManager).addAnimation (IAnimation.fade {})).addAnimation
      (IAnimation.spin {})).nextAnimation {})._animations.length = 2 ∧
    (((({} : AnimationManager).addAnimation (IAnimation.fade {})).addAnimation
      (IAnimation.spin {})).nextAnimation {})._activeIndex = 0 ∧
    (({} : AnimationManager).nextAnimation {}) = {} :=
  ⟨((nextAnimation_index_semantics ((({} : AnimationManager).addAnimation
      (IAnimation.fade {})).addAnimation (IAnimation.spin {})) {}).2 2 (by decide) (by decide)
      (by decide) (by decide)).2.2.2.2.2,
    ((nextAnimation_index_semantics ((({} : AnimationManager).addAnimation
      (IAnimation.fade {})).addAnimation (IAnimation.spin {})) {}).2 2 (by decide) (by decide)
      (by decide) (by decide)).2.2.2.1 (by decide),
    ((nextAnimation_index_semantics {} {}).1 (by decide)).1⟩

theorem applyEffect_bottom (d : Device) (nowMs : Nat) (effect : PresenceEffect)
    (hb : effect.trafficLight = TrafficLightState.Bottom) :
    applyEffect d nowMs effect =
      { ({ d with appState := { d.appState with
              primaryColor := effect.color,
              pixelColors := (List.replicate Config.NUM_PIXELS 0).set 0 effect.color } } :
            Device).setAnimation "strobe" with
        strobeStartTime := nowMs, inStrobePhase := true, strobeThen := "pixels",
        appState := { (({ d with appState := { d.appState with
              primaryColor := effect.color,
              pixelColors := (List.replicate Config.NUM_PIXELS 0).set 0 effect.color } } :
            Device).setAnimation "strobe").appState with powerOn := true } } := by
  obtain ⟨ty, col, tl⟩ := effect
  simp only at hb
  subst hb
  simp [applyEffect, stampTrafficLight, selectAnimation]

/-- C32: `mapPresenceToEffect` returns the traffic-light hint Bottom for every
classification, so for every changed classification the presence step of `loop()`
rewrites the effect type to StrobeThenPixel: the per-pixel array becomes the effect
colour at index 0 and 0 elsewhere, the primary colour is the effect colour, the animation
identifier (and, on the registry of `setup()`, the active strategy) is "strobe", the
settle timer is armed at the current time with then-animation "pixels", and the power
flag is true. -/
theorem presence_always_strobe_then_pixel (d : Device) (nowMs : Nat) (p : Presence)
    (hchg : p ≠ d.lastPresence) :
    (∀ q : Presence,
      (TeamsPresence.mapPresenceToEffect q).trafficLight = TrafficLightState.Bottom) ∧
    (stampTrafficLight (TeamsPresence.mapPresenceToEffect p)).2.type =
      EffectType.StrobeThenPixel ∧
    (presenceStep d nowMs p).appState.pixelColors =
      [(TeamsPresence.mapPresenceToEffect p).color, 0, 0] ∧
    (presenceStep d nowMs p).appState.primaryColor =
      (TeamsPresence.mapPresenceToEffect p).color ∧
    (presenceStep d nowMs p).appState.currentAnimationName = "strobe" ∧
    (d.animMgr.listNames = setup.animMgr.listNames →
      (presenceStep d nowMs p).animMgr.currentName = "strobe") ∧
    (presenceStep d nowMs p).inStrobePhase = true ∧
    (presenceStep d nowMs p).strobeStartTime = nowMs ∧
    (presenceStep d nowMs p).strobeThen = "pixels" ∧
    (presenceStep d nowMs p).appState.powerOn = true ∧
    (presenceStep d nowMs p).lastPresence = p := by
  have hbot : ∀ q : Presence,
      (TeamsPresence.mapPresenceToEffect q).trafficLight = TrafficLightState.Bottom := by
    intro q; cases q <;> rfl
  have hstep : presenceStep d nowMs p =
      applyEffect { d with lastPresence := p } nowMs (TeamsPresence.mapPresenceToEffect p) := by
    unfold presenceStep
    rw [if_pos hchg]
  rw [hstep, applyEffect_bottom _ nowMs _ (hbot p)]
  refine ⟨hbot, ?_, rfl, rfl, rfl, ?_, rfl, rfl, rfl, rfl, rfl⟩
  · unfold stampTrafficLight
    rw [hbot p]
  · intro hreg
    exact currentName_setActive_toggle d.animMgr "strobe" _ hreg (Or.inr rfl)

theorem presence_always_strobe_then_pixel_witness :
    Presence.Offline ≠ setup.lastPresence ∧
    (presenceStep setup 5000 Presence.Offline).appState.powerOn = true ∧
    (presenceStep setup 5000 Presence.Offline).strobeThen = "pixels" ∧
    (presenceStep setup 5000 Presence.Offline).animMgr.currentName = "strobe" :=
  ⟨by decide,
    (presence_always_strobe_then_pixel setup 5000 Presence.Offline (by decide)).2.2.2.2.2.2.2.2.2.1,
    (presence_always_strobe_then_pixel setup 5000 Presence.Offline (by decide)).2.2.2.2.2.2.2.2.1,
    (presence_always_strobe_then_pixel setup 5000 Presence.Offline (by decide)).2.2.2.2.2.1 rfl⟩

theorem findName_range (name : String) (names : List String) : ∀ (k i : Nat),
    findName name names k = some i → k ≤ i ∧ i < k + names.length := by
  induction names with
  | nil => intro k i h; simp [findName] at h
  | cons x rest ih =>
    intro k i h
    simp only [findName] at h
    split at h
    · have : k = i := by simpa using h
      subst this
      simp
    · obtain ⟨h1, h2⟩ := ih (k + 1) i h
      simp only [List.length_cons]
      omega

/-- When the search of `setActive` finds index `i`, `Commands::setAnimation` stores the
requested spelling in the shared state while the scheduler reports the registered name
at `i`. -/
theorem setAnimation_found (state : AppState) (mgr : AnimationManager) (name : String)
    (i : Nat) (h : AnimationManager.findFrom name mgr._animations 0 = some i) :
    (Commands.setAnimation state mgr name).1.currentAnimationName = name ∧
    (Commands.setAnimation state mgr name).2.currentName = mgr.listNames.getD i "" := by
  refine ⟨rfl, ?_⟩
  have hlt : i < mgr._animations.length := by
    have := findName_range name (mgr._animations.map IAnimation.name) 0 i
      (by rw [← findFrom_eq_findName]; exact h)
    simpa using this.2
  obtain ⟨hl, hi⟩ := setActive_of_found mgr name { state with currentAnimationName := name } i h
  have hlen : (mgr.setActive name { state with currentAnimationName := name })._animations.length
      = mgr._animations.length := by
    rw [← length_listNames, hl, length_listNames]
  show (mgr.setActive name { state with currentAnimationName := name }).currentName = _
  rw [currentName_eq_getD, hi, hlen, hl, if_pos ⟨by omega, by omega⟩]
  simp

/-- C33 (the code disagrees): after `setup()` ("fade" is active),
`Commands::setAnimation` with the unknown name "rainbow" leaves the scheduler on "fade"
but stores "rainbow" as the animation identifier; with "SOLID" the scheduler activates
"solid" and the identifier is "SOLID".  `Commands::nextAnimation` copies
`mgr.currentName()` into the identifier, so after it the two are always equal. -/
theorem setAnimation_identifier_desync :
    setup.animMgr.currentName = "fade" ∧
    (Commands.setAnimation setup.appState setup.animMgr "rainbow").1.currentAnimationName =
      "rainbow" ∧
    (Commands.setAnimation setup.appState setup.animMgr "rainbow").2.currentName = "fade" ∧
    (Commands.setAnimation setup.appState setup.animMgr "SOLID").1.currentAnimationName =
      "SOLID" ∧
    (Commands.setAnimation setup.appState setup.animMgr "SOLID").2.currentName = "solid" ∧
    (Commands.setAnimation setup.appState setup.animMgr "solid").1.currentAnimationName =
      (Commands.setAnimation setup.appState setup.animMgr "solid").2.currentName ∧
    (∀ (state : AppState) (mgr : AnimationManager),
      (Commands.nextAnimation state mgr).1.currentAnimationName =
        (Commands.nextAnimation state mgr).2.currentName) := by
  refine ⟨by decide, by decide, by decide, by decide, by decide, by decide, ?_⟩
  intro state mgr
  rfl

/-- Positive part of C33: with a name spelled exactly as the registered name the search
finds, the identifier and the scheduler agree. -/
theorem setAnimation_sync_exact (state : AppState) (mgr : AnimationManager) (name : String)
    (i : Nat) (h : AnimationManager.findFrom name mgr._animations 0 = some i)
    (hexact : mgr.listNames.getD i "" = name) :
    (Commands.setAnimation state mgr name).1.currentAnimationName =
      (Commands.setAnimation state mgr name).2.currentName := by
  obtain ⟨h1, h2⟩ := setAnimation_found state mgr name i h
  rw [h1, h2, hexact]

/-- An `update` dispatched to an active strategy that returns without touching its
members or the surface leaves the registry, the active index and the surface as they
were. -/
theorem mgr_update_idle (mgr : AnimationManager) (i : Nat) (anim : IAnimation) (nowMs : Nat)
    (state : AppState) (ring : LedRing) (hidx : mgr._activeIndex = (i : Int))
    (hget : mgr._animations[i]? = some anim)
    (hidle : anim.update nowMs state ring = (anim, ring)) :
    (mgr.update nowMs state ring).2 = ring ∧
    (mgr.update nowMs state ring).1._animations = mgr._animations ∧
    (mgr.update nowMs state ring).1._activeIndex = mgr._activeIndex := by
  have hlt : i < mgr._animations.length := by
    by_contra hc
    rw [List.getElem?_eq_none (by omega)] at hget
    exact Option.noConfusion hget
  have hset : mgr._animations.set i anim = mgr._animations := by
    apply List.ext_getElem?
    intro q
    by_cases hq : q = i
    · subst hq
      rw [List.getElem?_set_self hlt, hget]
    · rw [List.getElem?_set_ne (Ne.symm hq)]
  unfold AnimationManager.update
  rw [if_pos ⟨by omega, by omega⟩, hidx]
  simp only [Int.toNat_ofNat, List.get?_eq_getElem?, hget, hidle, hset]
  exact ⟨trivial, trivial, trivial⟩

theorem mgr_run_idle (i : Nat) (anim : IAnimation) : ∀ (calls : List (Nat × AppState))
    (mgr : AnimationManager) (ring : LedRing), mgr._activeIndex = (i : Int) →
    mgr._animations[i]? = some anim →
    (∀ c ∈ calls, ∀ r : LedRing, anim.update c.1 c.2 r = (anim, r)) →
    (runUpdates AnimationManager.update mgr ring calls).2 = ring ∧
    (runUpdates AnimationManager.update mgr ring calls).1._animations = mgr._animations ∧
    (runUpdates AnimationManager.update mgr ring calls).1._activeIndex = mgr._activeIndex := by
  intro calls
  induction calls with
  | nil => intro mgr ring _ _ _; exact ⟨rfl, rfl, rfl⟩
  | cons c rest ih =>
    intro mgr ring hidx hget hidle
    obtain ⟨n1, s1⟩ := c
    obtain ⟨u1, u2, u3⟩ := mgr_update_idle mgr i anim n1 s1 ring hidx hget
      (hidle (n1, s1) (List.mem_cons_self _ _) ring)
    simp only [runUpdates]
    obtain ⟨i1, i2, i3⟩ := ih (mgr.update n1 s1 ring).1 (mgr.update n1 s1 ring).2
      (by rw [u3]; exact hidx) (by rw [u2]; exact hget)
      (fun c hc r => hidle c (List.mem_cons_of_mem _ hc) r)
    exact ⟨i1.trans u1, i2.trans u2, i3.trans u3⟩

/-- C34: power cycling does not re-render a once-only strategy.  Let the active strategy
be Solid, already rendered, or Pixels whose last rendered version is the version every
later update sees.  `Commands::setPower(false)` clears the buffer and flushes it (the
strip shows 0 everywhere); the following `Commands::setPower(true)` sets the power flag
and touches nothing else; after it any sequence of scheduler updates returns the surface
exactly as the power-off left it (no write, no flush), with the strategy unchanged. -/
theorem power_cycle_no_rerender (mgr : AnimationManager) (i : Nat) (anim : IAnimation)
    (state : AppState) (ring : LedRing) (calls : List (Nat × AppState))
    (hidx : mgr._activeIndex = (i : Int)) (hget : mgr._animations[i]? = some anim)
    (hanim : anim = IAnimation.solid { _needsRefresh := false } ∨
      ∃ v : Nat, anim = IAnimation.pixels { _lastVersion := v } ∧
        ∀ c ∈ calls, c.2.pixelVersion = v) :
    (Commands.setPower state ring false).2 = (ring.clear).show ∧
    (Commands.setPower state ring false).2.pixels = List.replicate ring.numPixels 0 ∧
    (Commands.setPower state ring false).2.shown = List.replicate ring.numPixels 0 ∧
    Commands.setPower (Commands.setPower state ring false).1
        (Commands.setPower state ring false).2 true =
      ({ state with powerOn := true }, (ring.clear).show) ∧
    (runUpdates AnimationManager.update mgr (ring.clear).show calls).2 = (ring.clear).show ∧
    (runUpdates AnimationManager.update mgr (ring.clear).show calls).1._animations[i]? =
      some anim ∧
    (runUpdates AnimationManager.update mgr (ring.clear).show calls).1._activeIndex =
      (i : Int) := by
  have hidle : ∀ c ∈ calls, ∀ r : LedRing, anim.update c.1 c.2 r = (anim, r) := by
    intro c hc r
    rcases hanim with h | ⟨v, h, hv⟩
    · subst h; rfl
    · subst h
      have := hv c hc
      simp [IAnimation.update, PixelsAnimation.update, this]
  obtain ⟨r1, r2, r3⟩ := mgr_run_idle i anim calls mgr (ring.clear).show hidx hget hidle
  refine ⟨rfl, rfl, rfl, rfl, r1, ?_, ?_⟩
  · rw [r2]; exact hget
  · rw [r3]; exact hidx

theorem power_cycle_no_rerender_witness :
    (runUpdates AnimationManager.update
      { _animations := [IAnimation.fade {}, IAnimation.solid { _needsRefresh := false }],
        _activeIndex := 1 }
      (((LedRing.init 3).setPixelColor 0 0xFF0000).clear).show
      [(10, ({} : AppState)), (20, { primaryColor := 0x00FF00 })]).2 =
      (((LedRing.init 3).setPixelColor 0 0xFF0000).clear).show :=
  (power_cycle_no_rerender
    { _animations := [IAnimation.fade {}, IAnimation.solid { _needsRefresh := false }],
      _activeIndex := 1 } 1 (IAnimation.solid { _needsRefresh := false }) {}
    ((LedRing.init 3).setPixelColor 0 0xFF0000)
    [(10, ({} : AppState)), (20, { primaryColor := 0x00FF00 })] rfl rfl (Or.inl rfl)).2.2.2.2.1

/-- Positive part of C35: when the version counter is not 0, the first `update` after
`onEnter` copies `pixelColors[i]` to pixel `i` for every `i < min(n, NUM_PIXELS)` and
flushes once. -/
theorem pixels_enter_renders (a0 : PixelsAnimation) (s0 : AppState) (nowMs : Nat)
    (state : AppState) (ring : LedRing) (hv : state.pixelVersion ≠ 0) :
    ((a0.onEnter s0).update nowMs state ring).2.log =
      ring.log ++ (List.range (min ring.numPixels Config.NUM_PIXELS)).map
        (fun i => RingOp.setPixelColor i (state.pixelColors.getD i 0)) ++ [RingOp.show] ∧
    ((a0.onEnter s0).update nowMs state ring).1 = { _lastVersion := state.pixelVersion } := by
  have hne : ¬ ((a0.onEnter s0)._lastVersion = state.pixelVersion) := by
    intro h
    exact hv h.symm
  unfold PixelsAnimation.update
  rw [if_neg hne]
  simp only [LedRing.show, log_setPixelsFrom, Nat.zero_add]
  exact ⟨trivial, trivial⟩

/-- C35 (the code disagrees): the version counter is a `uint32_t` that
`Commands::setColor(state, position, color)` increments, so from 4294967295 it becomes 0.
With the counter at 0 the first `PixelsAnimation::update` after `onEnter` (which stores 0
as the last rendered version) returns at the staleness check: nothing is copied to the
surface and nothing is flushed, although the array holds 0xFF0000 at index 0. -/
theorem pixels_enter_skips_version_zero :
    (Commands.setPixel { pixelVersion := 4294967295 } 0 0xFF0000).pixelVersion = 0 ∧
    (Commands.setPixel { pixelVersion := 4294967295 } 0 0xFF0000).pixelColors =
      [0xFF0000, 0, 0] ∧
    (({ _lastVersion := 4294967295 } : PixelsAnimation).onEnter
      (Commands.setPixel { pixelVersion := 4294967295 } 0 0xFF0000)) = { _lastVersion := 0 } ∧
    ((({ _lastVersion := 4294967295 } : PixelsAnimation).onEnter
        (Commands.setPixel { pixelVersion := 4294967295 } 0 0xFF0000)).update 10
      (Commands.setPixel { pixelVersion := 4294967295 } 0 0xFF0000) (LedRing.init 3)) =
      ({ _lastVersion := 0 }, LedRing.init 3) ∧
    (LedRing.init 3).log = [] ∧ (LedRing.init 3).shown = [0, 0, 0] ∧
    ((({ _lastVersion := 4294967295 } : PixelsAnimation).onEnter
        (Commands.setPixel { pixelVersion := 4294967294 } 0 0xFF0000)).update 10
      (Commands.setPixel { pixelVersion := 4294967294 } 0 0xFF0000) (LedRing.init 3)).2.shown =
      [0xFF0000, 0, 0] := by
  decide

theorem handleButton_timer (d : Device) (evt : ButtonEvent) :
    (handleButton d evt).inStrobePhase = d.inStrobePhase ∧
    (handleButton d evt).strobeStartTime = d.strobeStartTime ∧
    (handleButton d evt).strobeThen = d.strobeThen ∧
    (handleButton d evt).lastPresence = d.lastPresence := by
  cases evt
  · exact ⟨rfl, rfl, rfl, rfl⟩
  · exact ⟨rfl, rfl, rfl, rfl⟩
  · unfold handleButton
    simp only
    split <;> exact ⟨rfl, rfl, rfl, rfl⟩
  · exact ⟨rfl, rfl, rfl, rfl⟩
  · exact ⟨rfl, rfl, rfl, rfl⟩

/-- A pass whose presence fetch brings no changed classification leaves the timer
fields and the scheduler as they were. -/
theorem pollPresence_quiet (d : Device) (inp : TickInput)
    (hq : ∀ p : Presence, inp.fetched = some p → p = d.lastPresence) :
    (pollPresence d inp).inStrobePhase = d.inStrobePhase ∧
    (pollPresence d inp).strobeStartTime = d.strobeStartTime ∧
    (pollPresence d inp).strobeThen = d.strobeThen ∧
    (pollPresence d inp).animMgr = d.animMgr := by
  unfold pollPresence
  cases hf : inp.fetched with
  | none =>
    simp only
    split_ifs <;> exact ⟨rfl, rfl, rfl, rfl⟩
  | some p =>
    have hp := hq p hf
    subst hp
    simp only [presenceStep]
    split_ifs <;> first | exact ⟨rfl, rfl, rfl, rfl⟩ | simp_all

theorem currentName_update (mgr : AnimationManager) (nowMs : Nat) (state : AppState)
    (ring : LedRing) : (mgr.update nowMs state ring).1.currentName = mgr.currentName := by
  have hl := listNames_update mgr nowMs state ring
  have hlen : (mgr.update nowMs state ring).1._animations.length = mgr._animations.length := by
    rw [← length_listNames, hl, length_listNames]
  have hidx : (mgr.update nowMs state ring).1._activeIndex = mgr._activeIndex := by
    unfold AnimationManager.update
    split
    · split <;> rfl
    · rfl
  rw [currentName_eq_getD, currentName_eq_getD mgr, hl, hlen, hidx]

theorem renderStep_frame (d : Device) (nowMs : Nat) :
    (renderStep d nowMs).animMgr.currentName = d.animMgr.currentName ∧
    (renderStep d nowMs).appState = d.appState ∧
    (renderStep d nowMs).inStrobePhase = d.inStrobePhase := by
  unfold renderStep
  split
  · exact ⟨currentName_update _ _ _ _, rfl, rfl⟩
  · exact ⟨rfl, rfl, rfl⟩

/-- C36: a button-driven animation change does not disarm the settle timer.  In every
state satisfying the loop invariant with the timer armed, the Click1 or Click2 branch of
the button switch leaves the armed flag, the start and the then-animation unchanged
(Click2 makes "fade" or "strobe" active, never the then-animation); while
`(now - start) mod 2^32 < 1000` the settle block changes nothing; and a later pass of
`loop()` with `(now - start) mod 2^32 >= 1000` in which no changed classification
arrives ends with the remembered then-animation active and the timer disarmed, whatever
the button did. -/
theorem button_change_keeps_timer (d : Device) (evt : ButtonEvent) (hinv : LoopInvariant d)
    (harmed : d.inStrobePhase = true)
    (hevt : evt = ButtonEvent.Click1 ∨ evt = ButtonEvent.Click2) :
    ((handleButton d evt).inStrobePhase = true ∧
      (handleButton d evt).strobeStartTime = d.strobeStartTime ∧
      (handleButton d evt).strobeThen = d.strobeThen) ∧
    (evt = ButtonEvent.Click2 →
      (handleButton d evt).animMgr.currentName =
        (if d.animMgr.currentName = "strobe" then "fade" else "strobe") ∧
      (handleButton d evt).animMgr.currentName ≠ d.strobeThen) ∧
    (∀ nowMs : Nat,
      ((nowMs : Int) - (d.strobeStartTime : Int)) % 4294967296 < 1000 →
      settleStep (handleButton d evt) nowMs = handleButton d evt) ∧
    (∀ inp : TickInput, (∀ p : Presence, inp.fetched = some p → p = d.lastPresence) →
      1000 ≤ ((inp.nowMs : Int) - (d.strobeStartTime : Int)) % 4294967296 →
      (loop (handleButton d evt) inp).animMgr.currentName = d.strobeThen ∧
      (loop (handleButton d evt) inp).appState.currentAnimationName = d.strobeThen ∧
      (loop (handleButton d evt) inp).inStrobePhase = false) := by
  obtain ⟨t1, t2, t3, t4⟩ := handleButton_timer d evt
  have hthen := hinv.2 harmed
  refine ⟨⟨t1.trans harmed, t2, t3⟩, ?_, ?_, ?_⟩
  · intro h2
    subst h2
    have hname : (handleButton d ButtonEvent.Click2).animMgr.currentName =
        (if d.animMgr.currentName = "strobe" then "fade" else "strobe") := by
      by_cases h : d.animMgr.currentName = "strobe"
      · simp only [handleButton, h, if_true]
        exact currentName_setActive_toggle d.animMgr "fade" _ hinv.1 (Or.inl rfl)
      · simp only [handleButton, h, if_false]
        exact currentName_setActive_toggle d.animMgr "strobe" _ hinv.1 (Or.inr rfl)
    refine ⟨hname, ?_⟩
    rw [hname]
    rcases hthen with h | h <;> rw [h] <;> split <;> decide
  · intro nowMs hlt
    apply settleStep_idle
    right
    rw [t2]
    have := sub32_eq_emod nowMs d.strobeStartTime
    omega
  · intro inp hq hdue
    have hinv0 : LoopInvariant (handleButton d evt) := handleButton_invariant d evt hinv
    have hinv0b : LoopInvariant
        { handleButton d evt with
          button := ((handleButton d evt).button.update inp.raw inp.nowMs).2 } :=
      ⟨hinv0.1, hinv0.2⟩
    obtain ⟨b1, b2, b3, b4⟩ := handleButton_timer
      { handleButton d evt with
        button := ((handleButton d evt).button.update inp.raw inp.nowMs).2 }
      ((handleButton d evt).button.update inp.raw inp.nowMs).1
    have hinv1 := handleButton_invariant _
      ((handleButton d evt).button.update inp.raw inp.nowMs).1 hinv0b
    obtain ⟨p1, p2, p3, p4⟩ := pollPresence_quiet
      (handleButton { handleButton d evt with
          button := ((handleButton d evt).button.update inp.raw inp.nowMs).2 }
        ((handleButton d evt).button.update inp.raw inp.nowMs).1) inp
      (by
        intro p hp
        rw [b4]
        exact (hq p hp).trans t4.symm)
    have hinv2 := pollPresence_invariant _ inp hinv1
    have harmed2 : (pollPresence (handleButton { handleButton d evt with
          button := ((handleButton d evt).button.update inp.raw inp.nowMs).2 }
        ((handleButton d evt).button.update inp.raw inp.nowMs).1) inp).inStrobePhase = true := by
      rw [p1, b1]; exact t1.trans harmed
    have hstart2 : (pollPresence (handleButton { handleButton d evt with
          button := ((handleButton d evt).button.update inp.raw inp.nowMs).2 }
        ((handleButton d evt).button.update inp.raw inp.nowMs).1) inp).strobeStartTime =
        d.strobeStartTime := by
      rw [p2, b2]; exact t2
    have hthen2 : (pollPresence (handleButton { handleButton d evt with
          button := ((handleButton d evt).button.update inp.raw inp.nowMs).2 }
        ((handleButton d evt).button.update inp.raw inp.nowMs).1) inp).strobeThen =
        d.strobeThen := by
      rw [p3, b3]; exact t3
    have hdue2 : sub32 inp.nowMs (pollPresence (handleButton { handleButton d evt with
          button := ((handleButton d evt).button.update inp.raw inp.nowMs).2 }
        ((handleButton d evt).button.update inp.raw inp.nowMs).1) inp).strobeStartTime
        ≥ 1000 := by
      rw [hstart2]
      have := sub32_eq_emod inp.nowMs d.strobeStartTime
      omega
    have hfire := settleStep_fire _ inp.nowMs harmed2 hdue2
    obtain ⟨f1, f2, f3⟩ := renderStep_frame
      (settleStep (pollPresence (handleButton { handleButton d evt with
          button := ((handleButton d evt).button.update inp.raw inp.nowMs).2 }
        ((handleButton d evt).button.update inp.raw inp.nowMs).1) inp) inp.nowMs) inp.nowMs
    unfold loop
    simp only
    rw [f1, f2, f3, hfire, hthen2]
    refine ⟨?_, rfl, rfl⟩
    exact currentName_setActive_then _ _ _ hinv2.1 hthen

theorem button_change_keeps_timer_witness :
    LoopInvariant busyAt5000 ∧ busyAt5000.inStrobePhase = true ∧
    (handleButton busyAt5000 ButtonEvent.Click2).animMgr.currentName ≠ busyAt5000.strobeThen ∧
    (loop (handleButton busyAt5000 ButtonEvent.Click2) { nowMs := 6000 }).animMgr.currentName =
      busyAt5000.strobeThen :=
  ⟨loop_invariant setup _ setup_invariant, by decide,
    ((button_change_keeps_timer busyAt5000 ButtonEvent.Click2
      (loop_invariant setup _ setup_invariant) (by decide) (Or.inr rfl)).2.1 rfl).2,
    ((button_change_keeps_timer busyAt5000 ButtonEvent.Click2
      (loop_invariant setup _ setup_invariant) (by decide) (Or.inr rfl)).2.2.2
      { nowMs := 6000 } (by intro p hp; exact Option.noConfusion hp) (by decide)).1⟩

/-! ## The settle timer across presence updates -/

end TrafficLight
